import Mathlib

/-!
Cobalt scheduler core (kernel/cobalt/sched.c): multi-level run queue,
scheduling class registry, the pick-next decision, migration, scheduling
policy and introspection; and the POSIX clock services
(kernel/cobalt/clock.c).

The development embeds the C code of `sched.c` as pure state-passing
functions.  Pointers are natural numbers (addresses); the memory holding the
thread control blocks and the class descriptors is an explicit function from
addresses to records.  Fatal checks (`XENO_ASSERT` with `xnpod_fatal`,
`XENO_BUGON`) make an operation return `Except.error` together with the
state reached when the check fired.

C `int` values are integers; the sums and differences of priorities which
`sched.c` computes are wrapped into the range of `int` (`int_wrap`), as the
machine does.  The element counter is left unbounded.  The bitmap words
(`unsigned long`) are naturals reduced modulo `2 ^ BITS_PER_LONG`; the dates
and durations of the clock (`xnticks_t`) are naturals reduced modulo `2 ^ 64`.
-/

namespace Cobalt

/-! ## Build constants -/

/-- Constants of the build which `sched.c` uses and which are declared in
headers outside the files at hand: the width of `unsigned long` and the
number of buckets of a multi-level queue. -/
structure mlq_config where
  BITS_PER_LONG : Nat
  XNSCHED_MLQ_LEVELS : Nat

/-- Number of words of the `lomap` array: one bit per bucket, rounded up. -/
def mlq_config.MLQ_LONGS (c : mlq_config) : Nat :=
  (c.XNSCHED_MLQ_LEVELS + c.BITS_PER_LONG - 1) / c.BITS_PER_LONG

/-- A build is sane when a word has at least one bit and the one-word
`himap` has a bit for every word of `lomap`. -/
def mlq_config.sane (c : mlq_config) : Prop :=
  0 < c.BITS_PER_LONG ∧ c.XNSCHED_MLQ_LEVELS ≤ c.BITS_PER_LONG * c.BITS_PER_LONG

instance (c : mlq_config) : Decidable c.sane := by
  unfold mlq_config.sane; infer_instance

/-- The 32-bit build (the ARM port): 264 levels, 32-bit words. -/
def cfg32 : mlq_config := ⟨32, 264⟩

/-- Largest value of the C type `int`, `2 ^ 31 - 1`.  `XNSCHED_MLQ_LEVELS` is
an expression of type `int` in the source: a build whose level count is
larger than that has an `int` wide enough to hold it. -/
def mlq_config.INT_MAX (c : mlq_config) : Int :=
  max 2147483647 (c.XNSCHED_MLQ_LEVELS : Int)

/-- Arithmetic on the C type `int`: the sum or difference `x`, wrapped into
`[-INT_MAX - 1, INT_MAX]` as two's complement arithmetic does. -/
def int_wrap (c : mlq_config) (x : Int) : Int :=
  (x + (c.INT_MAX + 1)) % (2 * (c.INT_MAX + 1)) - (c.INT_MAX + 1)

/-! ## Fatal checks -/

/-- Modelled from the spec: the `XENO_ASSERT(NUCLEUS, cond, xnpod_fatal(...))`
macro is declared outside the files at hand.  The spec calls the conditions
it guards fatal programming errors (fail fast): when `cond` is false the
operation stops with the message, otherwise it goes on. -/
def XENO_ASSERT (cond : Bool) (msg : String) : Except String Unit :=
  if cond then .ok () else .error msg

/-- Modelled from the spec: the `XENO_BUGON(NUCLEUS, cond)` macro is declared
outside the files at hand.  The spec calls the conditions it detects fatal
internal errors: when `cond` is true the operation stops. -/
def XENO_BUGON (cond : Bool) (msg : String) : Except String Unit :=
  if cond then .error msg else .ok ()

/-! ## Threads -/

/-- Address of a thread control block. -/
abbrev ThreadPtr := Nat

/-- Address of a scheduling class descriptor. -/
abbrev ClassPtr := Nat

/-- Address of a per-CPU scheduler context. -/
abbrev SchedPtr := Nat

/-- The fields of `struct xnthread` read or written by `sched.c`. -/
structure xnthread where
  state : Nat
  cprio : Int
  bprio : Int
  wprio : Int
  sched_class : ClassPtr
  base_class : Option ClassPtr
  sched : SchedPtr
deriving DecidableEq, Repr

/-- Thread memory: the control block stored at each address. -/
abbrev ThreadMem := ThreadPtr → xnthread

/-! ## Machine words -/

/-- The C expression `1UL << n`. -/
def ulong_bit (c : mlq_config) (n : Nat) : Nat :=
  (1 <<< n) % 2 ^ c.BITS_PER_LONG

/-- The C expression `~x` on an `unsigned long`. -/
def ulong_not (c : mlq_config) (x : Nat) : Nat :=
  (2 ^ c.BITS_PER_LONG - 1) ^^^ (x % 2 ^ c.BITS_PER_LONG)

/-- The bit scan forward `ffnz`: index of the least significant set bit of a
word.  The result is undefined when no bit is set, which is `none` here. -/
def ffnz (c : mlq_config) (x : Nat) : Option Nat :=
  (List.range c.BITS_PER_LONG).find? (fun i => x.testBit i)

/-! ## Multi-level queue -/

/-- The record `struct xnsched_mlq`.  `lomap` and `heads` are arrays indexed
from 0; a bucket is the sequence of the threads linked on its list head,
first entry first. -/
structure xnsched_mlq where
  loprio : Int
  hiprio : Int
  elems : Int
  himap : Nat
  lomap : Nat → Nat
  heads : Nat → List ThreadPtr

/-- `sched_initq(q, loprio, hiprio)`: all fields are reset, then the range
check runs, on the `int` value of `hiprio - loprio + 1`. -/
def sched_initq (c : mlq_config) (loprio hiprio : Int) :
    Except String Unit × xnsched_mlq :=
  let q : xnsched_mlq :=
    { loprio := loprio, hiprio := hiprio, elems := 0, himap := 0,
      lomap := fun _ => 0, heads := fun _ => [] }
  (XENO_ASSERT (decide (int_wrap c (hiprio - loprio + 1) < (c.XNSCHED_MLQ_LEVELS : Int)))
     "priority range is beyond multi-level queue indexing capabilities", q)

/-- `indexmlq(q, prio)`: range assertion, then rescaling to a 0-based index,
the `int` value of `q->hiprio - prio`. -/
def indexmlq (c : mlq_config) (q : xnsched_mlq) (prio : Int) : Except String Int :=
  match XENO_ASSERT (decide (prio ≥ q.loprio) && decide (prio ≤ q.hiprio))
      "priority level is out of range" with
  | .error e => .error e
  | .ok _ => .ok (int_wrap c (q.hiprio - prio))

/-- `addmlq(q, prio)`: returns the bucket (its index) the new item goes to. -/
def addmlq (c : mlq_config) (q : xnsched_mlq) (prio : Int) :
    Except String Nat × xnsched_mlq :=
  match indexmlq c q prio with
  | .error e => (.error e, q)
  | .ok i =>
    let idx := i.toNat
    let q1 := { q with elems := q.elems + 1 }
    if q1.heads idx = [] then
      let hi := idx / c.BITS_PER_LONG
      let lo := idx % c.BITS_PER_LONG
      let q2 := { q1 with himap := q1.himap ||| ulong_bit c hi }
      (.ok idx,
        { q2 with lomap := Function.update q2.lomap hi (q2.lomap hi ||| ulong_bit c lo) })
    else (.ok idx, q1)

/-- `sched_insertqlf(q, thread)`: `list_add` links the thread first. -/
def sched_insertqlf (c : mlq_config) (mem : ThreadMem) (q : xnsched_mlq)
    (thread : ThreadPtr) : Except String Unit × xnsched_mlq :=
  match addmlq c q (mem thread).cprio with
  | (.error e, q1) => (.error e, q1)
  | (.ok head, q1) =>
    (.ok (), { q1 with heads := Function.update q1.heads head (thread :: q1.heads head) })

/-- `sched_insertqff(q, thread)`: `list_add_tail` links the thread last. -/
def sched_insertqff (c : mlq_config) (mem : ThreadMem) (q : xnsched_mlq)
    (thread : ThreadPtr) : Except String Unit × xnsched_mlq :=
  match addmlq c q (mem thread).cprio with
  | (.error e, q1) => (.error e, q1)
  | (.ok head, q1) =>
    (.ok (), { q1 with heads := Function.update q1.heads head (q1.heads head ++ [thread]) })

/-- `removemlq(q, entry, idx)`: `list_del` unlinks the entry from the list it
is linked on, whichever bucket that is; the bitmaps are updated from the
bucket `idx`. -/
def removemlq (c : mlq_config) (q : xnsched_mlq) (entry : ThreadPtr) (idx : Nat) :
    xnsched_mlq :=
  let q1 := { q with heads := fun i => (q.heads i).erase entry }
  let q2 := { q1 with elems := q1.elems - 1 }
  if q2.heads idx = [] then
    let hi := idx / c.BITS_PER_LONG
    let lo := idx % c.BITS_PER_LONG
    let q3 := { q2 with
      lomap := Function.update q2.lomap hi (q2.lomap hi &&& ulong_not c (ulong_bit c lo)) }
    if q3.lomap hi = 0 then
      { q3 with himap := q3.himap &&& ulong_not c (ulong_bit c hi) }
    else q3
  else q2

/-- `sched_removeq(q, thread)`: the index is computed (and checked) first. -/
def sched_removeq (c : mlq_config) (mem : ThreadMem) (q : xnsched_mlq)
    (thread : ThreadPtr) : Except String Unit × xnsched_mlq :=
  match indexmlq c q (mem thread).cprio with
  | .error e => (.error e, q)
  | .ok i => (.ok (), removemlq c q thread i.toNat)

/-- `ffsmlq(q)`: two bit scans; undefined (`none`) if a scanned word is 0. -/
def ffsmlq (c : mlq_config) (q : xnsched_mlq) : Option Nat :=
  match ffnz c q.himap with
  | none => none
  | some hi =>
    match ffnz c (q.lomap hi) with
    | none => none
    | some lo => some (hi * c.BITS_PER_LONG + lo)

/-- `sched_getq(q)`: `ok none` is the NULL result. -/
def sched_getq (c : mlq_config) (q : xnsched_mlq) :
    Except String (Option ThreadPtr) × xnsched_mlq :=
  if q.elems = 0 then (.ok none, q)
  else
    match ffsmlq c q with
    | none => (.error "ffnz: undefined result", q)
    | some idx =>
      match XENO_BUGON (q.heads idx).isEmpty "bug: list_empty(head)" with
      | .error e => (.error e, q)
      | .ok _ =>
        match q.heads idx with
        | [] => (.error "list_first_entry on an empty list", q)
        | thread :: _ => (.ok (some thread), removemlq c q thread idx)

/-- `sched_findq(q, prio)` of the scalable build: first thread of the bucket
of `prio`, `ok none` (NULL) when that bucket is empty. -/
def sched_findq (c : mlq_config) (q : xnsched_mlq) (prio : Int) :
    Except String (Option ThreadPtr) :=
  match indexmlq c q prio with
  | .error e => .error e
  | .ok i => .ok (q.heads i.toNat).head?

/-! ## Sequences of queue operations -/

/-- The four operations which change a queue. -/
inductive mlq_op where
  | insertqlf (thread : ThreadPtr)
  | insertqff (thread : ThreadPtr)
  | removeq (thread : ThreadPtr)
  | getq
deriving DecidableEq, Repr

/-- The thread is linked on one of the buckets of the queue. -/
def mlq_linked (q : xnsched_mlq) (thread : ThreadPtr) : Prop :=
  ∃ i, thread ∈ q.heads i

/-- The queue after the operation (at the abort point if the operation is
fatal). -/
def mlq_op.next (c : mlq_config) (mem : ThreadMem) (q : xnsched_mlq) :
    mlq_op → xnsched_mlq
  | .insertqlf t => (sched_insertqlf c mem q t).2
  | .insertqff t => (sched_insertqff c mem q t).2
  | .removeq t => (sched_removeq c mem q t).2
  | .getq => (sched_getq c q).2

/-- The operation ran to its end: no fatal check fired, no undefined result
was used. -/
def mlq_op.completes (c : mlq_config) (mem : ThreadMem) (q : xnsched_mlq) :
    mlq_op → Bool
  | .insertqlf t => (sched_insertqlf c mem q t).1.toBool
  | .insertqff t => (sched_insertqff c mem q t).1.toBool
  | .removeq t => (sched_removeq c mem q t).1.toBool
  | .getq => (sched_getq c q).1.toBool

/-- Caller obligations: an insert takes a thread which is not queued and
whose priority is in range, a remove takes a thread which is queued. -/
def mlq_op.valid (mem : ThreadMem) (q : xnsched_mlq) : mlq_op → Prop
  | .insertqlf t => ¬ mlq_linked q t ∧ q.loprio ≤ (mem t).cprio ∧ (mem t).cprio ≤ q.hiprio
  | .insertqff t => ¬ mlq_linked q t ∧ q.loprio ≤ (mem t).cprio ∧ (mem t).cprio ≤ q.hiprio
  | .removeq t => mlq_linked q t
  | .getq => True

/-- Front-inserts the threads one after the other. -/
def insert_all_lf (c : mlq_config) (mem : ThreadMem) (q : xnsched_mlq) :
    List ThreadPtr → xnsched_mlq
  | [] => q
  | t :: ts => insert_all_lf c mem (sched_insertqlf c mem q t).2 ts

/-- Back-inserts the threads one after the other. -/
def insert_all_ff (c : mlq_config) (mem : ThreadMem) (q : xnsched_mlq) :
    List ThreadPtr → xnsched_mlq
  | [] => q
  | t :: ts => insert_all_ff c mem (sched_insertqff c mem q t).2 ts

/-- The results of `n` successive calls of `sched_getq`. -/
def getq_results (c : mlq_config) (q : xnsched_mlq) :
    Nat → List (Except String (Option ThreadPtr))
  | 0 => []
  | n + 1 => (sched_getq c q).1 :: getq_results c (sched_getq c q).2 n

/-- The buckets `0 .. n-1` laid end to end, lowest index first. -/
def mlq_flat (heads : Nat → List ThreadPtr) : Nat → List ThreadPtr
  | 0 => []
  | n + 1 => mlq_flat heads n ++ heads n

/-- All the threads of the queue, in bucket order. -/
def mlq_threads (c : mlq_config) (q : xnsched_mlq) : List ThreadPtr :=
  mlq_flat q.heads c.XNSCHED_MLQ_LEVELS

/-- The bitmaps match the buckets: the bit of bucket `i` is set exactly when
the bucket holds a thread, bit `hi` of `himap` exactly when word `hi` of
`lomap` is not zero. -/
def mlq_bitmaps_match (c : mlq_config) (q : xnsched_mlq) : Prop :=
  (∀ i, (q.lomap (i / c.BITS_PER_LONG)).testBit (i % c.BITS_PER_LONG) = true ↔
      q.heads i ≠ []) ∧
  (∀ hi, q.himap.testBit hi = true ↔ q.lomap hi ≠ 0)

/-- Well-formed queue: what `sched_initq` establishes on a range the buckets
can hold, and the operations keep, for a fixed thread memory. -/
structure mlq_wf (c : mlq_config) (mem : ThreadMem) (q : xnsched_mlq) : Prop where
  range : q.hiprio - q.loprio + 1 < (c.XNSCHED_MLQ_LEVELS : Int)
  bitmaps : mlq_bitmaps_match c q
  himap_lt : q.himap < 2 ^ c.BITS_PER_LONG
  lomap_lt : ∀ hi, q.lomap hi < 2 ^ c.BITS_PER_LONG
  place : ∀ i t, t ∈ q.heads i →
    q.loprio ≤ (mem t).cprio ∧ (mem t).cprio ≤ q.hiprio ∧
      i = (q.hiprio - (mem t).cprio).toNat
  nodup : ∀ i, (q.heads i).Nodup
  count : q.elems = ((mlq_threads c q).length : Int)

/-- The queue in which bucket `idx` has been given the contents `l` by an
insert: one more element, the two bits of the bucket set if the bucket was
empty.  This is the closed form of `addmlq` followed by `list_add` or
`list_add_tail`, used to reason about both inserts at once. -/
def mlq_link (c : mlq_config) (q : xnsched_mlq) (idx : Nat) (l : List ThreadPtr) :
    xnsched_mlq :=
  { loprio := q.loprio
    hiprio := q.hiprio
    elems := q.elems + 1
    himap := if q.heads idx = [] then q.himap ||| ulong_bit c (idx / c.BITS_PER_LONG)
      else q.himap
    lomap := if q.heads idx = [] then
        Function.update q.lomap (idx / c.BITS_PER_LONG)
          (q.lomap (idx / c.BITS_PER_LONG) ||| ulong_bit c (idx % c.BITS_PER_LONG))
      else q.lomap
    heads := Function.update q.heads idx l }

/-- Bucket index of a thread: `hiprio - cprio`, which is what `indexmlq`
returns on a queue whose range the buckets can hold (no wrap there). -/
def mlq_index (mem : ThreadMem) (q : xnsched_mlq) (thread : ThreadPtr) : Nat :=
  (q.hiprio - (mem thread).cprio).toNat

/-- A thread memory for concrete runs: the thread at address `n` has
priority `n`, no state flag, class 0 and context 0. -/
def prio_mem : ThreadMem := fun t =>
  { state := 0, cprio := (t : Int), bprio := (t : Int), wprio := (t : Int),
    sched_class := 0, base_class := none, sched := 0 }

/-- A thread memory for concrete runs: every thread has priority `p`. -/
def const_prio_mem (p : Int) : ThreadMem := fun _ =>
  { state := 0, cprio := p, bprio := p, wprio := p,
    sched_class := 0, base_class := none, sched := 0 }

/-- A queue for concrete runs: priorities 0..99, thread 10 front-inserted. -/
def demo_queue : xnsched_mlq :=
  (sched_insertqlf cfg32 prio_mem (sched_initq cfg32 0 99).2 10).2

/-! ## Scheduling class registry -/

/-- The fields of `struct xnsched_class` used by the registry. -/
structure xnsched_class where
  weight : Int
  next : Option ClassPtr
  nthreads : Int
deriving DecidableEq, Repr

/-- Class memory together with the static `xnsched_class_highest` pointer. -/
structure class_registry where
  classes : ClassPtr → xnsched_class
  xnsched_class_highest : Option ClassPtr

/-- `xnsched_register_class(sched_class)`: the class is linked at the head of
the chain, then the ordering check runs on the linked chain. -/
def xnsched_register_class (r : class_registry) (sched_class : ClassPtr) :
    Except String Unit × class_registry :=
  let r1 : class_registry :=
    { r with classes := (Function.update r.classes sched_class
        { r.classes sched_class with next := r.xnsched_class_highest }) }
  let r2 : class_registry := { r1 with xnsched_class_highest := some sched_class }
  let bug : Bool :=
    match (r2.classes sched_class).next with
    | none => false
    | some n => decide ((r2.classes n).weight > (r2.classes sched_class).weight)
  (XENO_BUGON bug "bug: sched_class->next && sched_class->next->weight > sched_class->weight",
    r2)

/-- Registers the classes one after the other; stops at the first fatal
check. -/
def register_all (r : class_registry) : List ClassPtr → Except String Unit × class_registry
  | [] => (.ok (), r)
  | p :: ps =>
    match xnsched_register_class r p with
    | (.error e, r1) => (.error e, r1)
    | (.ok _, r1) => register_all r1 ps

/-- The loop `for_each_xnsched_class(p)` run for at most `fuel` iterations
from the pointer `p`: the classes visited, in order, or `none` when the loop
has not reached the NULL pointer within `fuel` iterations. -/
def for_each_xnsched_class (classes : ClassPtr → xnsched_class) :
    Nat → Option ClassPtr → Option (List ClassPtr)
  | _, none => some []
  | 0, some _ => none
  | fuel + 1, some p =>
    (for_each_xnsched_class classes fuel (classes p).next).map (fun l => p :: l)

/-- The first `n` classes the loop `for_each_xnsched_class(p)` visits. -/
def class_visits (classes : ClassPtr → xnsched_class) :
    Nat → Option ClassPtr → List ClassPtr
  | _, none => []
  | 0, some _ => []
  | n + 1, some p => p :: class_visits classes n (classes p).next

/-- The registry before any registration: the static pointer is NULL. -/
def registry_init (classes : ClassPtr → xnsched_class) : class_registry :=
  { classes := classes, xnsched_class_highest := none }

/-- Class memory for concrete runs: every class has weight 0. -/
def equal_weight_classes : ClassPtr → xnsched_class := fun _ =>
  { weight := 0, next := none, nthreads := 0 }

/-- Class memory for concrete runs: the class at address `n` has weight `n`. -/
def weighted_classes : ClassPtr → xnsched_class := fun p =>
  { weight := (p : Int), next := none, nthreads := 0 }

/-! ## Per-CPU scheduler context and pick-next -/

/-- Flag masks of the thread state word and of the scheduler status word;
they are declared in headers outside the files at hand. -/
structure xn_flags where
  XNTHREAD_BLOCK_BITS : Nat
  XNZOMBIE : Nat
  XNLOCK : Nat
  XNREADY : Nat
  XNROOT : Nat
  XNUSER : Nat
  XNMIGRATE : Nat
  XNSTARTED : Nat
  XNRESCHED : Nat
  XNINSW : Nat

/-- The fields of `struct xnsched` used by `sched.c`. -/
structure xnsched where
  status : Nat
  lflags : Nat
  curr : ThreadPtr
  rootcb : ThreadPtr
  zombie : Option ThreadPtr
  last : ThreadPtr
  wdcount : Nat
deriving DecidableEq, Repr

/-- The scheduler state: thread memory, scheduler contexts, class chain, and
the run queues of the classes (`RQ`), which only the class hooks touch. -/
structure nucleus (RQ : Type) where
  threads : ThreadMem
  scheds : SchedPtr → xnsched
  registry : class_registry
  runq : RQ

/-- The class hooks and inline helpers `sched.c` calls; their code is outside
the files at hand, so they are parameters. -/
structure sched_hooks (RQ : Type) where
  sched_pick : ClassPtr → SchedPtr → nucleus RQ → Option ThreadPtr × nucleus RQ
  xnsched_requeue : ThreadPtr → nucleus RQ → nucleus RQ
  __xnsched_rt_pick : SchedPtr → nucleus RQ → Option ThreadPtr × nucleus RQ

/-- `xnthread_test_state(thread, bits)`. -/
def xnthread_test_state {RQ : Type} (w : nucleus RQ) (thread : ThreadPtr) (bits : Nat) :
    Bool :=
  (w.threads thread).state &&& bits != 0

/-- `xnthread_set_state(thread, bits)`. -/
def xnthread_set_state {RQ : Type} (w : nucleus RQ) (thread : ThreadPtr) (bits : Nat) :
    nucleus RQ :=
  { w with threads := (Function.update w.threads thread
      { w.threads thread with state := (w.threads thread).state ||| bits }) }

/-- `xnthread_clear_state(thread, bits)`: the word and-ed with `~bits`. -/
def xnthread_clear_state {RQ : Type} (w : nucleus RQ) (thread : ThreadPtr) (bits : Nat) :
    nucleus RQ :=
  { w with threads := (Function.update w.threads thread
      { w.threads thread with
        state := (w.threads thread).state ^^^ ((w.threads thread).state &&& bits) }) }

/-- Modelled from the spec: `xnsched_set_self_resched(sched)` is declared
outside the files at hand; it marks the context "reschedule requested",
which is the `XNRESCHED` bit of the status word. -/
def xnsched_set_self_resched {RQ : Type} (f : xn_flags) (w : nucleus RQ) (sched : SchedPtr) :
    nucleus RQ :=
  { w with scheds := (Function.update w.scheds sched
      { w.scheds sched with status := (w.scheds sched).status ||| f.XNRESCHED }) }

/-- The class scan of `xnsched_pick_next`, from class pointer `p`, for at
most `fuel` iterations.  `none`: the loop has not ended within `fuel`
iterations; `some (none, _)`: the loop ended and the function returns NULL. -/
def pick_scan {RQ : Type} (f : xn_flags) (h : sched_hooks RQ) (sched : SchedPtr) :
    Nat → Option ClassPtr → nucleus RQ → Option (Option ThreadPtr × nucleus RQ)
  | _, none, w => some (none, w)
  | 0, some _, _ => none
  | fuel + 1, some p, w =>
    match h.sched_pick p sched w with
    | (some thread, w1) => some (some thread, xnthread_clear_state w1 thread f.XNREADY)
    | (none, w1) => pick_scan f h sched fuel (w1.registry.classes p).next w1

/-- `xnsched_pick_next(sched)`.  `classes` tells whether the build has
`CONFIG_XENO_OPT_SCHED_CLASSES`; the result is the returned thread pointer
(`none` is NULL) with the state, or `none` when the class scan has not ended
within `fuel` iterations. -/
def xnsched_pick_next {RQ : Type} (f : xn_flags) (h : sched_hooks RQ) (classes : Bool)
    (fuel : Nat) (w : nucleus RQ) (sched : SchedPtr) :
    Option (Option ThreadPtr × nucleus RQ) :=
  let curr := (w.scheds sched).curr
  let unblocked := !xnthread_test_state w curr (f.XNTHREAD_BLOCK_BITS ||| f.XNZOMBIE)
  if unblocked && xnthread_test_state w curr f.XNLOCK then
    some (some curr, xnsched_set_self_resched f w sched)
  else
    let w1 :=
      if unblocked && !xnthread_test_state w curr f.XNREADY then
        xnthread_set_state (h.xnsched_requeue curr w) curr f.XNREADY
      else w
    if classes then
      pick_scan f h sched fuel w1.registry.xnsched_class_highest w1
    else
      match h.__xnsched_rt_pick sched w1 with
      | (some thread, w2) => some (some thread, xnthread_clear_state w2 thread f.XNREADY)
      | (none, w2) =>
        some (some (w2.scheds sched).rootcb,
          xnthread_clear_state w2 (w2.scheds sched).rootcb f.XNREADY)

/-- Flag masks for concrete runs: one bit per flag, three blocking bits. -/
def demo_flags : xn_flags :=
  { XNTHREAD_BLOCK_BITS := 0x7, XNZOMBIE := 0x20, XNLOCK := 0x1000, XNREADY := 0x8,
    XNROOT := 0x10000, XNUSER := 0x40000, XNMIGRATE := 0x100, XNSTARTED := 0x80000,
    XNRESCHED := 0x1, XNINSW := 0x2 }

/-- Hooks for concrete runs over a run queue made of one list of ready
threads: every class picks the first thread of the list, requeueing puts the
thread in front. -/
def demo_hooks : sched_hooks (List ThreadPtr) :=
  { sched_pick := fun _ _ w =>
      match w.runq with
      | [] => (none, w)
      | t :: rest => (some t, { w with runq := rest })
    xnsched_requeue := fun t w => { w with runq := t :: w.runq }
    __xnsched_rt_pick := fun _ w =>
      match w.runq with
      | [] => (none, w)
      | t :: rest => (some t, { w with runq := rest }) }

/-- A scheduler state for concrete runs: context 0 runs thread 1, which holds
the scheduler lock; thread 2 of priority 90 is ready; thread 0 is the root
thread. -/
def demo_nucleus : nucleus (List ThreadPtr) :=
  { threads := fun t =>
      { state := if t = 1 then 0x1000 else if t = 2 then 0x8 else 0x10000,
        cprio := if t = 1 then 10 else if t = 2 then 90 else -1,
        bprio := if t = 1 then 10 else if t = 2 then 90 else -1,
        wprio := if t = 1 then 10 else if t = 2 then 90 else -1,
        sched_class := 0, base_class := some 0, sched := 0 }
    scheds := fun _ =>
      { status := 0, lflags := 0, curr := 1, rootcb := 0, zombie := none, last := 0,
        wdcount := 0 }
    registry := registry_init weighted_classes
    runq := [2] }

/-- The state in which `xnsched_pick_next` starts looking for a thread, when
it has not returned the lock holder: the current thread pushed back to its
run queue and marked `XNREADY` if it is runnable and was not linked. -/
def pick_requeue {RQ : Type} (f : xn_flags) (h : sched_hooks RQ) (w : nucleus RQ)
    (sched : SchedPtr) : nucleus RQ :=
  let curr := (w.scheds sched).curr
  if (!xnthread_test_state w curr (f.XNTHREAD_BLOCK_BITS ||| f.XNZOMBIE)) &&
      !xnthread_test_state w curr f.XNREADY then
    xnthread_set_state (h.xnsched_requeue curr w) curr f.XNREADY
  else w

/-- The second half of `xnsched_pick_next`, run from the state `w1`: the class
scan of the build with scheduling classes, or the realtime pick with the root
thread as fallback. -/
def pick_classes {RQ : Type} (f : xn_flags) (h : sched_hooks RQ) (classes : Bool)
    (fuel : Nat) (w1 : nucleus RQ) (sched : SchedPtr) :
    Option (Option ThreadPtr × nucleus RQ) :=
  if classes then
    pick_scan f h sched fuel w1.registry.xnsched_class_highest w1
  else
    match h.__xnsched_rt_pick sched w1 with
    | (some thread, w2) => some (some thread, xnthread_clear_state w2 thread f.XNREADY)
    | (none, w2) =>
      some (some (w2.scheds sched).rootcb,
        xnthread_clear_state w2 (w2.scheds sched).rootcb f.XNREADY)

/-- The scan as the design words it: the classes of the list are asked for a
thread one after the other, in the order of the list, until one yields a
thread.  The result is the list of the classes asked, the thread yielded (if
any) and the state after the last class asked. -/
def ask_classes {RQ : Type} (h : sched_hooks RQ) (sched : SchedPtr) :
    List ClassPtr → nucleus RQ → List ClassPtr × Option ThreadPtr × nucleus RQ
  | [], w => ([], none, w)
  | p :: ps, w =>
    match h.sched_pick p sched w with
    | (some thread, w1) => ([p], some thread, w1)
    | (none, w1) =>
      (p :: (ask_classes h sched ps w1).1, (ask_classes h sched ps w1).2.1,
        (ask_classes h sched ps w1).2.2)

/-- A scheduler state for concrete runs: context 0 runs thread 1, which is
blocked; no thread is ready; classes 0 and 1 are registered. -/
def starved_nucleus : nucleus (List ThreadPtr) :=
  { threads := fun t =>
      { state := if t = 1 then 0x1 else 0x10000,
        cprio := if t = 1 then 10 else -1,
        bprio := if t = 1 then 10 else -1,
        wprio := if t = 1 then 10 else -1,
        sched_class := 1, base_class := some 1, sched := 0 }
    scheds := fun _ =>
      { status := 0, lflags := 0, curr := 1, rootcb := 0, zombie := none, last := 0,
        wdcount := 0 }
    registry := (register_all (registry_init weighted_classes) [0, 1]).2
    runq := [] }

/-- Hooks for concrete runs with an idle class: class 0 always yields the
root thread of the context, the other classes pick the first thread of the
list. -/
def idle_hooks : sched_hooks (List ThreadPtr) :=
  { sched_pick := fun p s w =>
      if p = 0 then (some (w.scheds s).rootcb, w)
      else
        match w.runq with
        | [] => (none, w)
        | t :: rest => (some t, { w with runq := rest })
    xnsched_requeue := fun t w => { w with runq := t :: w.runq }
    __xnsched_rt_pick := fun _ w =>
      match w.runq with
      | [] => (none, w)
      | t :: rest => (some t, { w with runq := rest }) }

/-- Hooks for concrete runs in which no class ever yields a thread. -/
def silent_hooks : sched_hooks (List ThreadPtr) :=
  { sched_pick := fun _ _ w => (none, w)
    xnsched_requeue := fun t w => { w with runq := t :: w.runq }
    __xnsched_rt_pick := fun _ w => (none, w) }

/-- A scheduler state for concrete runs: context 0 runs thread 1, which is
runnable, does not hold the scheduler lock and is not linked to its run queue;
thread 2 is ready. -/
def running_nucleus : nucleus (List ThreadPtr) :=
  { threads := fun t =>
      { state := if t = 1 then 0 else if t = 2 then 0x8 else 0x10000,
        cprio := if t = 1 then 10 else if t = 2 then 90 else -1,
        bprio := if t = 1 then 10 else if t = 2 then 90 else -1,
        wprio := if t = 1 then 10 else if t = 2 then 90 else -1,
        sched_class := 1, base_class := some 1, sched := 0 }
    scheds := fun _ =>
      { status := 0, lflags := 0, curr := 1, rootcb := 0, zombie := none, last := 0,
        wdcount := 0 }
    registry := (register_all (registry_init weighted_classes) [0, 1]).2
    runq := [2] }

/-! ## Calls to code outside `sched.c` -/

/-- A call from `sched.c` to a function or class hook whose code is outside
the files at hand, with its arguments. -/
inductive ext_call where
  | xnshadow_unmap (thread : ThreadPtr)
  | xnsched_forget (thread : ThreadPtr)
  | xnthread_cleanup (thread : Option ThreadPtr)
  | xnfreesync
  | xnshadow_call_mayday (thread : ThreadPtr) (sig : Nat)
  | xnpod_cancel_thread (thread : ThreadPtr)
  | sched_migrate (sched_class : ClassPtr) (thread : ThreadPtr) (sched : SchedPtr)
  | sched_init (sched_class : ClassPtr) (sched : SchedPtr)
  | setup (callee : String) (sched : SchedPtr)
  | sched_declare (sched_class : ClassPtr) (thread : ThreadPtr)
  | xnsched_setparam (thread : ThreadPtr)
  | xnsched_getparam (thread : ThreadPtr)
  | xnsched_trackprio (thread : ThreadPtr) (target : Option ThreadPtr)
deriving DecidableEq, Repr

/-- What the code outside does, as parameters: the effect of each call on the
scheduler state, which classes have a `sched_migrate` hook and a `sched_init`
hook, and two constants of the build (the watchdog threshold
`wd_timeout_arg`, the signal code `SIGDEBUG_WATCHDOG`). -/
structure ext_env (RQ : Type) where
  effect : ext_call → nucleus RQ → nucleus RQ
  has_sched_migrate : ClassPtr → Bool
  has_sched_init : ClassPtr → Bool
  wd_timeout_arg : Nat
  SIGDEBUG_WATCHDOG : Nat

/-! ## Watchdog -/

/-- Modelled from the spec: `xnsched_reset_watchdog(sched)` is declared
outside the files at hand; the spec says the watchdog counter resets, which
is the store of 0 into `wdcount`. -/
def xnsched_reset_watchdog {RQ : Type} (w : nucleus RQ) (sched : SchedPtr) : nucleus RQ :=
  { w with scheds := (Function.update w.scheds sched { w.scheds sched with wdcount := 0 }) }

/-- `xnsched_watchdog_handler(timer)` run on the context `sched` of the
current CPU.  The result is the list of the calls made to outside code and
the state.  The tracing marker is left out. -/
def xnsched_watchdog_handler {RQ : Type} (f : xn_flags) (x : ext_env RQ) (w : nucleus RQ)
    (sched : SchedPtr) : List ext_call × nucleus RQ :=
  let curr := (w.scheds sched).curr
  if xnthread_test_state w curr f.XNROOT then
    ([], xnsched_reset_watchdog w sched)
  else
    let w1 : nucleus RQ :=
      { w with scheds := (Function.update w.scheds sched
          { w.scheds sched with wdcount := (w.scheds sched).wdcount + 1 }) }
    if (w1.scheds sched).wdcount < x.wd_timeout_arg then
      ([], w1)
    else if xnthread_test_state w1 curr f.XNUSER then
      ([.xnshadow_call_mayday curr x.SIGDEBUG_WATCHDOG],
        xnsched_reset_watchdog
          (x.effect (.xnshadow_call_mayday curr x.SIGDEBUG_WATCHDOG) w1) sched)
    else
      ([.xnpod_cancel_thread curr],
        xnsched_reset_watchdog (x.effect (.xnpod_cancel_thread curr) w1) sched)

/-- Successive watchdog ticks on one context.  Before each tick the rest of
the system runs: `envs` gives, tick by tick, what it does to the state.  The
result lists the outside calls of each tick. -/
def watchdog_run {RQ : Type} (f : xn_flags) (x : ext_env RQ) (sched : SchedPtr) :
    List (nucleus RQ → nucleus RQ) → nucleus RQ → List (List ext_call) × nucleus RQ
  | [], w => ([], w)
  | env :: envs, w =>
    ((xnsched_watchdog_handler f x (env w) sched).1 ::
        (watchdog_run f x sched envs (xnsched_watchdog_handler f x (env w) sched).2).1,
      (watchdog_run f x sched envs (xnsched_watchdog_handler f x (env w) sched).2).2)

/-! ## Zombie slot -/

/-- `xnsched_zombie_hooks(thread)`.  The tracing marker is left out. -/
def xnsched_zombie_hooks {RQ : Type} (x : ext_env RQ) (w : nucleus RQ) (thread : ThreadPtr) :
    Except String (List ext_call) × nucleus RQ :=
  match XENO_BUGON ((w.scheds (w.threads thread).sched).zombie != none)
      "bug: thread->sched->zombie != NULL" with
  | .error e => (.error e, w)
  | .ok _ =>
    let w1 : nucleus RQ :=
      { w with scheds := (Function.update w.scheds (w.threads thread).sched
          { w.scheds (w.threads thread).sched with zombie := some thread }) }
    let w2 := x.effect (.xnshadow_unmap thread) w1
    let w3 := x.effect (.xnsched_forget thread) w2
    (.ok [.xnshadow_unmap thread, .xnsched_forget thread], w3)

/-- `__xnsched_finalize_zombie(sched)`.  The pointer read from the slot is
passed to `xnthread_cleanup` as it is, NULL (`none`) included. -/
def __xnsched_finalize_zombie {RQ : Type} (f : xn_flags) (x : ext_env RQ) (w : nucleus RQ)
    (sched : SchedPtr) : List ext_call × nucleus RQ :=
  let thread := (w.scheds sched).zombie
  let w1 := x.effect (.xnthread_cleanup thread) w
  let r : List ext_call × nucleus RQ :=
    if xnthread_test_state w1 (w1.scheds sched).curr f.XNROOT then
      ([.xnthread_cleanup thread, .xnfreesync], x.effect .xnfreesync w1)
    else ([.xnthread_cleanup thread], w1)
  (r.1, { r.2 with scheds := (Function.update r.2.scheds sched
      { r.2.scheds sched with zombie := none }) })

/-- The outside calls of the list made one after the other. -/
def run_calls {RQ : Type} (x : ext_env RQ) : List ext_call → nucleus RQ → nucleus RQ
  | [], w => w
  | call :: calls, w => run_calls x calls (x.effect call w)

/-- The first loop of `xnsched_init`: every class of the chain which has a
`sched_init` hook has it called.  `none`: the loop has not ended within `fuel`
iterations. -/
def init_classes {RQ : Type} (x : ext_env RQ) (sched : SchedPtr) :
    Nat → Option ClassPtr → nucleus RQ → Option (List ext_call × nucleus RQ)
  | _, none, w => some ([], w)
  | 0, some _, _ => none
  | fuel + 1, some p, w =>
    if x.has_sched_init p then
      (init_classes x sched fuel ((x.effect (.sched_init p sched) w).registry.classes p).next
          (x.effect (.sched_init p sched) w)).map
        (fun r => (ext_call.sched_init p sched :: r.1, r.2))
    else init_classes x sched fuel (w.registry.classes p).next w

/-- The calls of `xnsched_init` which set up the host timer. -/
def htimer_setup (sched : SchedPtr) : List ext_call :=
  [.setup "xntimer_init(htimer)" sched, .setup "xntimer_set_priority(htimer)" sched,
    .setup "xntimer_set_name(htimer)" sched, .setup "xntimer_set_sched(htimer)" sched]

/-- The calls of `xnsched_init` which set up the root thread, then the
watchdog timer when the build has the watchdog, then the timer queue. -/
def root_setup (watchdog : Bool) (sched : SchedPtr) : List ext_call :=
  [.setup "xnthread_init(rootcb)" sched, .setup "xnstat_exectime_set_current" sched,
    .setup "xnthread_init_root_tcb(rootcb)" sched] ++
  (if watchdog then
    [.setup "xntimer_init_noblock(wdtimer)" sched, .setup "xntimer_set_name(wdtimer)" sched,
      .setup "xntimer_set_priority(wdtimer)" sched, .setup "xntimer_set_sched(wdtimer)" sched]
   else []) ++
  [.setup "xntimerq_init" sched]

/-- `xnsched_init(sched, cpu)`: the class loop, the stores into `status`,
`lflags` and `curr`, the host timer set-up, the store of NULL into `zombie`,
then the set-up of the root thread, of the watchdog timer (`watchdog` tells
whether the build has it) and of the timer queue.  The stores into `cpu`,
`inesting`, `resched`, `fpuholder` and the root thread affinity, fields which
are not kept here, are left out.  The result is the list of the outside calls
and the state, or `none` when the class loop has not ended within `fuel`
iterations. -/
def xnsched_init {RQ : Type} (x : ext_env RQ) (watchdog : Bool) (fuel : Nat) (w : nucleus RQ)
    (sched : SchedPtr) : Option (List ext_call × nucleus RQ) :=
  match init_classes x sched fuel w.registry.xnsched_class_highest w with
  | none => none
  | some (tr, w1) =>
    let w2 : nucleus RQ :=
      { w1 with scheds := (Function.update w1.scheds sched
          { w1.scheds sched with
            status := 0, lflags := 0, curr := (w1.scheds sched).rootcb }) }
    let w3 := run_calls x (htimer_setup sched) w2
    let w4 : nucleus RQ :=
      { w3 with scheds := (Function.update w3.scheds sched
          { w3.scheds sched with zombie := none }) }
    some (tr ++ htimer_setup sched ++ root_setup watchdog sched,
      run_calls x (root_setup watchdog sched) w4)

/-- A call on the zombie slot of a context. -/
inductive zombie_op where
  | hooks (thread : ThreadPtr)
  | finalize
deriving DecidableEq, Repr

/-- Runs the calls one after the other on the context `sched`; stops at the
first fatal check.  The result is the list of the outside calls of each call
made, and the state. -/
def zombie_run {RQ : Type} (f : xn_flags) (x : ext_env RQ) (sched : SchedPtr) :
    List zombie_op → nucleus RQ → Except String (List (List ext_call)) × nucleus RQ
  | [], w => (.ok [], w)
  | .hooks t :: ops, w =>
    match xnsched_zombie_hooks x w t with
    | (.error e, w1) => (.error e, w1)
    | (.ok tr, w1) =>
      match zombie_run f x sched ops w1 with
      | (.error e, w2) => (.error e, w2)
      | (.ok trs, w2) => (.ok (tr :: trs), w2)
  | .finalize :: ops, w =>
    match zombie_run f x sched ops (__xnsched_finalize_zombie f x w sched).2 with
    | (.error e, w2) => (.error e, w2)
    | (.ok trs, w2) => (.ok ((__xnsched_finalize_zombie f x w sched).1 :: trs), w2)

/-- The outside code leaves the zombie slots and the owning context of the
threads as they are. -/
def ext_keeps_zombie {RQ : Type} (x : ext_env RQ) : Prop :=
  ∀ (call : ext_call) (w : nucleus RQ),
    (∀ s, ((x.effect call w).scheds s).zombie = (w.scheds s).zombie) ∧
    (∀ t, ((x.effect call w).threads t).sched = (w.threads t).sched)

/-- Outside code for concrete runs: no effect on the state kept here, no
`sched_migrate` hook, a watchdog threshold of 3 ticks. -/
def quiet_env (RQ : Type) : ext_env RQ :=
  { effect := fun _ w => w, has_sched_migrate := fun _ => false,
    has_sched_init := fun _ => false, wd_timeout_arg := 3, SIGDEBUG_WATCHDOG := 3 }

/-- The content of the zombie slot after a sequence of calls which did not
abort, from the content `slot` before: the thread of the last call if that
call is `xnsched_zombie_hooks`, nothing if it is a finalization. -/
def zombie_slot_after (slot : Option ThreadPtr) : List zombie_op → Option ThreadPtr
  | [] => slot
  | .hooks t :: ops => zombie_slot_after (some t) ops
  | .finalize :: ops => zombie_slot_after none ops

/-- What runs between two watchdog ticks leaves the watchdog counter of the
context as it is. -/
def keeps_wdcount {RQ : Type} (sched : SchedPtr) (env : nucleus RQ → nucleus RQ) : Prop :=
  ∀ w, ((env w).scheds sched).wdcount = (w.scheds sched).wdcount

/-- What runs between two watchdog ticks leaves the same thread current on
the context, and leaves it a non-root thread if it was one. -/
def keeps_current {RQ : Type} (f : xn_flags) (sched : SchedPtr)
    (env : nucleus RQ → nucleus RQ) : Prop :=
  ∀ w, ((env w).scheds sched).curr = (w.scheds sched).curr ∧
    ((w.threads (w.scheds sched).curr).state &&& f.XNROOT = 0 →
      ((env w).threads (w.scheds sched).curr).state &&& f.XNROOT = 0)

/-- A scheduler state for concrete runs: `running_nucleus` after
`xnsched_init` has run on context 0 (watchdog build, quiet outside code). -/
def booted_nucleus : nucleus (List ThreadPtr) :=
  match xnsched_init (quiet_env (List ThreadPtr)) true 2 running_nucleus 0 with
  | some r => r.2
  | none => running_nucleus

/-! ## Run queues and migration -/

/-- Modelled from the spec: the run queues are declared in class code outside
the files at hand.  The spec gives every scheduling class a run queue per
context, holding the runnable threads of the class; here it is the sequence of
the threads linked, first to be served first. -/
abbrev run_queues := SchedPtr → ClassPtr → List ThreadPtr

/-- The thread is linked on some run queue. -/
def rq_linked (w : nucleus run_queues) (thread : ThreadPtr) : Prop :=
  ∃ s c, thread ∈ w.runq s c

/-- Modelled from the spec: `xnsched_enqueue(thread)` is declared outside the
files at hand; the spec has the thread enter the run queue of its class on
its owning context. -/
def xnsched_enqueue (w : nucleus run_queues) (thread : ThreadPtr) : nucleus run_queues :=
  { w with runq := (Function.update w.runq (w.threads thread).sched
      (Function.update (w.runq (w.threads thread).sched) (w.threads thread).sched_class
        (w.runq (w.threads thread).sched (w.threads thread).sched_class ++ [thread]))) }

/-- Modelled from the spec: `xnsched_dequeue(thread)` is declared outside the
files at hand; the spec has the thread leave the run queue of its class on
its owning context. -/
def xnsched_dequeue (w : nucleus run_queues) (thread : ThreadPtr) : nucleus run_queues :=
  { w with runq := (Function.update w.runq (w.threads thread).sched
      (Function.update (w.runq (w.threads thread).sched) (w.threads thread).sched_class
        ((w.runq (w.threads thread).sched (w.threads thread).sched_class).erase thread))) }

/-- Modelled from the spec: `xnsched_set_resched(sched)` is declared outside
the files at hand; the spec has it request a reschedule on the context, which
is the `XNRESCHED` bit of its status word. -/
def xnsched_set_resched {RQ : Type} (f : xn_flags) (w : nucleus RQ) (sched : SchedPtr) :
    nucleus RQ :=
  { w with scheds := (Function.update w.scheds sched
      { w.scheds sched with status := (w.scheds sched).status ||| f.XNRESCHED }) }

/-- `xnsched_putback(thread)`. -/
def xnsched_putback (f : xn_flags) (w : nucleus run_queues) (thread : ThreadPtr) :
    nucleus run_queues :=
  let w1 :=
    if xnthread_test_state w thread f.XNREADY then xnsched_dequeue w thread
    else xnthread_set_state w thread f.XNREADY
  let w2 := xnsched_enqueue w1 thread
  xnsched_set_resched f w2 (w2.threads thread).sched

/-- `xnsched_migrate(thread, sched)`.  `unlocked_switch` tells whether the
build has `CONFIG_XENO_HW_UNLOCKED_SWITCH`.  The result is the list of the
outside calls (the class hook, when the class has one) and the state. -/
def xnsched_migrate (f : xn_flags) (x : ext_env run_queues) (unlocked_switch : Bool)
    (w : nucleus run_queues) (thread : ThreadPtr) (sched : SchedPtr) :
    List ext_call × nucleus run_queues :=
  let sched_class := (w.threads thread).sched_class
  let w1 :=
    if xnthread_test_state w thread f.XNREADY then
      xnthread_clear_state (xnsched_dequeue w thread) thread f.XNREADY
    else w
  let r : List ext_call × nucleus run_queues :=
    if x.has_sched_migrate sched_class then
      ([.sched_migrate sched_class thread sched],
        x.effect (.sched_migrate sched_class thread sched) w1)
    else ([], w1)
  let w3 := xnsched_set_resched f r.2 (r.2.threads thread).sched
  let w4 : nucleus run_queues :=
    { w3 with threads := (Function.update w3.threads thread
        { w3.threads thread with sched := sched }) }
  if unlocked_switch then (r.1, xnthread_set_state w4 thread f.XNMIGRATE)
  else (r.1, xnsched_putback f w4 thread)

/-- `xnsched_finish_unlocked_switch(sched)`, where `sched` is the context of
the CPU which runs the call (what `xnpod_current_sched()` gives on SMP).  The
result is the list of outside calls, or the fatal check which fired, with the
state; the function returns `sched`. -/
def xnsched_finish_unlocked_switch (f : xn_flags) (x : ext_env run_queues)
    (w : nucleus run_queues) (sched : SchedPtr) :
    Except String (List ext_call) × nucleus run_queues :=
  let last := (w.scheds sched).last
  let w1 : nucleus run_queues :=
    { w with scheds := (Function.update w.scheds sched
        { w.scheds sched with
          status := (w.scheds sched).status ^^^ ((w.scheds sched).status &&& f.XNINSW) }) }
  let w2 :=
    if (w1.threads last).sched != sched then
      xnthread_clear_state (xnsched_putback f w1 last) last f.XNMIGRATE
    else w1
  if xnthread_test_state w2 last f.XNZOMBIE then
    if (w2.scheds sched).zombie != some last then xnsched_zombie_hooks x w2 last
    else (.ok [], w2)
  else (.ok [], w2)

/-- The flag masks used by the migration path do not overlap. -/
def migrate_flags_disjoint (f : xn_flags) : Prop :=
  f.XNREADY &&& f.XNMIGRATE = 0 ∧ f.XNREADY &&& f.XNZOMBIE = 0 ∧
    f.XNMIGRATE &&& f.XNZOMBIE = 0

/-- The thread is linked as its `XNREADY` flag tells: once, on the run queue
of its class on its owning context, when the flag is set; nowhere when it is
clear. -/
def rq_consistent (f : xn_flags) (w : nucleus run_queues) (thread : ThreadPtr) : Prop :=
  ((w.threads thread).state &&& f.XNREADY ≠ 0 →
    (w.runq (w.threads thread).sched (w.threads thread).sched_class).count thread = 1 ∧
    ∀ s c, thread ∈ w.runq s c →
      s = (w.threads thread).sched ∧ c = (w.threads thread).sched_class) ∧
  ((w.threads thread).state &&& f.XNREADY = 0 → ¬ rq_linked w thread)

/-- The outside code leaves the run queues and the state words of the
threads as they are. -/
def ext_keeps_queues (x : ext_env run_queues) : Prop :=
  ∀ (call : ext_call) (w : nucleus run_queues),
    (x.effect call w).runq = w.runq ∧
    ∀ t, ((x.effect call w).threads t).state = (w.threads t).state

/-- A scheduler state for concrete runs of the migration path: thread 5 of
class 1 is ready and linked on context 0, which it last ran on; context 1 is
idle. -/
def migrating_nucleus : nucleus run_queues :=
  { threads := fun t =>
      { state := if t = 5 then 0x8 else 0x10000,
        cprio := if t = 5 then 10 else -1,
        bprio := if t = 5 then 10 else -1,
        wprio := if t = 5 then 10 else -1,
        sched_class := if t = 5 then 1 else 0, base_class := some 1,
        sched := if t = 5 then 0 else t }
    scheds := fun s =>
      { status := 0, lflags := 0, curr := s, rootcb := s, zombie := none,
        last := if s = 0 then 5 else s, wdcount := 0 }
    registry := (register_all (registry_init weighted_classes) [0, 1]).2
    runq := fun s c => if s = 0 ∧ c = 1 then [5] else [] }

/-! ## Passive migration -/

/-- Modelled from the spec: `xnsched_requeue(thread)` is declared outside the
files at hand; the spec has the thread re-inserted into the run queue of its
class on its owning context.  Here it is linked at the front of the queue. -/
def xnsched_requeue (w : nucleus run_queues) (thread : ThreadPtr) : nucleus run_queues :=
  { w with runq := (Function.update w.runq (w.threads thread).sched
      (Function.update (w.runq (w.threads thread).sched) (w.threads thread).sched_class
        (thread :: w.runq (w.threads thread).sched (w.threads thread).sched_class))) }

/-- `xnsched_migrate_passive(thread, sched)`.  The result is the list of the
outside calls (the class hook, when the class has one) and the state. -/
def xnsched_migrate_passive (f : xn_flags) (x : ext_env run_queues)
    (w : nucleus run_queues) (thread : ThreadPtr) (sched : SchedPtr) :
    List ext_call × nucleus run_queues :=
  let sched_class := (w.threads thread).sched_class
  let w1 :=
    if xnthread_test_state w thread f.XNREADY then
      xnthread_clear_state (xnsched_dequeue w thread) thread f.XNREADY
    else w
  let r : List ext_call × nucleus run_queues :=
    if x.has_sched_migrate sched_class then
      ([.sched_migrate sched_class thread sched],
        x.effect (.sched_migrate sched_class thread sched) w1)
    else ([], w1)
  let w3 := xnsched_set_resched f r.2 (r.2.threads thread).sched
  let w4 : nucleus run_queues :=
    { w3 with threads := (Function.update w3.threads thread
        { w3.threads thread with sched := sched }) }
  if !xnthread_test_state w4 thread f.XNTHREAD_BLOCK_BITS then
    (r.1, xnthread_set_state (xnsched_requeue w4 thread) thread f.XNREADY)
  else (r.1, w4)

/-- The statements which `xnsched_migrate` and `xnsched_migrate_passive` have
in common, in the order of the source: the thread leaves its run queue if it
is ready, the class hook runs if there is one, a reschedule is requested on
the owning context, and the destination becomes the owner. -/
def migrate_common (f : xn_flags) (x : ext_env run_queues)
    (w : nucleus run_queues) (thread : ThreadPtr) (sched : SchedPtr) :
    List ext_call × nucleus run_queues :=
  let sched_class := (w.threads thread).sched_class
  let w1 :=
    if xnthread_test_state w thread f.XNREADY then
      xnthread_clear_state (xnsched_dequeue w thread) thread f.XNREADY
    else w
  let r : List ext_call × nucleus run_queues :=
    if x.has_sched_migrate sched_class then
      ([.sched_migrate sched_class thread sched],
        x.effect (.sched_migrate sched_class thread sched) w1)
    else ([], w1)
  let w3 := xnsched_set_resched f r.2 (r.2.threads thread).sched
  (r.1, { w3 with threads := (Function.update w3.threads thread
      { w3.threads thread with sched := sched }) })

/-- The outside code leaves the owning context of the threads as it is. -/
def ext_keeps_owner (x : ext_env run_queues) : Prop :=
  ∀ (call : ext_call) (w : nucleus run_queues) (t : ThreadPtr),
    ((x.effect call w).threads t).sched = (w.threads t).sched

/-- A scheduler state for concrete runs of the passive migration: as
`migrating_nucleus`, with thread 6 of class 1 blocked (bit 0x2 of the blocking
bits) on context 0 and linked nowhere. -/
def blocked_nucleus : nucleus run_queues :=
  { migrating_nucleus with
    threads := fun t =>
      if t = 6 then
        { state := 0x2, cprio := 20, bprio := 20, wprio := 20, sched_class := 1,
          base_class := some 1, sched := 0 }
      else migrating_nucleus.threads t }

/-! ## Scheduling policy of a thread -/

/-- The helpers called by `xnsched_set_policy` and `xnsched_track_policy`
which take or give a parameter block (`union xnsched_policy_param`, declared
outside the files at hand: the type `P`), as parameters: which classes have a
`sched_declare` hook, the code this hook returns and the state it leaves, the
state `xnsched_setparam` and `xnsched_trackprio` leave, the block
`xnsched_getparam` reads.  Their calls are listed as `ext_call` values; what
they do is given here, since it depends on the block. -/
structure policy_env (P : Type) where
  has_sched_declare : ClassPtr → Bool
  sched_declare : ClassPtr → ThreadPtr → P → nucleus run_queues → Int × nucleus run_queues
  xnsched_setparam : ThreadPtr → P → nucleus run_queues → nucleus run_queues
  xnsched_getparam : ThreadPtr → nucleus run_queues → P
  xnsched_trackprio : ThreadPtr → Option P → nucleus run_queues → nucleus run_queues

/-- The statement `sched_class->nthreads++`. -/
def nthreads_incr {RQ : Type} (w : nucleus RQ) (sched_class : ClassPtr) : nucleus RQ :=
  { w with registry := ({ w.registry with
      classes := (Function.update w.registry.classes sched_class
        { w.registry.classes sched_class with
          nthreads := (w.registry.classes sched_class).nthreads + 1 }) }) }

/-- The first block of `xnsched_set_policy`: the declaration of the thread to
the class, when the class is not the base class of the thread.  The result is
the code to return at once if the hook declined (`none` to go on), the outside
calls, and the state. -/
def set_policy_declare {P : Type} (e : policy_env P) (w : nucleus run_queues)
    (thread : ThreadPtr) (sched_class : ClassPtr) (p : P) :
    Option Int × List ext_call × nucleus run_queues :=
  if some sched_class != (w.threads thread).base_class then
    if e.has_sched_declare sched_class then
      let r := e.sched_declare sched_class thread p w
      if r.1 != 0 then (some r.1, [.sched_declare sched_class thread], r.2)
      else (none, [.sched_declare sched_class thread], nthreads_incr r.2 sched_class)
    else (none, [], nthreads_incr w sched_class)
  else (none, [], w)

/-- The rest of `xnsched_set_policy`, from the test of the base class on. -/
def set_policy_apply {P : Type} (f : xn_flags) (x : ext_env run_queues) (e : policy_env P)
    (w : nucleus run_queues) (thread : ThreadPtr) (sched_class : ClassPtr) (p : P) :
    List ext_call × nucleus run_queues :=
  let r : List ext_call × nucleus run_queues :=
    if (w.threads thread).base_class != none then
      let w1 := if xnthread_test_state w thread f.XNREADY then xnsched_dequeue w thread else w
      if some sched_class != (w1.threads thread).base_class then
        ([.xnsched_forget thread], x.effect (.xnsched_forget thread) w1)
      else ([], w1)
    else ([], w)
  let w2 : nucleus run_queues :=
    { r.2 with threads := (Function.update r.2.threads thread
        { r.2.threads thread with sched_class := sched_class, base_class := some sched_class }) }
  let w3 := e.xnsched_setparam thread p w2
  let w4 : nucleus run_queues :=
    { w3 with threads := (Function.update w3.threads thread
        { w3.threads thread with bprio := (w3.threads thread).cprio }) }
  let w5 : nucleus run_queues :=
    { w4 with threads := (Function.update w4.threads thread
        { w4.threads thread with
          wprio := (w4.threads thread).cprio + (w4.registry.classes sched_class).weight }) }
  let w6 := if xnthread_test_state w5 thread f.XNREADY then xnsched_enqueue w5 thread else w5
  let w7 :=
    if xnthread_test_state w6 thread f.XNSTARTED then
      xnsched_set_resched f w6 (w6.threads thread).sched
    else w6
  (r.1 ++ [.xnsched_setparam thread], w7)

/-- `xnsched_set_policy(thread, sched_class, p)`.  The result is the code
returned, the list of the outside calls, and the state. -/
def xnsched_set_policy {P : Type} (f : xn_flags) (x : ext_env run_queues) (e : policy_env P)
    (w : nucleus run_queues) (thread : ThreadPtr) (sched_class : ClassPtr) (p : P) :
    Int × List ext_call × nucleus run_queues :=
  match set_policy_declare e w thread sched_class p with
  | (some ret, calls, w1) => (ret, calls, w1)
  | (none, calls, w1) =>
    (0, calls ++ (set_policy_apply f x e w1 thread sched_class p).1,
      (set_policy_apply f x e w1 thread sched_class p).2)

/-- The address a class pointer holds when it is NULL. -/
def NULL : ClassPtr := 0

/-- `xnsched_track_policy(thread, target)`.  The result is the list of the
outside calls and the state; the function has no fatal check, the list always
comes as `ok`.  The self-targeted call copies the base class pointer into the
class pointer, a NULL base class (`none`) included. -/
def xnsched_track_policy {P : Type} (f : xn_flags) (e : policy_env P)
    (w : nucleus run_queues) (thread target : ThreadPtr) :
    Except String (List ext_call) × nucleus run_queues :=
  let w1 := if xnthread_test_state w thread f.XNREADY then xnsched_dequeue w thread else w
  let r : List ext_call × nucleus run_queues :=
    if target = thread then
      let w2 : nucleus run_queues :=
        { w1 with threads := (Function.update w1.threads thread
            { w1.threads thread with
              sched_class := ((w1.threads thread).base_class).getD NULL }) }
      ([.xnsched_trackprio thread none], e.xnsched_trackprio thread none w2)
    else
      let param := e.xnsched_getparam target w1
      let w2 : nucleus run_queues :=
        { w1 with threads := (Function.update w1.threads thread
            { w1.threads thread with sched_class := (w1.threads target).sched_class }) }
      ([.xnsched_getparam target, .xnsched_trackprio thread (some target)],
        e.xnsched_trackprio thread (some param) w2)
  let w4 := if xnthread_test_state r.2 thread f.XNREADY then xnsched_enqueue r.2 thread else r.2
  (.ok r.1, xnsched_set_resched f w4 (w4.threads thread).sched)

/-- The helper `xnsched_setparam` leaves the class and the base class of every
thread as they are. -/
def setparam_keeps_class {P : Type} (e : policy_env P) : Prop :=
  ∀ (t u : ThreadPtr) (p : P) (w : nucleus run_queues),
    ((e.xnsched_setparam t p w).threads u).sched_class = (w.threads u).sched_class ∧
    ((e.xnsched_setparam t p w).threads u).base_class = (w.threads u).base_class

/-- The helper `xnsched_trackprio` leaves the class, the base class, the state
word and the owner of every thread as they are. -/
def trackprio_keeps_class {P : Type} (e : policy_env P) : Prop :=
  ∀ (t u : ThreadPtr) (p : Option P) (w : nucleus run_queues),
    ((e.xnsched_trackprio t p w).threads u).sched_class = (w.threads u).sched_class ∧
    ((e.xnsched_trackprio t p w).threads u).base_class = (w.threads u).base_class ∧
    ((e.xnsched_trackprio t p w).threads u).state = (w.threads u).state ∧
    ((e.xnsched_trackprio t p w).threads u).sched = (w.threads u).sched

/-- Policy helpers for concrete runs, over a parameter block which is a
priority: class 2 has a `sched_declare` hook, which declines priorities
above 99 with the code -22 and changes nothing; `xnsched_setparam` stores the
priority as current priority; `xnsched_getparam` reads it back;
`xnsched_trackprio` stores the priority given, or the base priority. -/
def demo_policy : policy_env Int :=
  { has_sched_declare := fun c => c == 2
    sched_declare := fun _ _ p w => (if p > 99 then -22 else 0, w)
    xnsched_setparam := fun t p w =>
      { w with threads := (Function.update w.threads t { w.threads t with cprio := p }) }
    xnsched_getparam := fun t w => (w.threads t).cprio
    xnsched_trackprio := fun t p w =>
      { w with threads := (Function.update w.threads t
          { w.threads t with cprio := p.getD (w.threads t).bprio }) } }

/-! ## Introspection: the iteration steps of the vfile -/

/-- The fields of `thread->stat` which `sched.c` reads or writes: the four
event counters, `account.total`, `lastperiod.total`, `lastperiod.start`. -/
structure xnthread_stat where
  ssw : Nat
  csw : Nat
  xsc : Nat
  pf : Nat
  account_total : Nat
  lastperiod_total : Nat
  lastperiod_start : Nat
deriving DecidableEq, Repr

/-- The state the iteration steps work on: the scheduler state, with the
fields the records above leave out: `thread->stat` of every thread,
`sched->last_account_switch` of every context, and the global thread list
`nkpod->threadq` as the sequence of the threads linked. -/
structure pod_state (RQ : Type) where
  core : nucleus RQ
  stat : ThreadPtr → xnthread_stat
  last_account_switch : SchedPtr → Nat
  threadq : List ThreadPtr

/-- The content of `struct xnintr_iterator` which `vfile_schedstat_next`
reads. -/
structure xnintr_iterator where
  cpu : Int
  hits : Nat
  exectime_period : Nat
  account_period : Nat
  exectime_total : Nat
deriving DecidableEq, Repr

/-- The accessors and constants, declared outside the files at hand, which
the iteration steps use, as parameters.  The accessors are functions of the
state: they read it.  `xnintr_query_next` gives its return code, the iterator
it leaves and the name it stores. -/
structure vfile_env (RQ : Type) where
  xnsched_cpu : pod_state RQ → SchedPtr → Int
  xnthread_host_pid : pod_state RQ → ThreadPtr → Int
  thread_name : pod_state RQ → ThreadPtr → String
  xnthread_state_flags : pod_state RQ → ThreadPtr → Nat
  class_name : pod_state RQ → ClassPtr → String
  xnthread_get_period : pod_state RQ → ThreadPtr → Nat
  xnthread_get_timeout : pod_state RQ → ThreadPtr → Nat → Nat
  xntimer_running_p : pod_state RQ → ThreadPtr → Bool
  IPIPE_NR_IRQS : Int
  xnintr_query_next : Int → xnintr_iterator → Int × xnintr_iterator × String
  xnarch_cpu_supported : Int → Bool
  VFILE_SEQ_SKIP : Int
  EAGAIN : Int
  xnsched_class_idle : ClassPtr

/-- `struct vfile_schedlist_priv`. -/
structure vfile_schedlist_priv where
  curr : Option ThreadPtr
  start_time : Nat
deriving DecidableEq, Repr

/-- `struct vfile_schedlist_data`. -/
structure vfile_schedlist_data where
  cpu : Int
  pid : Int
  name : String
  sched_class : String
  cprio : Int
  timeout : Nat
  state : Nat
deriving DecidableEq, Repr

/-- `struct vfile_schedstat_priv`. -/
structure vfile_schedstat_priv where
  irq : Int
  curr : Option ThreadPtr
  intr_it : xnintr_iterator
deriving DecidableEq, Repr

/-- `struct vfile_schedstat_data`. -/
structure vfile_schedstat_data where
  cpu : Int
  pid : Int
  state : Nat
  name : String
  ssw : Nat
  csw : Nat
  xsc : Nat
  pf : Nat
  exectime_period : Nat
  account_period : Nat
  exectime_total : Nat
  sched_class : ClassPtr
  period : Nat
  cprio : Int
deriving DecidableEq, Repr

/-- The entry of the thread list which the iterator visits after `thread`:
NULL when `thread` is the last entry (`list_is_last`), the entry which follows
it otherwise (`list_next_entry`). -/
def threadq_next (q : List ThreadPtr) (thread : ThreadPtr) : Option ThreadPtr :=
  if q.getLast? = some thread then none
  else
    match q.dropWhile (fun t => t != thread) with
    | _ :: next :: _ => some next
    | _ => none

/-- The difference of two `xnticks_t` values (unsigned, 64 bits). -/
def xnticks_sub (a b : Nat) : Nat := (a % 2 ^ 64 + 2 ^ 64 - b % 2 ^ 64) % 2 ^ 64

/-- `vfile_schedlist_next(it, data)`: the code returned, the private area of
the iterator, the record at `data`, and the state. -/
def vfile_schedlist_next {RQ : Type} (v : vfile_env RQ) (w : pod_state RQ)
    (priv : vfile_schedlist_priv) (p : vfile_schedlist_data) :
    Int × vfile_schedlist_priv × vfile_schedlist_data × pod_state RQ :=
  match priv.curr with
  | none => (0, priv, p, w)
  | some thread =>
    let priv1 : vfile_schedlist_priv := { priv with curr := threadq_next w.threadq thread }
    let period := v.xnthread_get_period w thread
    let timeout := v.xnthread_get_timeout w thread priv1.start_time
    let timeout1 :=
      if 0 < period ∧ period < timeout ∧ ¬ v.xntimer_running_p w thread then period
      else timeout
    (1, priv1,
      { cpu := v.xnsched_cpu w (w.core.threads thread).sched
        pid := v.xnthread_host_pid w thread
        name := v.thread_name w thread
        cprio := (w.core.threads thread).cprio
        state := v.xnthread_state_flags w thread
        sched_class := v.class_name w (w.core.threads thread).sched_class
        timeout := timeout1 },
      w)

/-- What a call of `vfile_schedstat_next` leaves: the code returned, the
private area of the iterator, the record at `data`, the state, and whether
`xnvfile_touch` was called on the vfile. -/
structure schedstat_step (RQ : Type) where
  ret : Int
  priv : vfile_schedstat_priv
  data : vfile_schedstat_data
  pod : pod_state RQ
  touched : Bool

/-- `vfile_schedstat_next(it, data)`. -/
def vfile_schedstat_next {RQ : Type} (v : vfile_env RQ) (w : pod_state RQ)
    (priv : vfile_schedstat_priv) (p : vfile_schedstat_data) : schedstat_step RQ :=
  match priv.curr with
  | some thread =>
    let priv1 : vfile_schedstat_priv := { priv with curr := threadq_next w.threadq thread }
    let sched := (w.core.threads thread).sched
    let period := xnticks_sub (w.last_account_switch sched) (w.stat thread).lastperiod_start
    let p1 : vfile_schedstat_data :=
      { p with
        cpu := v.xnsched_cpu w sched
        pid := v.xnthread_host_pid w thread
        name := v.thread_name w thread
        state := v.xnthread_state_flags w thread
        ssw := (w.stat thread).ssw
        csw := (w.stat thread).csw
        xsc := (w.stat thread).xsc
        pf := (w.stat thread).pf
        sched_class := (w.core.threads thread).sched_class
        cprio := (w.core.threads thread).cprio
        period := v.xnthread_get_period w thread }
    let p2 : vfile_schedstat_data :=
      if period = 0 ∧ thread = (w.core.scheds sched).curr then
        { p1 with exectime_period := 1, account_period := 1 }
      else
        { p1 with
          exectime_period :=
            xnticks_sub (w.stat thread).account_total (w.stat thread).lastperiod_total
          account_period := period }
    let p3 : vfile_schedstat_data :=
      { p2 with exectime_total := (w.stat thread).account_total }
    let w1 : pod_state RQ :=
      { w with stat := (Function.update w.stat thread
          { w.stat thread with lastperiod_total := (w.stat thread).account_total }) }
    let w2 : pod_state RQ :=
      { w1 with stat := (Function.update w1.stat thread
          { w1.stat thread with lastperiod_start := w1.last_account_switch sched }) }
    { ret := 1, priv := priv1, data := p3, pod := w2, touched := false }
  | none =>
    if priv.irq ≥ v.IPIPE_NR_IRQS then
      { ret := 0, priv := priv, data := p, pod := w, touched := false }
    else
      let r := v.xnintr_query_next priv.irq priv.intr_it
      let priv1 : vfile_schedstat_priv := { priv with intr_it := r.2.1 }
      let p1 : vfile_schedstat_data := { p with name := r.2.2 }
      if r.1 ≠ 0 then
        { ret := v.VFILE_SEQ_SKIP, priv := { priv1 with irq := priv1.irq + 1 }, data := p1,
          pod := w, touched := r.1 == - v.EAGAIN }
      else if ¬ v.xnarch_cpu_supported priv1.intr_it.cpu then
        { ret := v.VFILE_SEQ_SKIP, priv := priv1, data := p1, pod := w, touched := false }
      else
        { ret := 1, priv := priv1,
          data :=
            { p1 with
              cpu := priv1.intr_it.cpu
              csw := priv1.intr_it.hits
              exectime_period := priv1.intr_it.exectime_period
              account_period := priv1.intr_it.account_period
              exectime_total := priv1.intr_it.exectime_total
              pid := 0, state := 0, ssw := 0, xsc := 0, pf := 0
              sched_class := v.xnsched_class_idle
              cprio := 0, period := 0 },
          pod := w, touched := false }

/-- Accessors for concrete runs: each gives a constant or a field of the
records kept here; no interrupt line to report. -/
def demo_vfile_env (RQ : Type) : vfile_env RQ :=
  { xnsched_cpu := fun _ s => (s : Int)
    xnthread_host_pid := fun _ _ => 0
    thread_name := fun _ _ => "thread"
    xnthread_state_flags := fun w t => (w.core.threads t).state
    class_name := fun _ _ => "rt"
    xnthread_get_period := fun _ _ => 0
    xnthread_get_timeout := fun _ _ _ => 0
    xntimer_running_p := fun _ _ => false
    IPIPE_NR_IRQS := 0
    xnintr_query_next := fun _ it => (0, it, "irq")
    xnarch_cpu_supported := fun _ => true
    VFILE_SEQ_SKIP := 2
    EAGAIN := 11
    xnsched_class_idle := 0 }

/-- A state for concrete runs of the iteration steps: `migrating_nucleus`,
where thread 5 has run for 700 ticks in all, none of them reported yet, and
the last accounting switch of every context is at tick 900; the thread list
is 0, 1, 5. -/
def demo_pod : pod_state run_queues :=
  { core := migrating_nucleus
    stat := fun t =>
      { ssw := 0, csw := 3, xsc := 0, pf := 0,
        account_total := if t = 5 then 700 else 0,
        lastperiod_total := 0, lastperiod_start := 0 }
    last_account_switch := fun _ => 900
    threadq := [0, 1, 5] }

/-! ## POSIX clock services (`clock.c`) -/

/-- Constants of the system headers which `clock.c` uses, as parameters: the
clock identifiers, the flag `TIMER_ABSTIME`, the error codes, and the width of
`unsigned long`. -/
structure clock_consts where
  CLOCK_REALTIME : Int
  CLOCK_MONOTONIC : Int
  CLOCK_MONOTONIC_RAW : Int
  TIMER_ABSTIME : Nat
  EINVAL : Int
  EPERM : Int
  ENOTSUP : Int
  EINTR : Int
  BITS_PER_LONG : Nat

/-- The macro `ONE_BILLION`, declared outside the files at hand: the number
its name spells. -/
def ONE_BILLION : Nat := 1000000000

/-- `struct timespec`: seconds (`time_t`) and nanoseconds (`long`), both
signed. -/
structure timespec where
  tv_sec : Int
  tv_nsec : Int
deriving DecidableEq, Repr

/-- Modelled from the spec: `ns2ts(ts, nsecs)` is declared outside the files
at hand; the spec only names the conversion between ticks and nanoseconds of
the clock layer.  A count of nanoseconds is split at one billion into seconds
and nanoseconds, as `clock_gettime` spells out for the monotonic clock. -/
def ns2ts (nsecs : Nat) : timespec :=
  { tv_sec := ((nsecs / ONE_BILLION : Nat) : Int), tv_nsec := ((nsecs % ONE_BILLION : Nat) : Int) }

/-- Modelled from the spec: `ts2ns(ts)` is declared outside the files at hand
(the converse conversion of the clock layer): seconds times one billion plus
nanoseconds, as an `xnticks_t` value (unsigned, 64 bits). -/
def ts2ns (ts : timespec) : Nat :=
  ((ts.tv_sec * (ONE_BILLION : Int) + ts.tv_nsec) % 2 ^ 64).toNat

/-- The cast `(unsigned long)v` of a signed value. -/
def ulong_cast (k : clock_consts) (v : Int) : Nat := (v % 2 ^ k.BITS_PER_LONG).toNat

/-- The cast `(xnsticks_t)v` of an `xnticks_t` value to the signed type of
the same width (64 bits). -/
def xnsticks_cast (v : Nat) : Int :=
  if v % 2 ^ 64 < 2 ^ 63 then ((v % 2 ^ 64 : Nat) : Int)
  else ((v % 2 ^ 64 : Nat) : Int) - 2 ^ 64

/-- `clock_getres(clock_id, res)`.  `res` is the content of the object
pointed to, `none` for a NULL pointer; `errno` is the error number of the
calling thread.  The result is the value returned, the content at `res`, and
the error number. -/
def clock_getres (k : clock_consts) (clock_id : Int) (res : Option timespec) (errno : Int) :
    Int × Option timespec × Int :=
  if clock_id = k.CLOCK_REALTIME ∨ clock_id = k.CLOCK_MONOTONIC ∨
      clock_id = k.CLOCK_MONOTONIC_RAW then
    (0, (match res with
      | some _ => some (ns2ts 1)
      | none => none), errno)
  else (-1, res, k.EINVAL)

/-- `clock_settime(clock_id, tp)`.  `now` is what `xnclock_read()` gives.
The result is the value returned, the argument of the call of `xnclock_adjust`
if there is one, and the error number of the calling thread. -/
def clock_settime (k : clock_consts) (clock_id : Int) (tp : timespec) (now : Nat)
    (errno : Int) : Int × Option Int × Int :=
  if clock_id ≠ k.CLOCK_REALTIME ∨ ulong_cast k tp.tv_nsec ≥ ONE_BILLION then
    (-1, none, k.EINVAL)
  else
    let new_date := ts2ns tp
    (0, some (xnsticks_cast (xnticks_sub new_date now)), errno)

/-- What the code outside `clock.c` gives during a call of
`clock_nanosleep`: whether the calling context cannot block
(`xnpod_unblockable_p()`), whether the sleep was interrupted (the bit `XNBREAK`
of the caller after `xnpod_suspend_thread`), the date of the clock
(`clock_get_ticks(clock_id)`) and the date of the timer of the caller
(`xntimer_get_date(&cur->rtimer)`) read after an interrupted sleep. -/
structure nanosleep_env where
  unblockable : Bool
  interrupted : Bool
  now : Nat
  expiry : Nat

/-- The calls of `clock_nanosleep` which act on the calling thread:
`thread_cancellation_point(cur)` and `xnpod_suspend_thread(cur, XNDELAY,
timeout, clock_flag(flags, clock_id), NULL)`. -/
inductive nanosleep_call where
  | thread_cancellation_point
  | xnpod_suspend_thread (timeout : Nat) (flags : Nat) (clock_id : Int)
deriving DecidableEq, Repr

/-- `clock_nanosleep(clock_id, flags, rqtp, rmtp)`.  `flags` is the bit image
of the argument; `rmtp` is the content of the object pointed to, `none` for a
NULL pointer; `flags & ~TIMER_ABSTIME` is `flags` with the bits of
`TIMER_ABSTIME` cleared.  The result is the value returned, the calls made on
the calling thread, and the content at `rmtp`. -/
def clock_nanosleep (k : clock_consts) (n : nanosleep_env) (clock_id : Int) (flags : Nat)
    (rqtp : timespec) (rmtp : Option timespec) :
    Int × List nanosleep_call × Option timespec :=
  if n.unblockable then (k.EPERM, [], rmtp)
  else if clock_id ≠ k.CLOCK_MONOTONIC ∧ clock_id ≠ k.CLOCK_MONOTONIC_RAW ∧
      clock_id ≠ k.CLOCK_REALTIME then (k.ENOTSUP, [], rmtp)
  else if ulong_cast k rqtp.tv_nsec ≥ ONE_BILLION then (k.EINVAL, [], rmtp)
  else if flags ^^^ (flags &&& k.TIMER_ABSTIME) ≠ 0 then (k.EINVAL, [], rmtp)
  else
    let calls : List nanosleep_call :=
      [.thread_cancellation_point,
        .xnpod_suspend_thread ((ts2ns rqtp + 1) % 2 ^ 64) flags clock_id,
        .thread_cancellation_point]
    if n.interrupted then
      if flags = 0 ∧ rmtp ≠ none then
        let rem := xnsticks_cast (xnticks_sub n.expiry n.now)
        (k.EINTR, calls, some (ns2ts (if rem > 0 then rem else 0).toNat))
      else (k.EINTR, calls, rmtp)
    else (0, calls, rmtp)

/-- The constants of a Linux system with a 64-bit `unsigned long`. -/
def linux_clock : clock_consts :=
  { CLOCK_REALTIME := 0, CLOCK_MONOTONIC := 1, CLOCK_MONOTONIC_RAW := 4, TIMER_ABSTIME := 1,
    EINVAL := 22, EPERM := 1, ENOTSUP := 95, EINTR := 4, BITS_PER_LONG := 64 }

/-! ## Looking a priority up -/

/-- Every thread is linked as its `XNREADY` flag tells. -/
def rq_invariant (f : xn_flags) (w : nucleus run_queues) : Prop :=
  ∀ t, rq_consistent f w t

/-- The policy helpers leave the counters `nthreads` of the classes as they
are, and `sched_declare` leaves the base class of the threads as it is. -/
def policy_keeps_nthreads {P : Type} (e : policy_env P) : Prop :=
  (∀ c t p w k, ((e.sched_declare c t p w).2.registry.classes k).nthreads
    = (w.registry.classes k).nthreads) ∧
  (∀ c t p w u, ((e.sched_declare c t p w).2.threads u).base_class
    = (w.threads u).base_class) ∧
  (∀ t p w k, ((e.xnsched_setparam t p w).registry.classes k).nthreads
    = (w.registry.classes k).nthreads)

/-- The helper `xnsched_forget(thread)` leaves the counter `nthreads` of every
class other than the base class of the thread as it is. -/
def forget_keeps_nthreads (x : ext_env run_queues) : Prop :=
  ∀ (t : ThreadPtr) (w : nucleus run_queues) (k : ClassPtr),
    some k ≠ (w.threads t).base_class →
    ((x.effect (.xnsched_forget t) w).registry.classes k).nthreads
      = (w.registry.classes k).nthreads

/-- Outside code for concrete runs: as `quiet_env`, with an `xnsched_forget`
which takes 1 from the counter `nthreads` of the base class of the thread. -/
def counting_env : ext_env run_queues :=
  { quiet_env run_queues with
    effect := fun call w =>
      match call with
      | .xnsched_forget t =>
        match (w.threads t).base_class with
        | some b =>
          { w with registry := ({ w.registry with
              classes := (Function.update w.registry.classes b
                { w.registry.classes b with
                  nthreads := (w.registry.classes b).nthreads - 1 }) }) }
        | none => w
      | _ => w }

/-- A scheduler state for concrete runs: `migrating_nucleus` in which no
thread has a base class; thread 5 is ready and linked on context 0. -/
def orphan_nucleus : nucleus run_queues :=
  { migrating_nucleus with
    threads := fun t => { migrating_nucleus.threads t with base_class := none } }

instance {ε α : Type} [DecidableEq ε] [DecidableEq α] : DecidableEq (Except ε α) := by
  intro a b
  cases a <;> cases b <;> simp <;> infer_instance

/-! ## Machine word lemmas -/

theorem ulong_bit_eq (c : mlq_config) {n : Nat} (h : n < c.BITS_PER_LONG) :
    ulong_bit c n = 2 ^ n := by
  unfold ulong_bit
  rw [Nat.one_shiftLeft]
  exact Nat.mod_eq_of_lt (Nat.pow_lt_pow_right (by decide) h)

theorem ulong_bit_lt (c : mlq_config) (n : Nat) :
    ulong_bit c n < 2 ^ c.BITS_PER_LONG := by
  unfold ulong_bit
  exact Nat.mod_lt _ (Nat.pos_pow_of_pos _ (by decide))

theorem testBit_or_ulong_bit (c : mlq_config) (w : Nat) {n : Nat}
    (h : n < c.BITS_PER_LONG) (j : Nat) :
    (w ||| ulong_bit c n).testBit j = (w.testBit j || decide (n = j)) := by
  rw [ulong_bit_eq c h, Nat.testBit_or, Nat.testBit_two_pow]

theorem testBit_and_not_ulong_bit (c : mlq_config) (w : Nat) {n : Nat}
    (h : n < c.BITS_PER_LONG) (hw : w < 2 ^ c.BITS_PER_LONG) (j : Nat) :
    (w &&& ulong_not c (ulong_bit c n)).testBit j = (w.testBit j && !decide (n = j)) := by
  rw [ulong_bit_eq c h]
  unfold ulong_not
  rw [Nat.testBit_and, Nat.testBit_xor, Nat.testBit_two_pow_sub_one,
    Nat.testBit_mod_two_pow, Nat.testBit_two_pow]
  by_cases hj : j < c.BITS_PER_LONG
  · by_cases hn : n = j <;> simp [hj, hn]
  · have : w.testBit j = false := by
      apply Nat.testBit_lt_two_pow
      exact lt_of_lt_of_le hw (Nat.pow_le_pow_right (by decide) (not_lt.mp hj))
    simp [this]

theorem and_not_ulong_bit_lt (c : mlq_config) (w x : Nat) (hw : w < 2 ^ c.BITS_PER_LONG) :
    w &&& x < 2 ^ c.BITS_PER_LONG :=
  lt_of_le_of_lt Nat.and_le_left hw

theorem ne_zero_of_testBit {w j : Nat} (h : w.testBit j = true) : w ≠ 0 := by
  intro h0
  rw [h0, Nat.zero_testBit] at h
  exact Bool.false_ne_true h

theorem ffnz_eq_some (c : mlq_config) {x : Nat} (hx : x ≠ 0)
    (hlt : x < 2 ^ c.BITS_PER_LONG) :
    ∃ i, ffnz c x = some i ∧ i < c.BITS_PER_LONG ∧ x.testBit i = true ∧
      ∀ j < i, x.testBit j = false := by
  unfold ffnz
  cases hf : (List.range c.BITS_PER_LONG).find? (fun i => x.testBit i) with
  | none =>
    exfalso
    rw [List.find?_eq_none] at hf
    apply hx
    apply Nat.zero_of_testBit_eq_false
    intro i
    by_cases hi : i < c.BITS_PER_LONG
    · have := hf i (List.mem_range.mpr hi)
      simpa using this
    · apply Nat.testBit_lt_two_pow
      exact lt_of_lt_of_le hlt (Nat.pow_le_pow_right (by decide) (not_lt.mp hi))
  | some i =>
    rw [List.find?_range_eq_some] at hf
    refine ⟨i, rfl, List.mem_range.mp hf.2.1, hf.1, ?_⟩
    intro j hj
    have := hf.2.2 j hj
    simpa using this

/-! ## Buckets laid end to end -/

theorem mem_mlq_flat {f : Nat → List ThreadPtr} {n : Nat} {t : ThreadPtr} :
    t ∈ mlq_flat f n ↔ ∃ i, i < n ∧ t ∈ f i := by
  induction n with
  | zero => simp [mlq_flat]
  | succ n ih =>
    simp only [mlq_flat, List.mem_append, ih]
    constructor
    · rintro (⟨i, hi, ht⟩ | ht)
      · exact ⟨i, Nat.lt_succ_of_lt hi, ht⟩
      · exact ⟨n, Nat.lt_succ_self n, ht⟩
    · rintro ⟨i, hi, ht⟩
      rcases Nat.lt_succ_iff_lt_or_eq.mp hi with h | h
      · exact Or.inl ⟨i, h, ht⟩
      · subst h; exact Or.inr ht

theorem mlq_flat_congr {f g : Nat → List ThreadPtr} {n : Nat}
    (h : ∀ i, i < n → f i = g i) : mlq_flat f n = mlq_flat g n := by
  induction n with
  | zero => rfl
  | succ n ih =>
    simp only [mlq_flat]
    rw [ih (fun i hi => h i (Nat.lt_succ_of_lt hi)), h n (Nat.lt_succ_self n)]

theorem mlq_flat_eq_nil {f : Nat → List ThreadPtr} {n : Nat} :
    mlq_flat f n = [] ↔ ∀ i, i < n → f i = [] := by
  constructor
  · intro h i hi
    cases hfi : f i with
    | nil => rfl
    | cons a l =>
      have : a ∈ mlq_flat f n := mem_mlq_flat.mpr ⟨i, hi, by rw [hfi]; exact List.mem_cons_self a l⟩
      rw [h] at this
      exact absurd this (List.not_mem_nil a)
  · intro h
    induction n with
    | zero => rfl
    | succ n ih =>
      simp only [mlq_flat]
      rw [ih (fun i hi => h i (Nat.lt_succ_of_lt hi)), h n (Nat.lt_succ_self n)]
      rfl

/-- Splitting the flat list around bucket `idx`: the part before and the part
after do not depend on the contents of that bucket. -/
theorem mlq_flat_split (f : Nat → List ThreadPtr) {idx n : Nat} (h : idx < n) :
    ∃ A B, (∀ x ∈ A, ∃ i, i < idx ∧ x ∈ f i) ∧
      (∀ x ∈ B, ∃ i, idx < i ∧ i < n ∧ x ∈ f i) ∧
      ∀ l, mlq_flat (Function.update f idx l) n = A ++ l ++ B := by
  induction n with
  | zero => exact absurd h (Nat.not_lt_zero _)
  | succ n ih =>
    rcases Nat.lt_succ_iff_lt_or_eq.mp h with hlt | heq
    · obtain ⟨A, B, hA, hB, hs⟩ := ih hlt
      refine ⟨A, B ++ f n, hA, ?_, ?_⟩
      · intro x hx
        rcases List.mem_append.mp hx with hx | hx
        · obtain ⟨i, h1, h2, h3⟩ := hB x hx
          exact ⟨i, h1, Nat.lt_succ_of_lt h2, h3⟩
        · exact ⟨n, hlt, Nat.lt_succ_self n, hx⟩
      · intro l
        simp only [mlq_flat]
        rw [hs l, Function.update_noteq (Nat.ne_of_gt hlt)]
        simp [List.append_assoc]
    · subst heq
      refine ⟨mlq_flat f idx, [], ?_, ?_, ?_⟩
      · intro x hx
        exact mem_mlq_flat.mp hx
      · intro x hx
        exact absurd hx (List.not_mem_nil x)
      · intro l
        simp only [mlq_flat, Function.update_same, List.append_nil]
        congr 1
        apply mlq_flat_congr
        intro i hi
        exact Function.update_noteq (Nat.ne_of_lt hi) _ _

theorem mlq_flat_update_perm (f : Nat → List ThreadPtr) {idx n : Nat} (h : idx < n)
    (t : ThreadPtr) (l : List ThreadPtr) (hl : l.Perm (t :: f idx)) :
    (mlq_flat (Function.update f idx l) n).Perm (t :: mlq_flat f n) := by
  obtain ⟨A, B, _, _, hs⟩ := mlq_flat_split f h
  have h1 := hs l
  have h2 := hs (f idx)
  rw [Function.update_eq_self] at h2
  rw [h1, h2]
  have : (A ++ l ++ B).Perm (A ++ (t :: f idx) ++ B) :=
    List.Perm.append_right B (List.Perm.append_left A hl)
  refine this.trans ?_
  simp only [List.append_assoc, List.cons_append]
  exact List.perm_middle

theorem mlq_flat_erase (f : Nat → List ThreadPtr) (n : Nat) (t : ThreadPtr)
    (huniq : ∀ i j, t ∈ f i → t ∈ f j → i = j) :
    mlq_flat (fun i => (f i).erase t) n = (mlq_flat f n).erase t := by
  induction n with
  | zero => rfl
  | succ n ih =>
    simp only [mlq_flat]
    rw [ih]
    by_cases hm : t ∈ mlq_flat f n
    · rw [List.erase_append_left _ hm]
      obtain ⟨i, hi, hti⟩ := mem_mlq_flat.mp hm
      have hn : t ∉ f n := by
        intro htn
        have := huniq i n hti htn
        omega
      rw [List.erase_of_not_mem hn]
    · rw [List.erase_append_right _ hm, List.erase_of_not_mem hm]

/-! ## Closed forms of the queue operations -/

theorem INT_MAX_ge (c : mlq_config) : 2147483647 ≤ c.INT_MAX :=
  le_max_left _ _

theorem INT_MAX_ge_levels (c : mlq_config) : (c.XNSCHED_MLQ_LEVELS : Int) ≤ c.INT_MAX :=
  le_max_right _ _

theorem int_wrap_id (c : mlq_config) {x : Int} (h0 : -(c.INT_MAX + 1) ≤ x)
    (h1 : x ≤ c.INT_MAX) : int_wrap c x = x := by
  unfold int_wrap
  have hM := INT_MAX_ge c
  rw [Int.emod_eq_of_lt (by omega) (by omega)]
  omega

theorem int_wrap_levels (c : mlq_config) {x : Int} (h0 : 0 ≤ x)
    (h1 : x < (c.XNSCHED_MLQ_LEVELS : Int)) : int_wrap c x = x := by
  have hM := INT_MAX_ge c
  have hL := INT_MAX_ge_levels c
  exact int_wrap_id c (by omega) (by omega)

theorem indexmlq_ok_wrap (c : mlq_config) (q : xnsched_mlq) {prio : Int}
    (hlo : q.loprio ≤ prio) (hhi : prio ≤ q.hiprio) :
    indexmlq c q prio = .ok (int_wrap c (q.hiprio - prio)) := by
  simp [indexmlq, XENO_ASSERT, hlo, hhi]

theorem indexmlq_ok (c : mlq_config) (q : xnsched_mlq) {prio : Int} (hlo : q.loprio ≤ prio)
    (hhi : prio ≤ q.hiprio) (hr : q.hiprio - q.loprio + 1 < (c.XNSCHED_MLQ_LEVELS : Int)) :
    indexmlq c q prio = .ok (q.hiprio - prio) := by
  rw [indexmlq_ok_wrap c q hlo hhi, int_wrap_levels c (by omega) (by omega)]

theorem indexmlq_error (c : mlq_config) (q : xnsched_mlq) {prio : Int}
    (h : ¬ (q.loprio ≤ prio ∧ prio ≤ q.hiprio)) :
    indexmlq c q prio = .error "priority level is out of range" := by
  unfold indexmlq XENO_ASSERT
  have : (decide (prio ≥ q.loprio) && decide (prio ≤ q.hiprio)) = false := by
    by_cases h1 : q.loprio ≤ prio
    · by_cases h2 : prio ≤ q.hiprio
      · exact absurd ⟨h1, h2⟩ h
      · simp [h2]
    · simp [h1]
  rw [this]
  rfl

theorem sched_insertqlf_eq (c : mlq_config) (mem : ThreadMem) (q : xnsched_mlq)
    (t : ThreadPtr) (hlo : q.loprio ≤ (mem t).cprio) (hhi : (mem t).cprio ≤ q.hiprio)
    (hr : q.hiprio - q.loprio + 1 < (c.XNSCHED_MLQ_LEVELS : Int)) :
    sched_insertqlf c mem q t =
      (.ok (), mlq_link c q (mlq_index mem q t) (t :: q.heads (mlq_index mem q t))) := by
  unfold sched_insertqlf addmlq
  rw [indexmlq_ok c q hlo hhi hr]
  unfold mlq_link mlq_index
  by_cases he : q.heads (q.hiprio - (mem t).cprio).toNat = [] <;> simp [he]

theorem sched_insertqff_eq (c : mlq_config) (mem : ThreadMem) (q : xnsched_mlq)
    (t : ThreadPtr) (hlo : q.loprio ≤ (mem t).cprio) (hhi : (mem t).cprio ≤ q.hiprio)
    (hr : q.hiprio - q.loprio + 1 < (c.XNSCHED_MLQ_LEVELS : Int)) :
    sched_insertqff c mem q t =
      (.ok (), mlq_link c q (mlq_index mem q t) (q.heads (mlq_index mem q t) ++ [t])) := by
  unfold sched_insertqff addmlq
  rw [indexmlq_ok c q hlo hhi hr]
  unfold mlq_link mlq_index
  by_cases he : q.heads (q.hiprio - (mem t).cprio).toNat = [] <;> simp [he]

theorem sched_removeq_eq (c : mlq_config) (mem : ThreadMem) (q : xnsched_mlq)
    (t : ThreadPtr) (hlo : q.loprio ≤ (mem t).cprio) (hhi : (mem t).cprio ≤ q.hiprio)
    (hr : q.hiprio - q.loprio + 1 < (c.XNSCHED_MLQ_LEVELS : Int)) :
    sched_removeq c mem q t = (.ok (), removemlq c q t (mlq_index mem q t)) := by
  unfold sched_removeq
  rw [indexmlq_ok c q hlo hhi hr]
  rfl

/-! ## Well-formedness is established and kept -/

theorem mlq_wf_init (c : mlq_config) (mem : ThreadMem) (loprio hiprio : Int)
    (h : hiprio - loprio + 1 < (c.XNSCHED_MLQ_LEVELS : Int)) :
    mlq_wf c mem (sched_initq c loprio hiprio).2 := by
  refine ⟨h, ⟨?_, ?_⟩, ?_, ?_, ?_, ?_, ?_⟩
  · intro i; simp [sched_initq]
  · intro hi; simp [sched_initq]
  · simp [sched_initq]
  · intro hi; simp [sched_initq]
  · intro i t ht; simp [sched_initq] at ht
  · intro i; simp [sched_initq]
  · have : mlq_threads c (sched_initq c loprio hiprio).2 = [] := by
      unfold mlq_threads
      rw [mlq_flat_eq_nil]
      intro i _
      rfl
    rw [this]
    rfl

theorem mlq_index_lt {c : mlq_config} {mem : ThreadMem} {q : xnsched_mlq}
    (hwf : mlq_wf c mem q) {t : ThreadPtr} (hlo : q.loprio ≤ (mem t).cprio)
    (hhi : (mem t).cprio ≤ q.hiprio) :
    mlq_index mem q t < c.XNSCHED_MLQ_LEVELS := by
  have := hwf.range
  unfold mlq_index
  omega

theorem mlq_word_lt {c : mlq_config} (hc : c.sane) {idx : Nat}
    (h : idx < c.XNSCHED_MLQ_LEVELS) :
    idx / c.BITS_PER_LONG < c.BITS_PER_LONG ∧ idx % c.BITS_PER_LONG < c.BITS_PER_LONG :=
  ⟨Nat.div_lt_of_lt_mul (lt_of_lt_of_le h hc.2), Nat.mod_lt _ hc.1⟩

theorem mlq_index_split {B i j : Nat} (h1 : i / B = j / B) (h2 : i % B = j % B) : i = j := by
  rw [← Nat.div_add_mod i B, ← Nat.div_add_mod j B, h1, h2]

theorem mlq_wf_link {c : mlq_config} {mem : ThreadMem} {q : xnsched_mlq}
    (hc : c.sane) (hwf : mlq_wf c mem q) {t : ThreadPtr}
    (hlo : q.loprio ≤ (mem t).cprio) (hhi : (mem t).cprio ≤ q.hiprio)
    (hnl : ¬ mlq_linked q t) {l : List ThreadPtr}
    (hl : l.Perm (t :: q.heads (mlq_index mem q t))) :
    mlq_wf c mem (mlq_link c q (mlq_index mem q t) l) := by
  have hidx := mlq_index_lt hwf hlo hhi
  obtain ⟨hhiw, hlow⟩ := mlq_word_lt hc hidx
  have hlne : l ≠ [] := by
    intro h0
    rw [h0] at hl
    exact absurd hl.symm (List.cons_ne_nil _ _ ∘ List.Perm.eq_nil)
  obtain ⟨hbl, hbh⟩ := hwf.bitmaps
  refine ⟨hwf.range, ⟨?_, ?_⟩, ?_, ?_, ?_, ?_, ?_⟩
  · intro i
    by_cases he : q.heads (mlq_index mem q t) = []
    · simp only [mlq_link, he, if_true]
      by_cases hi : i = mlq_index mem q t
      · subst hi
        rw [Function.update_same, Function.update_same, testBit_or_ulong_bit c _ hlow]
        simp [hlne]
      · rw [Function.update_noteq hi]
        by_cases hw : i / c.BITS_PER_LONG = mlq_index mem q t / c.BITS_PER_LONG
        · rw [hw, Function.update_same, testBit_or_ulong_bit c _ hlow, ← hw]
          have hne : ¬ (mlq_index mem q t % c.BITS_PER_LONG = i % c.BITS_PER_LONG) :=
            fun h => hi (mlq_index_split hw h.symm)
          simp only [hne, decide_False, Bool.or_false]
          exact hbl i
        · rw [Function.update_noteq hw]
          exact hbl i
    · simp only [mlq_link, he, if_false]
      by_cases hi : i = mlq_index mem q t
      · subst hi
        rw [Function.update_same]
        constructor
        · intro _; exact hlne
        · intro _; exact (hbl _).mpr he
      · rw [Function.update_noteq hi]
        exact hbl i
  · intro hi
    by_cases he : q.heads (mlq_index mem q t) = []
    · simp only [mlq_link, he, if_true]
      by_cases hw : hi = mlq_index mem q t / c.BITS_PER_LONG
      · subst hw
        rw [Function.update_same, testBit_or_ulong_bit c _ hhiw]
        simp only [decide_True, Bool.or_true, true_iff]
        apply ne_zero_of_testBit (j := mlq_index mem q t % c.BITS_PER_LONG)
        rw [testBit_or_ulong_bit c _ hlow]
        simp
      · rw [Function.update_noteq hw, testBit_or_ulong_bit c _ hhiw]
        have hne : ¬ (mlq_index mem q t / c.BITS_PER_LONG = hi) := fun h => hw h.symm
        simp only [hne, decide_False, Bool.or_false]
        exact hbh hi
    · simp only [mlq_link, he, if_false]
      exact hbh hi
  · by_cases he : q.heads (mlq_index mem q t) = []
    · simp only [mlq_link, he, if_true]
      exact Nat.or_lt_two_pow hwf.himap_lt (ulong_bit_lt c _)
    · simp only [mlq_link, he, if_false]
      exact hwf.himap_lt
  · intro hi
    by_cases he : q.heads (mlq_index mem q t) = []
    · simp only [mlq_link, he, if_true]
      by_cases hw : hi = mlq_index mem q t / c.BITS_PER_LONG
      · subst hw
        rw [Function.update_same]
        exact Nat.or_lt_two_pow (hwf.lomap_lt _) (ulong_bit_lt c _)
      · rw [Function.update_noteq hw]
        exact hwf.lomap_lt hi
    · simp only [mlq_link, he, if_false]
      exact hwf.lomap_lt hi
  · intro i x hx
    simp only [mlq_link] at hx ⊢
    by_cases hi : i = mlq_index mem q t
    · subst hi
      rw [Function.update_same] at hx
      rcases List.mem_cons.mp (hl.mem_iff.mp hx) with hxt | hxo
      · subst hxt
        exact ⟨hlo, hhi, rfl⟩
      · exact hwf.place _ x hxo
    · rw [Function.update_noteq hi] at hx
      exact hwf.place i x hx
  · intro i
    simp only [mlq_link]
    by_cases hi : i = mlq_index mem q t
    · subst hi
      rw [Function.update_same, hl.nodup_iff, List.nodup_cons]
      exact ⟨fun h => hnl ⟨_, h⟩, hwf.nodup _⟩
    · rw [Function.update_noteq hi]
      exact hwf.nodup i
  · have hp := mlq_flat_update_perm q.heads hidx t l hl
    have hlen := hp.length_eq
    simp only [mlq_threads, mlq_link] at hlen ⊢
    rw [hlen, hwf.count]
    simp [mlq_threads]

theorem mlq_threads_link_perm {c : mlq_config} {mem : ThreadMem} {q : xnsched_mlq}
    (hwf : mlq_wf c mem q) {t : ThreadPtr} (hlo : q.loprio ≤ (mem t).cprio)
    (hhi : (mem t).cprio ≤ q.hiprio)
    {l : List ThreadPtr} (hl : l.Perm (t :: q.heads (mlq_index mem q t))) :
    (mlq_threads c (mlq_link c q (mlq_index mem q t) l)).Perm (t :: mlq_threads c q) :=
  mlq_flat_update_perm q.heads (mlq_index_lt hwf hlo hhi) t l hl

theorem removemlq_heads (c : mlq_config) (q : xnsched_mlq) (t : ThreadPtr) (idx : Nat) :
    (removemlq c q t idx).heads = fun i => (q.heads i).erase t := by
  unfold removemlq
  simp only
  split_ifs <;> rfl

theorem removemlq_elems (c : mlq_config) (q : xnsched_mlq) (t : ThreadPtr) (idx : Nat) :
    (removemlq c q t idx).elems = q.elems - 1 := by
  unfold removemlq
  simp only
  split_ifs <;> rfl

theorem removemlq_prio (c : mlq_config) (q : xnsched_mlq) (t : ThreadPtr) (idx : Nat) :
    (removemlq c q t idx).loprio = q.loprio ∧ (removemlq c q t idx).hiprio = q.hiprio := by
  unfold removemlq
  simp only
  split_ifs <;> exact ⟨rfl, rfl⟩

theorem removemlq_lomap (c : mlq_config) (q : xnsched_mlq) (t : ThreadPtr) (idx : Nat) :
    (removemlq c q t idx).lomap =
      if (q.heads idx).erase t = [] then
        Function.update q.lomap (idx / c.BITS_PER_LONG)
          (q.lomap (idx / c.BITS_PER_LONG) &&&
            ulong_not c (ulong_bit c (idx % c.BITS_PER_LONG)))
      else q.lomap := by
  unfold removemlq
  simp only
  split_ifs <;> rfl

theorem removemlq_himap (c : mlq_config) (q : xnsched_mlq) (t : ThreadPtr) (idx : Nat) :
    (removemlq c q t idx).himap =
      if (q.heads idx).erase t = [] ∧
          q.lomap (idx / c.BITS_PER_LONG) &&&
            ulong_not c (ulong_bit c (idx % c.BITS_PER_LONG)) = 0 then
        q.himap &&& ulong_not c (ulong_bit c (idx / c.BITS_PER_LONG))
      else q.himap := by
  unfold removemlq
  simp only [Function.update_same]
  split_ifs with h1 h2 h3 h3 h3 <;> first | rfl | (exfalso; tauto)

theorem mlq_erase_other {c : mlq_config} {mem : ThreadMem} {q : xnsched_mlq}
    (hwf : mlq_wf c mem q) {t : ThreadPtr} {idx : Nat} (ht : t ∈ q.heads idx)
    {i : Nat} (hi : i ≠ idx) : (q.heads i).erase t = q.heads i := by
  apply List.erase_of_not_mem
  intro h
  have h1 := (hwf.place i t h).2.2
  have h2 := (hwf.place idx t ht).2.2
  exact hi (h1.trans h2.symm)

theorem mlq_wf_remove {c : mlq_config} {mem : ThreadMem} {q : xnsched_mlq}
    (hc : c.sane) (hwf : mlq_wf c mem q) {t : ThreadPtr} {idx : Nat}
    (ht : t ∈ q.heads idx) :
    mlq_wf c mem (removemlq c q t idx) := by
  have hplace := hwf.place idx t ht
  have hidx : idx < c.XNSCHED_MLQ_LEVELS := by
    have := mlq_index_lt hwf hplace.1 hplace.2.1
    unfold mlq_index at this
    rw [hplace.2.2]
    exact this
  obtain ⟨hhiw, hlow⟩ := mlq_word_lt hc hidx
  obtain ⟨hbl, hbh⟩ := hwf.bitmaps
  have hne : q.heads idx ≠ [] := List.ne_nil_of_mem ht
  have hbit : (q.lomap (idx / c.BITS_PER_LONG)).testBit (idx % c.BITS_PER_LONG) = true :=
    (hbl idx).mpr hne
  have hwne : q.lomap (idx / c.BITS_PER_LONG) ≠ 0 := ne_zero_of_testBit hbit
  have hprio := removemlq_prio c q t idx
  refine ⟨?_, ⟨?_, ?_⟩, ?_, ?_, ?_, ?_, ?_⟩
  · rw [hprio.1, hprio.2]; exact hwf.range
  · intro i
    rw [removemlq_lomap, removemlq_heads]
    simp only
    by_cases he : (q.heads idx).erase t = []
    · simp only [he, if_true]
      by_cases hi : i = idx
      · subst hi
        rw [Function.update_same, testBit_and_not_ulong_bit c _ hlow (hwf.lomap_lt _)]
        simp [he]
      · rw [mlq_erase_other hwf ht hi]
        by_cases hw : i / c.BITS_PER_LONG = idx / c.BITS_PER_LONG
        · rw [hw, Function.update_same,
            testBit_and_not_ulong_bit c _ hlow (hwf.lomap_lt _), ← hw]
          have hne2 : ¬ (idx % c.BITS_PER_LONG = i % c.BITS_PER_LONG) :=
            fun h => hi (mlq_index_split hw h.symm)
          simp only [hne2, decide_False, Bool.not_false, Bool.and_true]
          exact hbl i
        · rw [Function.update_noteq hw]
          exact hbl i
    · simp only [he, if_false]
      by_cases hi : i = idx
      · subst hi
        constructor
        · intro _; exact he
        · intro _; exact hbit
      · rw [mlq_erase_other hwf ht hi]
        exact hbl i
  · intro hi
    rw [removemlq_lomap, removemlq_himap]
    by_cases he : (q.heads idx).erase t = []
    · by_cases hz : q.lomap (idx / c.BITS_PER_LONG) &&&
          ulong_not c (ulong_bit c (idx % c.BITS_PER_LONG)) = 0
      · simp only [he, hz, and_self, if_true]
        rw [testBit_and_not_ulong_bit c _ hhiw hwf.himap_lt]
        by_cases hw : hi = idx / c.BITS_PER_LONG
        · subst hw
          simp
        · rw [Function.update_noteq hw]
          have hne2 : ¬ (idx / c.BITS_PER_LONG = hi) := fun h => hw h.symm
          simp only [hne2, decide_False, Bool.not_false, Bool.and_true]
          exact hbh hi
      · simp only [he, hz, and_false, if_false, if_true]
        by_cases hw : hi = idx / c.BITS_PER_LONG
        · subst hw
          rw [Function.update_same]
          constructor
          · intro _; exact hz
          · intro _; exact (hbh _).mpr hwne
        · rw [Function.update_noteq hw]
          exact hbh hi
    · simp only [he, false_and, if_false]
      exact hbh hi
  · rw [removemlq_himap]
    split_ifs
    · exact and_not_ulong_bit_lt c _ _ hwf.himap_lt
    · exact hwf.himap_lt
  · intro hi
    rw [removemlq_lomap]
    split_ifs
    · by_cases hw : hi = idx / c.BITS_PER_LONG
      · subst hw
        rw [Function.update_same]
        exact and_not_ulong_bit_lt c _ _ (hwf.lomap_lt _)
      · rw [Function.update_noteq hw]
        exact hwf.lomap_lt hi
    · exact hwf.lomap_lt hi
  · intro i x hx
    rw [removemlq_heads] at hx
    rw [hprio.1, hprio.2]
    exact hwf.place i x (List.mem_of_mem_erase hx)
  · intro i
    rw [removemlq_heads]
    exact (hwf.nodup i).erase t
  · rw [removemlq_elems, hwf.count]
    unfold mlq_threads
    rw [removemlq_heads, mlq_flat_erase]
    · have hm : t ∈ mlq_flat q.heads c.XNSCHED_MLQ_LEVELS :=
        mem_mlq_flat.mpr ⟨idx, hidx, ht⟩
      rw [List.length_erase_of_mem hm]
      have hpos : 0 < (mlq_flat q.heads c.XNSCHED_MLQ_LEVELS).length :=
        List.length_pos_of_mem hm
      omega
    · intro i j hi hj
      exact ((hwf.place i t hi).2.2).trans ((hwf.place j t hj).2.2).symm

theorem mlq_threads_remove {c : mlq_config} {mem : ThreadMem} {q : xnsched_mlq}
    (hwf : mlq_wf c mem q) (t : ThreadPtr) (idx : Nat) :
    mlq_threads c (removemlq c q t idx) = (mlq_threads c q).erase t := by
  unfold mlq_threads
  rw [removemlq_heads, mlq_flat_erase]
  intro i j hi hj
  exact ((hwf.place i t hi).2.2).trans ((hwf.place j t hj).2.2).symm

/-! ## The bit scan finds the lowest occupied bucket -/

theorem ffsmlq_spec {c : mlq_config} {mem : ThreadMem} {q : xnsched_mlq}
    (hc : c.sane) (hwf : mlq_wf c mem q) (hne : mlq_threads c q ≠ []) :
    ∃ idx, ffsmlq c q = some idx ∧ q.heads idx ≠ [] ∧ ∀ j, j < idx → q.heads j = [] := by
  obtain ⟨hbl, hbh⟩ := hwf.bitmaps
  have hB := hc.1
  have hex : ∃ i, q.heads i ≠ [] := by
    by_contra hall
    push_neg at hall
    exact hne (mlq_flat_eq_nil.mpr (fun i _ => hall i))
  obtain ⟨i, hi⟩ := hex
  have hw : q.lomap (i / c.BITS_PER_LONG) ≠ 0 := ne_zero_of_testBit ((hbl i).mpr hi)
  have hh : q.himap ≠ 0 := ne_zero_of_testBit ((hbh _).mpr hw)
  obtain ⟨hi0, hf1, hhilt, hhibit, hhimin⟩ := ffnz_eq_some c hh hwf.himap_lt
  have hw0 : q.lomap hi0 ≠ 0 := (hbh hi0).mp hhibit
  obtain ⟨lo0, hf2, hlolt, hlobit, hlomin⟩ := ffnz_eq_some c hw0 (hwf.lomap_lt hi0)
  have hdiv : (hi0 * c.BITS_PER_LONG + lo0) / c.BITS_PER_LONG = hi0 := by
    rw [Nat.add_comm, Nat.add_mul_div_right _ _ hB, Nat.div_eq_of_lt hlolt, Nat.zero_add]
  have hmod : (hi0 * c.BITS_PER_LONG + lo0) % c.BITS_PER_LONG = lo0 := by
    rw [Nat.add_comm, Nat.add_mul_mod_self_right, Nat.mod_eq_of_lt hlolt]
  refine ⟨hi0 * c.BITS_PER_LONG + lo0, ?_, ?_, ?_⟩
  · unfold ffsmlq
    rw [hf1]
    simp only
    rw [hf2]
  · apply (hbl _).mp
    rw [hdiv, hmod]
    exact hlobit
  · intro j hj
    by_contra hjne
    have hjbit := (hbl j).mpr hjne
    have hjw : q.lomap (j / c.BITS_PER_LONG) ≠ 0 := ne_zero_of_testBit hjbit
    have hjh := (hbh _).mpr hjw
    have hle : hi0 ≤ j / c.BITS_PER_LONG := by
      by_contra hlt
      have := hhimin _ (not_le.mp hlt)
      rw [this] at hjh
      exact Bool.false_ne_true hjh
    have hle2 : j / c.BITS_PER_LONG ≤ hi0 := by
      have := Nat.div_le_div_right (c := c.BITS_PER_LONG) (Nat.le_of_lt hj)
      rw [hdiv] at this
      exact this
    have heq : j / c.BITS_PER_LONG = hi0 := Nat.le_antisymm hle2 hle
    have hjlo : lo0 ≤ j % c.BITS_PER_LONG := by
      by_contra hlt
      have := hlomin _ (not_le.mp hlt)
      rw [heq, this] at hjbit
      exact Bool.false_ne_true hjbit
    have hjdec := Nat.div_add_mod j c.BITS_PER_LONG
    rw [heq, Nat.mul_comm] at hjdec
    omega

theorem sched_getq_empty {c : mlq_config} {mem : ThreadMem} {q : xnsched_mlq}
    (hwf : mlq_wf c mem q) (h : mlq_threads c q = []) :
    sched_getq c q = (.ok none, q) := by
  have he : q.elems = 0 := by rw [hwf.count, h]; rfl
  unfold sched_getq
  simp [he]

theorem sched_getq_cons {c : mlq_config} {mem : ThreadMem} {q : xnsched_mlq}
    (hc : c.sane) (hwf : mlq_wf c mem q) {t : ThreadPtr} {r : List ThreadPtr}
    (h : mlq_threads c q = t :: r) :
    ∃ idx, sched_getq c q = (.ok (some t), removemlq c q t idx) ∧
      q.heads idx ≠ [] ∧ (q.heads idx).head? = some t ∧
      (∀ j, j < idx → q.heads j = []) ∧
      mlq_wf c mem (removemlq c q t idx) ∧
      mlq_threads c (removemlq c q t idx) = r := by
  have hne : mlq_threads c q ≠ [] := by rw [h]; exact List.cons_ne_nil _ _
  obtain ⟨idx, hffs, hidxne, hmin⟩ := ffsmlq_spec hc hwf hne
  have he : q.elems ≠ 0 := by
    rw [hwf.count, h]
    simp only [List.length_cons]
    omega
  obtain ⟨x, l, hxl⟩ := List.exists_cons_of_ne_nil hidxne
  have hxmem : x ∈ q.heads idx := by rw [hxl]; exact List.mem_cons_self x l
  have hplace := hwf.place idx x hxmem
  have hidx : idx < c.XNSCHED_MLQ_LEVELS := by
    have := mlq_index_lt hwf hplace.1 hplace.2.1
    unfold mlq_index at this
    rw [hplace.2.2]
    exact this
  obtain ⟨A, B, hA, _, hs⟩ := mlq_flat_split q.heads hidx
  have hflat := hs (q.heads idx)
  rw [Function.update_eq_self] at hflat
  have hAnil : A = [] := by
    cases A with
    | nil => rfl
    | cons a A1 =>
      obtain ⟨i, hi, hai⟩ := hA a (List.mem_cons_self a A1)
      rw [hmin i hi] at hai
      exact absurd hai (List.not_mem_nil a)
  have hxt : x = t := by
    unfold mlq_threads at h
    rw [hflat, hAnil, hxl] at h
    simp only [List.nil_append, List.cons_append] at h
    exact (List.cons.inj h).1
  subst hxt
  refine ⟨idx, ?_, hidxne, ?_, hmin, mlq_wf_remove hc hwf hxmem, ?_⟩
  · unfold sched_getq
    rw [if_neg he, hffs]
    simp only
    rw [hxl]
    rfl
  · rw [hxl]; rfl
  · rw [mlq_threads_remove hwf, h, List.erase_cons_head]

/-! ## Sequences of operations keep the queue well-formed -/

theorem mlq_linked_index {c : mlq_config} {mem : ThreadMem} {q : xnsched_mlq}
    (hwf : mlq_wf c mem q) {t : ThreadPtr} (h : mlq_linked q t) :
    t ∈ q.heads (mlq_index mem q t) ∧ q.loprio ≤ (mem t).cprio ∧
      (mem t).cprio ≤ q.hiprio := by
  obtain ⟨i, hi⟩ := h
  have hp := hwf.place i t hi
  refine ⟨?_, hp.1, hp.2.1⟩
  unfold mlq_index
  rw [← hp.2.2]
  exact hi

theorem sched_getq_wf {c : mlq_config} {mem : ThreadMem} {q : xnsched_mlq}
    (hc : c.sane) (hwf : mlq_wf c mem q) :
    mlq_wf c mem (sched_getq c q).2 ∧ (sched_getq c q).1.toBool = true := by
  cases h : mlq_threads c q with
  | nil =>
    rw [sched_getq_empty hwf h]
    exact ⟨hwf, rfl⟩
  | cons t r =>
    obtain ⟨idx, hg, _, _, _, hwf2, _⟩ := sched_getq_cons hc hwf h
    rw [hg]
    exact ⟨hwf2, rfl⟩

theorem mlq_wf_next {c : mlq_config} {mem : ThreadMem} {q : xnsched_mlq}
    (hc : c.sane) (hwf : mlq_wf c mem q) (op : mlq_op) (hv : op.valid mem q) :
    mlq_wf c mem (op.next c mem q) ∧ op.completes c mem q = true := by
  cases op with
  | insertqlf t =>
    obtain ⟨hnl, hlo, hhi⟩ := hv
    simp only [mlq_op.next, mlq_op.completes]
    rw [sched_insertqlf_eq c mem q t hlo hhi hwf.range]
    exact ⟨mlq_wf_link hc hwf hlo hhi hnl (List.Perm.refl _), rfl⟩
  | insertqff t =>
    obtain ⟨hnl, hlo, hhi⟩ := hv
    simp only [mlq_op.next, mlq_op.completes]
    rw [sched_insertqff_eq c mem q t hlo hhi hwf.range]
    exact ⟨mlq_wf_link hc hwf hlo hhi hnl (List.perm_append_singleton _ _), rfl⟩
  | removeq t =>
    obtain ⟨hm, hlo, hhi⟩ := mlq_linked_index hwf hv
    simp only [mlq_op.next, mlq_op.completes]
    rw [sched_removeq_eq c mem q t hlo hhi hwf.range]
    exact ⟨mlq_wf_remove hc hwf hm, rfl⟩
  | getq =>
    simp only [mlq_op.next, mlq_op.completes]
    exact sched_getq_wf hc hwf

theorem demo_queue_wf : mlq_wf cfg32 prio_mem demo_queue :=
  (mlq_wf_next (by decide) (mlq_wf_init cfg32 prio_mem 0 99 (by decide)) (mlq_op.insertqlf 10)
    ⟨by rintro ⟨i, hi⟩; simp [sched_initq] at hi, by decide, by decide⟩).1

/-! ## Claims on the multi-level queue -/

/-- C2: on a non-empty well-formed queue (bitmaps matching the buckets),
`sched_getq` returns the first thread of the non-empty bucket with the lowest
index, that index is `hiprio - cprio` of the thread, the thread is unlinked,
and its `cprio` is greater than or equal to the `cprio` of every thread queued
at the time of the call. -/
theorem sched_getq_returns_highest (c : mlq_config) (hc : c.sane) (mem : ThreadMem)
    (q : xnsched_mlq) (hwf : mlq_wf c mem q) (hne : q.elems ≠ 0) :
    ∃ t idx, (sched_getq c q).1 = .ok (some t) ∧
      (q.heads idx).head? = some t ∧
      (∀ j, j < idx → q.heads j = []) ∧
      (idx : Int) = q.hiprio - (mem t).cprio ∧
      (sched_getq c q).2.heads = (fun i => (q.heads i).erase t) ∧
      ¬ mlq_linked (sched_getq c q).2 t ∧
      ∀ u, mlq_linked q u → (mem u).cprio ≤ (mem t).cprio := by
  cases h : mlq_threads c q with
  | nil =>
    exfalso
    apply hne
    rw [hwf.count, h]
    rfl
  | cons t r =>
    obtain ⟨idx, hg, hidxne, hhead, hmin, hwf2, hthr⟩ := sched_getq_cons hc hwf h
    have htmem : t ∈ q.heads idx := by
      cases hq : q.heads idx with
      | nil => exact absurd hq hidxne
      | cons x l =>
        rw [hq] at hhead
        simp only [List.head?_cons, Option.some.injEq] at hhead
        rw [hhead]
        exact List.mem_cons_self t l
    have hp := hwf.place idx t htmem
    refine ⟨t, idx, ?_, hhead, hmin, ?_, ?_, ?_, ?_⟩
    · rw [hg]
    · have := hp.2.2
      omega
    · rw [hg]
      exact removemlq_heads c q t idx
    · rw [hg]
      rintro ⟨i, hi⟩
      rw [removemlq_heads] at hi
      exact (List.Nodup.not_mem_erase (hwf.nodup i)) hi
    · rintro u ⟨i, hi⟩
      have hu := hwf.place i u hi
      have hle : idx ≤ i := by
        by_contra hlt
        have := hmin i (not_le.mp hlt)
        rw [this] at hi
        exact absurd hi (List.not_mem_nil u)
      have h1 := hp.2.2
      have h2 := hu.2.2
      omega

theorem sched_getq_returns_highest_witness :
    ∃ t idx, (sched_getq cfg32 demo_queue).1 = .ok (some t) ∧
      (demo_queue.heads idx).head? = some t ∧
      (∀ j, j < idx → demo_queue.heads j = []) ∧
      (idx : Int) = demo_queue.hiprio - (prio_mem t).cprio ∧
      (sched_getq cfg32 demo_queue).2.heads = (fun i => (demo_queue.heads i).erase t) ∧
      ¬ mlq_linked (sched_getq cfg32 demo_queue).2 t ∧
      ∀ u, mlq_linked demo_queue u → (prio_mem u).cprio ≤ (prio_mem t).cprio :=
  sched_getq_returns_highest cfg32 (by decide) prio_mem demo_queue
    (mlq_wf_next (by decide) (mlq_wf_init cfg32 prio_mem 0 99 (by decide)) (mlq_op.insertqlf 10)
      ⟨by rintro ⟨i, hi⟩; simp [sched_initq] at hi, by decide, by decide⟩).1
    (by decide)

theorem getq_results_drain {c : mlq_config} {mem : ThreadMem} (hc : c.sane) :
    ∀ (l : List ThreadPtr) (q : xnsched_mlq), mlq_wf c mem q → mlq_threads c q = l →
      getq_results c q (l.length + 1) =
        l.map (fun t => Except.ok (some t)) ++ [Except.ok none] := by
  intro l
  induction l with
  | nil =>
    intro q hwf h
    simp only [List.length_nil, getq_results, List.map_nil, List.nil_append]
    rw [sched_getq_empty hwf h]
  | cons t r ih =>
    intro q hwf h
    obtain ⟨idx, hg, _, _, _, hwf2, hthr⟩ := sched_getq_cons hc hwf h
    simp only [List.length_cons, List.map_cons, List.cons_append]
    rw [getq_results, hg]
    simp only
    rw [ih _ hwf2 hthr]

theorem mlq_linked_iff_mem_threads {c : mlq_config} {mem : ThreadMem} {q : xnsched_mlq}
    (hwf : mlq_wf c mem q) (t : ThreadPtr) : mlq_linked q t ↔ t ∈ mlq_threads c q := by
  constructor
  · intro h
    obtain ⟨hm, hlo, hhi⟩ := mlq_linked_index hwf h
    exact mem_mlq_flat.mpr ⟨_, mlq_index_lt hwf hlo hhi, hm⟩
  · intro h
    obtain ⟨i, _, hi⟩ := mem_mlq_flat.mp h
    exact ⟨i, hi⟩

theorem insert_all_lf_spec {c : mlq_config} {mem : ThreadMem} (hc : c.sane) :
    ∀ (ts : List ThreadPtr) (q : xnsched_mlq), mlq_wf c mem q →
      (∀ t ∈ ts, q.loprio ≤ (mem t).cprio ∧ (mem t).cprio ≤ q.hiprio) →
      (∀ t ∈ ts, ¬ mlq_linked q t) → ts.Nodup →
      mlq_wf c mem (insert_all_lf c mem q ts) ∧
      (mlq_threads c (insert_all_lf c mem q ts)).Perm (ts ++ mlq_threads c q) := by
  intro ts
  induction ts with
  | nil =>
    intro q hwf _ _ _
    exact ⟨hwf, List.Perm.refl _⟩
  | cons t ts ih =>
    intro q hwf hr hnl hnd
    obtain ⟨hlo, hhi⟩ := hr t (List.mem_cons_self t ts)
    have hnlt := hnl t (List.mem_cons_self t ts)
    have hwf1 := mlq_wf_link hc hwf hlo hhi hnlt (List.Perm.refl _)
    have hp1 := mlq_threads_link_perm hwf hlo hhi
      (List.Perm.refl (t :: q.heads (mlq_index mem q t)))
    rw [List.nodup_cons] at hnd
    simp only [insert_all_lf]
    rw [sched_insertqlf_eq c mem q t hlo hhi hwf.range]
    simp only
    have hr1 : ∀ u ∈ ts,
        (mlq_link c q (mlq_index mem q t) (t :: q.heads (mlq_index mem q t))).loprio
          ≤ (mem u).cprio ∧
        (mem u).cprio
          ≤ (mlq_link c q (mlq_index mem q t) (t :: q.heads (mlq_index mem q t))).hiprio :=
      fun u hu => hr u (List.mem_cons_of_mem t hu)
    have hnl1 : ∀ u ∈ ts,
        ¬ mlq_linked (mlq_link c q (mlq_index mem q t) (t :: q.heads (mlq_index mem q t))) u := by
      intro u hu hlk
      have hmem := (mlq_linked_iff_mem_threads hwf1 u).mp hlk
      rcases List.mem_cons.mp (hp1.mem_iff.mp hmem) with h | h
      · subst h
        exact hnd.1 hu
      · obtain ⟨i, _, hi⟩ := mem_mlq_flat.mp h
        exact hnl u (List.mem_cons_of_mem t hu) ⟨i, hi⟩
    obtain ⟨hwf2, hp2⟩ := ih _ hwf1 hr1 hnl1 hnd.2
    refine ⟨hwf2, hp2.trans ?_⟩
    have : (ts ++ t :: mlq_threads c q).Perm (t :: ts ++ mlq_threads c q) := by
      simp only [List.cons_append]
      exact List.perm_middle
    exact (List.Perm.append_left ts hp1).trans this

theorem mlq_not_linked_link {c : mlq_config} {mem : ThreadMem} {q : xnsched_mlq}
    (hc : c.sane) (hwf : mlq_wf c mem q) {t : ThreadPtr}
    (hlo : q.loprio ≤ (mem t).cprio) (hhi : (mem t).cprio ≤ q.hiprio)
    (hnlt : ¬ mlq_linked q t) {l : List ThreadPtr}
    (hl : l.Perm (t :: q.heads (mlq_index mem q t)))
    {u : ThreadPtr} (hut : u ≠ t) (hnlu : ¬ mlq_linked q u) :
    ¬ mlq_linked (mlq_link c q (mlq_index mem q t) l) u := by
  intro hlk
  have hwf1 := mlq_wf_link hc hwf hlo hhi hnlt hl
  have hmem := (mlq_linked_iff_mem_threads hwf1 u).mp hlk
  rcases List.mem_cons.mp ((mlq_threads_link_perm hwf hlo hhi hl).mem_iff.mp hmem) with h | h
  · exact hut h
  · exact hnlu ((mlq_linked_iff_mem_threads hwf u).mpr h)

theorem insert_all_ff_heads {c : mlq_config} {mem : ThreadMem} (hc : c.sane) (p : Int) :
    ∀ (ts : List ThreadPtr) (q : xnsched_mlq), mlq_wf c mem q →
      q.loprio ≤ p → p ≤ q.hiprio → (∀ t ∈ ts, (mem t).cprio = p) →
      (∀ t ∈ ts, ¬ mlq_linked q t) → ts.Nodup →
      mlq_wf c mem (insert_all_ff c mem q ts) ∧
      (insert_all_ff c mem q ts).heads =
        Function.update q.heads (q.hiprio - p).toNat (q.heads (q.hiprio - p).toNat ++ ts) := by
  intro ts
  induction ts with
  | nil =>
    intro q hwf _ _ _ _ _
    refine ⟨hwf, ?_⟩
    simp only [insert_all_ff, List.append_nil]
    exact (Function.update_eq_self _ _).symm
  | cons t ts ih =>
    intro q hwf hlo hhi hp hnl hnd
    have hpt := hp t (List.mem_cons_self t ts)
    have hlot : q.loprio ≤ (mem t).cprio := by rw [hpt]; exact hlo
    have hhit : (mem t).cprio ≤ q.hiprio := by rw [hpt]; exact hhi
    have hidx : mlq_index mem q t = (q.hiprio - p).toNat := by unfold mlq_index; rw [hpt]
    have hnlt := hnl t (List.mem_cons_self t ts)
    rw [List.nodup_cons] at hnd
    have hl : (q.heads (mlq_index mem q t) ++ [t]).Perm (t :: q.heads (mlq_index mem q t)) :=
      List.perm_append_singleton _ _
    have hwf1 := mlq_wf_link hc hwf hlot hhit hnlt hl
    have hnl1 : ∀ u ∈ ts, ¬ mlq_linked
        (mlq_link c q (mlq_index mem q t) (q.heads (mlq_index mem q t) ++ [t])) u := by
      intro u hu
      apply mlq_not_linked_link hc hwf hlot hhit hnlt hl
      · intro h; subst h; exact hnd.1 hu
      · exact hnl u (List.mem_cons_of_mem t hu)
    simp only [insert_all_ff]
    rw [sched_insertqff_eq c mem q t hlot hhit hwf.range]
    simp only
    obtain ⟨hwf2, hh⟩ := ih _ hwf1 hlo hhi (fun u hu => hp u (List.mem_cons_of_mem t hu))
      hnl1 hnd.2
    refine ⟨hwf2, ?_⟩
    rw [hh, hidx]
    simp only [mlq_link, Function.update_same, Function.update_idem, List.append_assoc,
      List.singleton_append]

theorem insert_all_lf_heads {c : mlq_config} {mem : ThreadMem} (hc : c.sane) (p : Int) :
    ∀ (ts : List ThreadPtr) (q : xnsched_mlq), mlq_wf c mem q →
      q.loprio ≤ p → p ≤ q.hiprio → (∀ t ∈ ts, (mem t).cprio = p) →
      (∀ t ∈ ts, ¬ mlq_linked q t) → ts.Nodup →
      mlq_wf c mem (insert_all_lf c mem q ts) ∧
      (insert_all_lf c mem q ts).heads =
        Function.update q.heads (q.hiprio - p).toNat
          (ts.reverse ++ q.heads (q.hiprio - p).toNat) := by
  intro ts
  induction ts with
  | nil =>
    intro q hwf _ _ _ _ _
    refine ⟨hwf, ?_⟩
    simp only [insert_all_lf, List.reverse_nil, List.nil_append]
    exact (Function.update_eq_self _ _).symm
  | cons t ts ih =>
    intro q hwf hlo hhi hp hnl hnd
    have hpt := hp t (List.mem_cons_self t ts)
    have hlot : q.loprio ≤ (mem t).cprio := by rw [hpt]; exact hlo
    have hhit : (mem t).cprio ≤ q.hiprio := by rw [hpt]; exact hhi
    have hidx : mlq_index mem q t = (q.hiprio - p).toNat := by unfold mlq_index; rw [hpt]
    have hnlt := hnl t (List.mem_cons_self t ts)
    rw [List.nodup_cons] at hnd
    have hl : (t :: q.heads (mlq_index mem q t)).Perm (t :: q.heads (mlq_index mem q t)) :=
      List.Perm.refl _
    have hwf1 := mlq_wf_link hc hwf hlot hhit hnlt hl
    have hnl1 : ∀ u ∈ ts, ¬ mlq_linked
        (mlq_link c q (mlq_index mem q t) (t :: q.heads (mlq_index mem q t))) u := by
      intro u hu
      apply mlq_not_linked_link hc hwf hlot hhit hnlt hl
      · intro h; subst h; exact hnd.1 hu
      · exact hnl u (List.mem_cons_of_mem t hu)
    simp only [insert_all_lf]
    rw [sched_insertqlf_eq c mem q t hlot hhit hwf.range]
    simp only
    obtain ⟨hwf2, hh⟩ := ih _ hwf1 hlo hhi (fun u hu => hp u (List.mem_cons_of_mem t hu))
      hnl1 hnd.2
    refine ⟨hwf2, ?_⟩
    rw [hh, hidx]
    simp only [mlq_link, Function.update_same, Function.update_idem, List.reverse_cons,
      List.append_assoc, List.singleton_append]

/-- The threads of a queue whose bucket `idx` became `pre ++ blk ++ post`,
with `pre` and `post` made of old threads: keeping only the new threads `ts`
leaves what `blk` holds of them. -/
theorem mlq_flat_filter_block (f : Nat → List ThreadPtr) {idx n : Nat} (h : idx < n)
    (ts blk : List ThreadPtr) (hnl : ∀ t ∈ ts, ∀ i, t ∉ f i)
    (pre post : List ThreadPtr) (hpre : ∀ x ∈ pre, x ∈ f idx) (hpost : ∀ x ∈ post, x ∈ f idx) :
    (mlq_flat (Function.update f idx (pre ++ blk ++ post)) n).filter
        (fun t => decide (t ∈ ts)) = blk.filter (fun t => decide (t ∈ ts)) := by
  obtain ⟨A, B, hA, hB, hs⟩ := mlq_flat_split f h
  rw [hs]
  have hnone : ∀ (L : List ThreadPtr), (∀ x ∈ L, ∃ i, x ∈ f i) →
      L.filter (fun t => decide (t ∈ ts)) = [] := by
    intro L hL
    rw [List.filter_eq_nil_iff]
    intro x hx
    obtain ⟨i, hi⟩ := hL x hx
    simp only [decide_eq_true_eq]
    intro hxt
    exact hnl x hxt i hi
  simp only [List.filter_append]
  rw [hnone A (fun x hx => (hA x hx).imp (fun i hi => hi.2)),
    hnone B (fun x hx => (hB x hx).imp (fun i hi => hi.2.2)),
    hnone pre (fun x hx => ⟨idx, hpre x hx⟩), hnone post (fun x hx => ⟨idx, hpost x hx⟩)]
  simp

/-- C5: threads sharing one in-range `cprio`, inserted into a well-formed
queue that holds none of them, are returned by successive `sched_getq` calls
in insertion order when inserted with `sched_insertqff` and in reverse
insertion order when inserted with `sched_insertqlf`.  `pops` is the whole
sequence of threads returned until NULL. -/
theorem same_prio_pop_order (c : mlq_config) (hc : c.sane) (mem : ThreadMem)
    (q : xnsched_mlq) (hwf : mlq_wf c mem q) (p : Int)
    (hlo : q.loprio ≤ p) (hhi : p ≤ q.hiprio) (ts : List ThreadPtr)
    (hp : ∀ t ∈ ts, (mem t).cprio = p) (hnd : ts.Nodup)
    (hnl : ∀ t ∈ ts, ¬ mlq_linked q t) :
    (∃ pops : List ThreadPtr,
      getq_results c (insert_all_ff c mem q ts) (pops.length + 1) =
        pops.map (fun t => Except.ok (some t)) ++ [Except.ok none] ∧
      pops.Perm (ts ++ mlq_threads c q) ∧
      pops.filter (fun t => decide (t ∈ ts)) = ts) ∧
    (∃ pops : List ThreadPtr,
      getq_results c (insert_all_lf c mem q ts) (pops.length + 1) =
        pops.map (fun t => Except.ok (some t)) ++ [Except.ok none] ∧
      pops.Perm (ts ++ mlq_threads c q) ∧
      pops.filter (fun t => decide (t ∈ ts)) = ts.reverse) := by
  have hidx : (q.hiprio - p).toNat < c.XNSCHED_MLQ_LEVELS := by
    have := hwf.range
    omega
  have hnl2 : ∀ t ∈ ts, ∀ i, t ∉ q.heads i := fun t ht i hi => hnl t ht ⟨i, hi⟩
  have hself : ∀ l : List ThreadPtr, (∀ x ∈ l, x ∈ ts) →
      l.filter (fun t => decide (t ∈ ts)) = l := by
    intro l hl
    rw [List.filter_eq_self]
    intro x hx
    simp only [decide_eq_true_eq]
    exact hl x hx
  have hrange : ∀ t ∈ ts, q.loprio ≤ (mem t).cprio ∧ (mem t).cprio ≤ q.hiprio := by
    intro t ht
    rw [hp t ht]
    exact ⟨hlo, hhi⟩
  constructor
  · obtain ⟨hwf2, hh⟩ := insert_all_ff_heads hc p ts q hwf hlo hhi hp hnl hnd
    refine ⟨mlq_threads c (insert_all_ff c mem q ts),
      getq_results_drain hc _ _ hwf2 rfl, ?_, ?_⟩
    · obtain ⟨A, B, _, _, hs⟩ := mlq_flat_split q.heads hidx
      have h0 := hs (q.heads (q.hiprio - p).toNat)
      rw [Function.update_eq_self] at h0
      unfold mlq_threads
      rw [hh, hs, h0]
      have h1 : (A ++ (q.heads (q.hiprio - p).toNat ++ ts) ++ B).Perm
          (A ++ (ts ++ q.heads (q.hiprio - p).toNat) ++ B) :=
        List.Perm.append_right B (List.Perm.append_left A List.perm_append_comm)
      have h2 : A ++ (ts ++ q.heads (q.hiprio - p).toNat) ++ B =
          (A ++ ts) ++ (q.heads (q.hiprio - p).toNat ++ B) := by
        simp only [List.append_assoc]
      have h3 : ((A ++ ts) ++ (q.heads (q.hiprio - p).toNat ++ B)).Perm
          ((ts ++ A) ++ (q.heads (q.hiprio - p).toNat ++ B)) :=
        List.Perm.append_right _ List.perm_append_comm
      have h4 : (ts ++ A) ++ (q.heads (q.hiprio - p).toNat ++ B) =
          ts ++ (A ++ q.heads (q.hiprio - p).toNat ++ B) := by
        simp only [List.append_assoc]
      rw [h2] at h1
      rw [h4] at h3
      exact h1.trans h3
    · unfold mlq_threads
      rw [hh]
      have := mlq_flat_filter_block q.heads hidx ts ts hnl2
        (q.heads (q.hiprio - p).toNat) [] (fun x hx => hx)
        (fun x hx => absurd hx (List.not_mem_nil x))
      rw [List.append_nil] at this
      rw [this]
      exact hself ts (fun x hx => hx)
  · obtain ⟨hwf2, hh⟩ := insert_all_lf_heads hc p ts q hwf hlo hhi hp hnl hnd
    refine ⟨mlq_threads c (insert_all_lf c mem q ts),
      getq_results_drain hc _ _ hwf2 rfl, ?_, ?_⟩
    · exact (insert_all_lf_spec hc ts q hwf hrange hnl hnd).2
    · unfold mlq_threads
      rw [hh]
      have := mlq_flat_filter_block q.heads hidx ts ts.reverse hnl2
        [] (q.heads (q.hiprio - p).toNat) (fun x hx => absurd hx (List.not_mem_nil x))
        (fun x hx => hx)
      rw [List.nil_append] at this
      rw [this]
      exact hself ts.reverse (fun x hx => List.mem_reverse.mp hx)

theorem same_prio_pop_order_witness :
    (∃ pops : List ThreadPtr,
      getq_results cfg32
          (insert_all_ff cfg32 (const_prio_mem 50) (sched_initq cfg32 0 99).2 [1, 2, 3])
          (pops.length + 1) =
        pops.map (fun t => Except.ok (some t)) ++ [Except.ok none] ∧
      pops.Perm ([1, 2, 3] ++ mlq_threads cfg32 (sched_initq cfg32 0 99).2) ∧
      pops.filter (fun t => decide (t ∈ [1, 2, 3])) = [1, 2, 3]) ∧
    (∃ pops : List ThreadPtr,
      getq_results cfg32
          (insert_all_lf cfg32 (const_prio_mem 50) (sched_initq cfg32 0 99).2 [1, 2, 3])
          (pops.length + 1) =
        pops.map (fun t => Except.ok (some t)) ++ [Except.ok none] ∧
      pops.Perm ([1, 2, 3] ++ mlq_threads cfg32 (sched_initq cfg32 0 99).2) ∧
      pops.filter (fun t => decide (t ∈ [1, 2, 3])) = [1, 2, 3].reverse) :=
  same_prio_pop_order cfg32 (by decide) (const_prio_mem 50) (sched_initq cfg32 0 99).2
    (mlq_wf_init cfg32 (const_prio_mem 50) 0 99 (by decide)) 50 (by decide) (by decide)
    [1, 2, 3] (fun _ _ => rfl) (by decide)
    (by rintro t _ ⟨i, hi⟩; simp [sched_initq] at hi)

/-- C6: for a thread whose priority is outside `[loprio, hiprio]`,
`sched_insertqlf`, `sched_insertqff` and `sched_removeq` stop on the
`indexmlq` assertion and leave the queue as it was; `sched_findq` with such a
priority stops on the same assertion.  No index is produced, so nothing is
clamped. -/
theorem out_of_range_priority_is_fatal (c : mlq_config) (mem : ThreadMem)
    (q : xnsched_mlq) (thread : ThreadPtr)
    (h : ¬ (q.loprio ≤ (mem thread).cprio ∧ (mem thread).cprio ≤ q.hiprio)) :
    indexmlq c q (mem thread).cprio = .error "priority level is out of range" ∧
    sched_insertqlf c mem q thread = (.error "priority level is out of range", q) ∧
    sched_insertqff c mem q thread = (.error "priority level is out of range", q) ∧
    sched_removeq c mem q thread = (.error "priority level is out of range", q) ∧
    sched_findq c q (mem thread).cprio = .error "priority level is out of range" := by
  have he := indexmlq_error c q h
  refine ⟨he, ?_, ?_, ?_, ?_⟩
  · unfold sched_insertqlf addmlq
    rw [he]
  · unfold sched_insertqff addmlq
    rw [he]
  · unfold sched_removeq
    rw [he]
  · unfold sched_findq
    rw [he]

theorem out_of_range_priority_is_fatal_witness :
    indexmlq cfg32 demo_queue (prio_mem 100).cprio = .error "priority level is out of range" ∧
    sched_insertqlf cfg32 prio_mem demo_queue 100
      = (.error "priority level is out of range", demo_queue) ∧
    sched_insertqff cfg32 prio_mem demo_queue 100
      = (.error "priority level is out of range", demo_queue) ∧
    sched_removeq cfg32 prio_mem demo_queue 100
      = (.error "priority level is out of range", demo_queue) ∧
    sched_findq cfg32 demo_queue (prio_mem 100).cprio
      = .error "priority level is out of range" :=
  out_of_range_priority_is_fatal cfg32 prio_mem demo_queue 100 (by decide)

/-- The index on a range without wrap.  On a queue whose range the buckets
can hold (`hiprio - loprio + 1 < XNSCHED_MLQ_LEVELS` as integers) and for a
priority in `[loprio, hiprio]`,
`indexmlq` returns `hiprio - prio`, which lies in `[0, hiprio - loprio]` and is
strictly smaller for a strictly higher priority; the index is below the number
of buckets, its word index is below the number of `lomap` words and below the
width of `himap`, and its bit index is below the word width. -/
theorem indexmlq_in_bounds (c : mlq_config) (hc : c.sane) (q : xnsched_mlq) (prio : Int)
    (hlo : q.loprio ≤ prio) (hhi : prio ≤ q.hiprio)
    (hrange : q.hiprio - q.loprio + 1 < (c.XNSCHED_MLQ_LEVELS : Int)) :
    indexmlq c q prio = .ok (q.hiprio - prio) ∧
    0 ≤ q.hiprio - prio ∧ q.hiprio - prio ≤ q.hiprio - q.loprio ∧
    (∀ prio2 i2, prio < prio2 → indexmlq c q prio2 = .ok i2 → i2 < q.hiprio - prio) ∧
    (q.hiprio - prio).toNat < c.XNSCHED_MLQ_LEVELS ∧
    (q.hiprio - prio).toNat / c.BITS_PER_LONG < c.MLQ_LONGS ∧
    (q.hiprio - prio).toNat / c.BITS_PER_LONG < c.BITS_PER_LONG ∧
    (q.hiprio - prio).toNat % c.BITS_PER_LONG < c.BITS_PER_LONG := by
  refine ⟨indexmlq_ok c q hlo hhi hrange, by omega, by omega, ?_, ?_⟩
  · intro prio2 i2 hlt h2
    by_cases hr : q.loprio ≤ prio2 ∧ prio2 ≤ q.hiprio
    · rw [indexmlq_ok c q hr.1 hr.2 hrange] at h2
      simp only [Except.ok.injEq] at h2
      omega
    · rw [indexmlq_error c q hr] at h2
      cases h2
  · have hidx : (q.hiprio - prio).toNat < c.XNSCHED_MLQ_LEVELS := by omega
    obtain ⟨h1, h2⟩ := mlq_word_lt hc hidx
    refine ⟨hidx, ?_, h1, h2⟩
    unfold mlq_config.MLQ_LONGS
    rw [Nat.div_lt_iff_lt_mul hc.1]
    have hB := hc.1
    have hdm := Nat.div_add_mod (c.XNSCHED_MLQ_LEVELS + c.BITS_PER_LONG - 1) c.BITS_PER_LONG
    have hml := Nat.mod_lt (c.XNSCHED_MLQ_LEVELS + c.BITS_PER_LONG - 1) hB
    rw [Nat.mul_comm] at hdm
    omega

theorem indexmlq_in_bounds_witness :
    indexmlq cfg32 demo_queue 30 = .ok (demo_queue.hiprio - 30) ∧
    0 ≤ demo_queue.hiprio - 30 ∧ demo_queue.hiprio - 30 ≤ demo_queue.hiprio - demo_queue.loprio ∧
    (∀ prio2 i2, 30 < prio2 → indexmlq cfg32 demo_queue prio2 = .ok i2 →
      i2 < demo_queue.hiprio - 30) ∧
    (demo_queue.hiprio - 30).toNat < cfg32.XNSCHED_MLQ_LEVELS ∧
    (demo_queue.hiprio - 30).toNat / cfg32.BITS_PER_LONG < cfg32.MLQ_LONGS ∧
    (demo_queue.hiprio - 30).toNat / cfg32.BITS_PER_LONG < cfg32.BITS_PER_LONG ∧
    (demo_queue.hiprio - 30).toNat % cfg32.BITS_PER_LONG < cfg32.BITS_PER_LONG :=
  indexmlq_in_bounds cfg32 (by decide) demo_queue 30 (by decide) (by decide) (by decide)

/-! ## Claims on the class registry -/

theorem register_class_fields (r : class_registry) (p : ClassPtr) :
    (xnsched_register_class r p).2.xnsched_class_highest = some p ∧
    (xnsched_register_class r p).2.classes =
      Function.update r.classes p { r.classes p with next := r.xnsched_class_highest } :=
  ⟨rfl, rfl⟩

theorem register_class_weight (r : class_registry) (p x : ClassPtr) :
    ((xnsched_register_class r p).2.classes x).weight = (r.classes x).weight := by
  rw [(register_class_fields r p).2]
  by_cases h : x = p
  · subst h
    rw [Function.update_same]
  · rw [Function.update_noteq h]

theorem register_class_result (r : class_registry) (p : ClassPtr) :
    (xnsched_register_class r p).1 =
      XENO_BUGON
        (match r.xnsched_class_highest with
          | none => false
          | some n => decide ((r.classes n).weight > (r.classes p).weight))
        "bug: sched_class->next && sched_class->next->weight > sched_class->weight" := by
  unfold xnsched_register_class
  simp only [Function.update_same]
  cases hh : r.xnsched_class_highest with
  | none => rfl
  | some prev =>
    simp only
    by_cases h : prev = p
    · subst h
      rw [Function.update_same]
    · rw [Function.update_noteq h]

theorem register_class_error_iff (r : class_registry) (p : ClassPtr) :
    (∃ e, (xnsched_register_class r p).1 = .error e) ↔
      ∃ prev, r.xnsched_class_highest = some prev ∧
        (r.classes prev).weight > (r.classes p).weight := by
  rw [register_class_result]
  unfold XENO_BUGON
  cases hh : r.xnsched_class_highest with
  | none => simp
  | some prev =>
    by_cases hgt : (r.classes prev).weight > (r.classes p).weight
    · simp [hgt]
    · simp [hgt]

/-- C8 (as amended): `xnsched_register_class` is fatal exactly when a class
was registered before and the class registered just before has a weight
strictly greater than the weight of the class being registered; in every
other case, a class of equal weight included, the registration is accepted
and the class becomes the head of the chain. -/
theorem register_class_fatal_iff_lower_weight (r : class_registry) (sched_class : ClassPtr) :
    ((∃ e, (xnsched_register_class r sched_class).1 = .error e) ↔
      ∃ prev, r.xnsched_class_highest = some prev ∧
        (r.classes prev).weight > (r.classes sched_class).weight) ∧
    (xnsched_register_class r sched_class).2.xnsched_class_highest = some sched_class ∧
    ((xnsched_register_class r sched_class).2.classes sched_class).next
      = r.xnsched_class_highest := by
  refine ⟨register_class_error_iff r sched_class, rfl, ?_⟩
  rw [(register_class_fields r sched_class).2, Function.update_same]

/-- C8, counterexample: class 1 has the same weight as class 0 registered just
before it, so its weight is not strictly greater, and its registration is
accepted. -/
theorem register_equal_weight_accepted :
    (xnsched_register_class (registry_init equal_weight_classes) 0).1 = .ok () ∧
    (equal_weight_classes 1).weight ≤ (equal_weight_classes 0).weight ∧
    (xnsched_register_class
      (xnsched_register_class (registry_init equal_weight_classes) 0).2 1).1 = .ok () := by
  refine ⟨by rfl, by decide, by rfl⟩

theorem for_each_none (cl : ClassPtr → xnsched_class) (fuel : Nat) :
    for_each_xnsched_class cl fuel none = some [] := by
  cases fuel <;> rfl

theorem for_each_congr (cl cl2 : ClassPtr → xnsched_class) :
    ∀ (fuel : Nat) (p : Option ClassPtr) (l : List ClassPtr),
      for_each_xnsched_class cl fuel p = some l → (∀ x ∈ l, cl2 x = cl x) →
      for_each_xnsched_class cl2 fuel p = some l := by
  intro fuel
  induction fuel with
  | zero =>
    intro p l h _
    cases p with
    | none => rw [for_each_none] at h ⊢; exact h
    | some a => simp [for_each_xnsched_class] at h
  | succ n ih =>
    intro p l h hag
    cases p with
    | none => rw [for_each_none] at h ⊢; exact h
    | some a =>
      simp only [for_each_xnsched_class, Option.map_eq_some'] at h ⊢
      obtain ⟨l1, h1, h2⟩ := h
      subst h2
      refine ⟨l1, ?_, rfl⟩
      rw [hag a (List.mem_cons_self a l1)]
      exact ih _ l1 h1 (fun x hx => hag x (List.mem_cons_of_mem a hx))

theorem for_each_head (cl : ClassPtr → xnsched_class) (fuel : Nat) (a : ClassPtr)
    (l : List ClassPtr) (h : for_each_xnsched_class cl fuel (some a) = some l) :
    ∃ l1, l = a :: l1 := by
  cases fuel with
  | zero => simp [for_each_xnsched_class] at h
  | succ n =>
    simp only [for_each_xnsched_class, Option.map_eq_some'] at h
    obtain ⟨l1, _, h2⟩ := h
    exact ⟨l1, h2.symm⟩

theorem register_all_chain :
    ∀ (ps done : List ClassPtr) (r r2 : class_registry),
      for_each_xnsched_class r.classes done.length r.xnsched_class_highest
        = some done.reverse →
      done.reverse.Pairwise (fun a b => (r.classes a).weight ≥ (r.classes b).weight) →
      (done ++ ps).Nodup →
      register_all r ps = (.ok (), r2) →
      for_each_xnsched_class r2.classes (done ++ ps).length r2.xnsched_class_highest
        = some (done ++ ps).reverse ∧
      (done ++ ps).reverse.Pairwise
        (fun a b => (r2.classes a).weight ≥ (r2.classes b).weight) ∧
      ∀ x, (r2.classes x).weight = (r.classes x).weight := by
  intro ps
  induction ps with
  | nil =>
    intro done r r2 hch hpw _ hreg
    simp only [register_all, Prod.mk.injEq, true_and] at hreg
    subst hreg
    rw [List.append_nil]
    exact ⟨hch, hpw, fun _ => rfl⟩
  | cons p ps ih =>
    intro done r r2 hch hpw hnd hreg
    simp only [register_all] at hreg
    cases hres : (xnsched_register_class r p).1 with
    | error e =>
      have : xnsched_register_class r p = (.error e, (xnsched_register_class r p).2) := by
        rw [← hres]
      rw [this] at hreg
      simp at hreg
    | ok u =>
      have hpair : xnsched_register_class r p = (.ok u, (xnsched_register_class r p).2) := by
        rw [← hres]
      rw [hpair] at hreg
      simp only at hreg
      have hpnd : p ∉ done := by
        intro hp
        have := List.nodup_append.mp hnd
        exact this.2.2 hp (List.mem_cons_self p ps)
      have hnd2 : ((done ++ [p]) ++ ps).Nodup := by
        simpa [List.append_assoc] using hnd
      obtain ⟨hhd, hcl⟩ := register_class_fields r p
      have hnofatal : ¬ ∃ e, (xnsched_register_class r p).1 = .error e := by
        rintro ⟨e, he⟩
        rw [hres] at he
        cases he
      rw [register_class_error_iff] at hnofatal
      have hchain2 : for_each_xnsched_class (xnsched_register_class r p).2.classes
          (done ++ [p]).length (xnsched_register_class r p).2.xnsched_class_highest
          = some (done ++ [p]).reverse := by
        rw [hhd, List.length_append, List.length_singleton, List.reverse_append,
          List.reverse_singleton, List.singleton_append]
        simp only [for_each_xnsched_class, Option.map_eq_some']
        refine ⟨done.reverse, ?_, rfl⟩
        have hnext : ((xnsched_register_class r p).2.classes p).next
            = r.xnsched_class_highest := by
          rw [hcl, Function.update_same]
        rw [hnext]
        apply for_each_congr r.classes _ _ _ _ hch
        intro x hx
        rw [hcl, Function.update_noteq]
        intro hxp
        subst hxp
        exact hpnd (List.mem_reverse.mp hx)
      have hpw2 : (done ++ [p]).reverse.Pairwise (fun a b =>
          ((xnsched_register_class r p).2.classes a).weight ≥
            ((xnsched_register_class r p).2.classes b).weight) := by
        rw [List.reverse_append, List.reverse_singleton, List.singleton_append,
          List.pairwise_cons]
        constructor
        · intro x hx
          rw [register_class_weight, register_class_weight]
          cases hh : r.xnsched_class_highest with
          | none =>
            rw [hh, for_each_none] at hch
            simp only [Option.some.injEq] at hch
            rw [← hch] at hx
            exact absurd hx (List.not_mem_nil x)
          | some prev =>
            have hle : (r.classes prev).weight ≤ (r.classes p).weight := by
              by_contra hgt
              exact hnofatal ⟨prev, hh, not_le.mp hgt⟩
            rw [hh] at hch
            obtain ⟨l1, hl1⟩ := for_each_head _ _ _ _ hch
            rw [hl1] at hx hpw
            rcases List.mem_cons.mp hx with hxp | hxl
            · subst hxp
              exact hle
            · have := (List.pairwise_cons.mp hpw).1 x hxl
              exact le_trans this hle
        · refine hpw.imp ?_
          intro a b hab
          rw [register_class_weight, register_class_weight]
          exact hab
      obtain ⟨h1, h2, h3⟩ := ih (done ++ [p]) _ r2 hchain2 hpw2 hnd2 hreg
      have hlist : done ++ [p] ++ ps = done ++ p :: ps := by
        simp [List.append_assoc]
      rw [hlist] at h1 h2
      refine ⟨h1, h2, ?_⟩
      intro x
      rw [h3 x, register_class_weight]

/-- C9: after a sequence of `xnsched_register_class` calls that did not
abort, each class being registered once, `for_each_xnsched_class` ends
and visits exactly the registered classes, each once, in reverse
registration order (the first-registered class last), with non-increasing
weight from the head; the weights are those the classes had before. -/
theorem for_each_visits_distinct_classes_in_reverse (classes : ClassPtr → xnsched_class)
    (ps : List ClassPtr) (hnd : ps.Nodup) (r : class_registry)
    (hreg : register_all (registry_init classes) ps = (.ok (), r)) :
    for_each_xnsched_class r.classes ps.length r.xnsched_class_highest = some ps.reverse ∧
    ps.reverse.Nodup ∧
    ps.reverse.Pairwise (fun a b => (r.classes a).weight ≥ (r.classes b).weight) ∧
    ∀ x, (r.classes x).weight = (classes x).weight := by
  have h := register_all_chain ps [] (registry_init classes) r (by rfl)
    List.Pairwise.nil (by simpa using hnd) hreg
  simp only [List.nil_append] at h
  exact ⟨h.1, List.nodup_reverse.mpr hnd, h.2.1, h.2.2⟩

theorem for_each_visits_distinct_classes_in_reverse_witness :
    for_each_xnsched_class (register_all (registry_init weighted_classes) [0, 1, 3]).2.classes
        [0, 1, 3].length
        (register_all (registry_init weighted_classes) [0, 1, 3]).2.xnsched_class_highest
      = some [0, 1, 3].reverse ∧
    [0, 1, 3].reverse.Nodup ∧
    [0, 1, 3].reverse.Pairwise (fun a b =>
      ((register_all (registry_init weighted_classes) [0, 1, 3]).2.classes a).weight ≥
        ((register_all (registry_init weighted_classes) [0, 1, 3]).2.classes b).weight) ∧
    ∀ x, ((register_all (registry_init weighted_classes) [0, 1, 3]).2.classes x).weight
      = (weighted_classes x).weight :=
  for_each_visits_distinct_classes_in_reverse weighted_classes [0, 1, 3] (by decide)
    (register_all (registry_init weighted_classes) [0, 1, 3]).2 (by rfl)

/-- Why each class is registered once: class 0 registered twice in a row.
Neither call aborts, the class then points to itself, so the loop visits
class 0 again and again (three times in its first three iterations) and does
not end, whatever the number of iterations. -/
theorem register_twice_loops :
    (register_all (registry_init equal_weight_classes) [0, 0]).1 = .ok () ∧
    class_visits (register_all (registry_init equal_weight_classes) [0, 0]).2.classes 3
      (register_all (registry_init equal_weight_classes) [0, 0]).2.xnsched_class_highest
      = [0, 0, 0] ∧
    ∀ fuel, for_each_xnsched_class
      (register_all (registry_init equal_weight_classes) [0, 0]).2.classes fuel
      (register_all (registry_init equal_weight_classes) [0, 0]).2.xnsched_class_highest
      = none := by
  refine ⟨by rfl, by rfl, ?_⟩
  have hh : (register_all (registry_init equal_weight_classes) [0, 0]).2.xnsched_class_highest
      = some 0 := by rfl
  have hn : ((register_all (registry_init equal_weight_classes) [0, 0]).2.classes 0).next
      = some 0 := by rfl
  rw [hh]
  intro fuel
  induction fuel with
  | zero => rfl
  | succ n ih =>
    simp only [for_each_xnsched_class]
    rw [hn, ih]
    rfl

/-! ## Claims on pick-next -/

theorem or_and_self_right (a b : Nat) : (a ||| b) &&& b = b := by
  apply Nat.eq_of_testBit_eq
  intro i
  rw [Nat.testBit_and, Nat.testBit_or]
  cases a.testBit i <;> cases b.testBit i <;> rfl

theorem and_or_eq_zero {x a b : Nat} (ha : x &&& a = 0) (hb : x &&& b = 0) :
    x &&& (a ||| b) = 0 := by
  apply Nat.eq_of_testBit_eq
  intro i
  have h1 := congrArg (fun n => n.testBit i) ha
  have h2 := congrArg (fun n => n.testBit i) hb
  simp only [Nat.testBit_and, Nat.zero_testBit] at h1 h2
  rw [Nat.testBit_and, Nat.testBit_or, Nat.zero_testBit]
  cases hx : x.testBit i
  · rfl
  · rw [hx] at h1 h2
    simp only [Bool.true_and] at h1 h2
    rw [h1, h2]
    rfl

/-- C10: when the current thread carries no blocking bit, is not a zombie
and holds the scheduler lock (`XNLOCK`), `xnsched_pick_next` returns the
current thread whatever the hooks, the class chain and the queued threads
are, sets the reschedule bit of the context, and changes nothing else: the
run queues, the thread memory (so every `XNREADY` flag), the class chain and
the other contexts are as before. -/
theorem pick_next_keeps_lock_holder {RQ : Type} (f : xn_flags) (h : sched_hooks RQ)
    (classes : Bool) (fuel : Nat) (w : nucleus RQ) (sched : SchedPtr)
    (hblock : (w.threads (w.scheds sched).curr).state &&& f.XNTHREAD_BLOCK_BITS = 0)
    (hzombie : (w.threads (w.scheds sched).curr).state &&& f.XNZOMBIE = 0)
    (hlock : (w.threads (w.scheds sched).curr).state &&& f.XNLOCK ≠ 0) :
    ∃ w2, xnsched_pick_next f h classes fuel w sched = some (some (w.scheds sched).curr, w2) ∧
      w2.runq = w.runq ∧ w2.threads = w.threads ∧ w2.registry = w.registry ∧
      (w2.scheds sched).status &&& f.XNRESCHED = f.XNRESCHED ∧
      (w2.scheds sched).curr = (w.scheds sched).curr ∧
      (∀ s, s ≠ sched → w2.scheds s = w.scheds s) := by
  refine ⟨xnsched_set_self_resched f w sched, ?_, rfl, rfl, rfl, ?_, ?_, ?_⟩
  · unfold xnsched_pick_next xnthread_test_state
    simp only [and_or_eq_zero hblock hzombie]
    simp [hlock]
  · simp only [xnsched_set_self_resched, Function.update_same]
    exact or_and_self_right _ _
  · simp only [xnsched_set_self_resched, Function.update_same]
  · intro s hs
    simp only [xnsched_set_self_resched]
    rw [Function.update_noteq hs]

theorem pick_next_keeps_lock_holder_witness :
    ∃ w2, xnsched_pick_next demo_flags demo_hooks true 8 demo_nucleus 0
        = some (some (demo_nucleus.scheds 0).curr, w2) ∧
      w2.runq = demo_nucleus.runq ∧ w2.threads = demo_nucleus.threads ∧
      w2.registry = demo_nucleus.registry ∧
      (w2.scheds 0).status &&& demo_flags.XNRESCHED = demo_flags.XNRESCHED ∧
      (w2.scheds 0).curr = (demo_nucleus.scheds 0).curr ∧
      (∀ s, s ≠ 0 → w2.scheds s = demo_nucleus.scheds s) :=
  pick_next_keeps_lock_holder demo_flags demo_hooks true 8 demo_nucleus 0
    (by decide) (by decide) (by decide)

/-! ## The class scan of pick-next -/

theorem xnsched_pick_next_scan {RQ : Type} (f : xn_flags) (h : sched_hooks RQ)
    (classes : Bool) (fuel : Nat) (w : nucleus RQ) (sched : SchedPtr)
    (hb : ((!xnthread_test_state w (w.scheds sched).curr
        (f.XNTHREAD_BLOCK_BITS ||| f.XNZOMBIE)) &&
      xnthread_test_state w (w.scheds sched).curr f.XNLOCK) = false) :
    xnsched_pick_next f h classes fuel w sched =
      pick_classes f h classes fuel (pick_requeue f h w sched) sched := by
  unfold xnsched_pick_next pick_classes pick_requeue
  simp only [hb]
  rfl

theorem test_state_false_of_and_eq_zero {RQ : Type} (w : nucleus RQ) (t : ThreadPtr)
    (bits : Nat) (h0 : (w.threads t).state &&& bits = 0) :
    xnthread_test_state w t bits = false := by
  unfold xnthread_test_state
  simp [h0]

theorem for_each_some_inv (cl : ClassPtr → xnsched_class) (n : Nat) (p : ClassPtr)
    (l : List ClassPtr) (h : for_each_xnsched_class cl n (some p) = some l) :
    ∃ n1 l1, n = n1 + 1 ∧ l = p :: l1 ∧
      for_each_xnsched_class cl n1 (cl p).next = some l1 := by
  cases n with
  | zero => simp [for_each_xnsched_class] at h
  | succ n1 =>
    simp only [for_each_xnsched_class, Option.map_eq_some'] at h
    obtain ⟨l1, h1, h2⟩ := h
    exact ⟨n1, l1, rfl, h2.symm, h1⟩

theorem pick_scan_none {RQ : Type} (f : xn_flags) (h : sched_hooks RQ) (sched : SchedPtr)
    (fuel : Nat) (w : nucleus RQ) : pick_scan f h sched fuel none w = some (none, w) := by
  cases fuel <;> rfl

theorem pick_scan_eq_ask {RQ : Type} (f : xn_flags) (h : sched_hooks RQ) (sched : SchedPtr)
    (hpick : ∀ p s (w0 : nucleus RQ), (h.sched_pick p s w0).2.registry = w0.registry) :
    ∀ (chain : List ClassPtr) (start : Option ClassPtr) (w : nucleus RQ) (n fuel : Nat),
      for_each_xnsched_class w.registry.classes n start = some chain →
      chain.length ≤ fuel →
      pick_scan f h sched fuel start w =
        some ((ask_classes h sched chain w).2.1,
          match (ask_classes h sched chain w).2.1 with
          | some t => xnthread_clear_state (ask_classes h sched chain w).2.2 t f.XNREADY
          | none => (ask_classes h sched chain w).2.2) := by
  intro chain
  induction chain with
  | nil =>
    intro start w n fuel hch _
    cases start with
    | none => rw [pick_scan_none]; rfl
    | some p =>
      obtain ⟨_, _, _, h2, _⟩ := for_each_some_inv _ _ _ _ hch
      cases h2
  | cons p ps ih =>
    intro start w n fuel hch hfuel
    cases start with
    | none =>
      rw [for_each_none] at hch
      cases hch
    | some p0 =>
      obtain ⟨n1, l1, _, h2, h3⟩ := for_each_some_inv _ _ _ _ hch
      simp only [List.cons.injEq] at h2
      obtain ⟨hp, hl⟩ := h2
      subst hp
      subst hl
      cases fuel with
      | zero => simp at hfuel
      | succ fuel1 =>
        simp only [pick_scan, ask_classes]
        cases hres : h.sched_pick p sched w with
        | mk r w1 =>
          cases r with
          | some t => rfl
          | none =>
            simp only
            have hreg : w1.registry = w.registry := by
              have := hpick p sched w
              rw [hres] at this
              exact this
            apply ih _ w1 n1 fuel1
            · rw [hreg]; exact h3
            · simpa using hfuel

theorem ask_classes_asked_prefix {RQ : Type} (h : sched_hooks RQ) (sched : SchedPtr) :
    ∀ (chain : List ClassPtr) (w : nucleus RQ), (ask_classes h sched chain w).1 <+: chain := by
  intro chain
  induction chain with
  | nil => intro w; exact List.prefix_refl _
  | cons p ps ih =>
    intro w
    simp only [ask_classes]
    cases hres : h.sched_pick p sched w with
    | mk r w1 =>
      cases r with
      | some t =>
        simp only
        exact ⟨ps, rfl⟩
      | none =>
        simp only
        exact (List.prefix_cons_inj p).mpr (ih w1)

theorem ask_classes_yield {RQ : Type} (h : sched_hooks RQ) (sched : SchedPtr) :
    ∀ (chain : List ClassPtr) (w : nucleus RQ) (t : ThreadPtr),
      (ask_classes h sched chain w).2.1 = some t →
      ∃ skipped p wp, (ask_classes h sched chain w).1 = skipped ++ [p] ∧
        h.sched_pick p sched wp = (some t, (ask_classes h sched chain w).2.2) := by
  intro chain
  induction chain with
  | nil =>
    intro w t ht
    simp [ask_classes] at ht
  | cons p ps ih =>
    intro w t ht
    simp only [ask_classes] at ht ⊢
    cases hres : h.sched_pick p sched w with
    | mk r w1 =>
      cases r with
      | some t1 =>
        rw [hres] at ht
        simp only [Option.some.injEq] at ht
        subst ht
        exact ⟨[], p, w, rfl, hres⟩
      | none =>
        rw [hres] at ht
        simp only at ht ⊢
        obtain ⟨skipped, p2, wp, h1, h2⟩ := ih w1 t ht
        exact ⟨p :: skipped, p2, wp, by rw [h1]; rfl, h2⟩

theorem clear_state_bits_zero {RQ : Type} (w : nucleus RQ) (t : ThreadPtr) (bits : Nat) :
    ((xnthread_clear_state w t bits).threads t).state &&& bits = 0 := by
  simp only [xnthread_clear_state, Function.update_same]
  apply Nat.eq_of_testBit_eq
  intro i
  simp only [Nat.testBit_and, Nat.testBit_xor, Nat.zero_testBit]
  cases (w.threads t).state.testBit i <;> cases bits.testBit i <;> rfl

theorem pick_requeue_registry {RQ : Type} (f : xn_flags) (h : sched_hooks RQ)
    (hrq : ∀ t (w0 : nucleus RQ), (h.xnsched_requeue t w0).registry = w0.registry)
    (w : nucleus RQ) (sched : SchedPtr) :
    (pick_requeue f h w sched).registry = w.registry := by
  unfold pick_requeue
  simp only
  split_ifs
  · simp only [xnthread_set_state]
    exact hrq _ _
  · rfl

theorem lock_branch_not_taken {RQ : Type} (f : xn_flags) (w : nucleus RQ) (t : ThreadPtr)
    (hnolock : (w.threads t).state &&& f.XNLOCK = 0) :
    ((!xnthread_test_state w t (f.XNTHREAD_BLOCK_BITS ||| f.XNZOMBIE)) &&
      xnthread_test_state w t f.XNLOCK) = false := by
  rw [test_state_false_of_and_eq_zero w t _ hnolock]
  simp

/-- C11: when the current thread does not hold the scheduler lock,
`xnsched_pick_next` (build with scheduling classes) asks the classes in chain
order, from the head of the chain, until one yields a thread, and returns that
thread with `XNREADY` cleared: the classes asked are an initial segment of the
chain ending with the class that yielded, so on a chain of non-increasing
weight no class asked has a lower weight than the class that yielded. -/
theorem pick_next_returns_first_yielding_class {RQ : Type} (f : xn_flags)
    (h : sched_hooks RQ) (fuel : Nat) (w : nucleus RQ) (sched : SchedPtr) (n : Nat)
    (chain : List ClassPtr)
    (hpick : ∀ p s (w0 : nucleus RQ), (h.sched_pick p s w0).2.registry = w0.registry)
    (hrq : ∀ t (w0 : nucleus RQ), (h.xnsched_requeue t w0).registry = w0.registry)
    (hchain : for_each_xnsched_class w.registry.classes n w.registry.xnsched_class_highest
      = some chain)
    (hsorted : chain.Pairwise (fun a b =>
      (w.registry.classes a).weight ≥ (w.registry.classes b).weight))
    (hfuel : chain.length ≤ fuel)
    (hnolock : (w.threads (w.scheds sched).curr).state &&& f.XNLOCK = 0) :
    xnsched_pick_next f h true fuel w sched =
      some ((ask_classes h sched chain (pick_requeue f h w sched)).2.1,
        match (ask_classes h sched chain (pick_requeue f h w sched)).2.1 with
        | some t =>
          xnthread_clear_state (ask_classes h sched chain (pick_requeue f h w sched)).2.2 t
            f.XNREADY
        | none => (ask_classes h sched chain (pick_requeue f h w sched)).2.2) ∧
    (ask_classes h sched chain (pick_requeue f h w sched)).1 <+: chain ∧
    ∀ t, (ask_classes h sched chain (pick_requeue f h w sched)).2.1 = some t →
      (∃ skipped p wp,
        (ask_classes h sched chain (pick_requeue f h w sched)).1 = skipped ++ [p] ∧
        h.sched_pick p sched wp =
          (some t, (ask_classes h sched chain (pick_requeue f h w sched)).2.2) ∧
        ∀ a ∈ (ask_classes h sched chain (pick_requeue f h w sched)).1,
          (w.registry.classes p).weight ≤ (w.registry.classes a).weight) ∧
      ((xnthread_clear_state (ask_classes h sched chain (pick_requeue f h w sched)).2.2 t
        f.XNREADY).threads t).state &&& f.XNREADY = 0 := by
  have hreg := pick_requeue_registry f h hrq w sched
  refine ⟨?_, ask_classes_asked_prefix h sched chain _, ?_⟩
  · rw [xnsched_pick_next_scan f h true fuel w sched (lock_branch_not_taken f w _ hnolock)]
    unfold pick_classes
    simp only [if_true]
    apply pick_scan_eq_ask f h sched hpick chain _ _ n fuel
    · rw [hreg]; exact hchain
    · exact hfuel
  · intro t ht
    refine ⟨?_, clear_state_bits_zero _ t f.XNREADY⟩
    obtain ⟨skipped, p, wp, h1, h2⟩ := ask_classes_yield h sched chain _ t ht
    refine ⟨skipped, p, wp, h1, h2, ?_⟩
    have hpre := ask_classes_asked_prefix h sched chain (pick_requeue f h w sched)
    rw [h1] at hpre ⊢
    obtain ⟨rest, hrest⟩ := hpre
    rw [← hrest] at hsorted
    have hs1 := (List.pairwise_append.mp hsorted).1
    have hs2 := (List.pairwise_append.mp hs1).2.2
    intro a ha
    rcases List.mem_append.mp ha with ha1 | ha2
    · exact hs2 a ha1 p (List.mem_singleton.mpr rfl)
    · rw [List.mem_singleton.mp ha2]

theorem pick_next_returns_first_yielding_class_witness :
    xnsched_pick_next demo_flags idle_hooks true 2 starved_nucleus 0 =
      some ((ask_classes idle_hooks 0 [1, 0]
          (pick_requeue demo_flags idle_hooks starved_nucleus 0)).2.1,
        match (ask_classes idle_hooks 0 [1, 0]
          (pick_requeue demo_flags idle_hooks starved_nucleus 0)).2.1 with
        | some t =>
          xnthread_clear_state (ask_classes idle_hooks 0 [1, 0]
            (pick_requeue demo_flags idle_hooks starved_nucleus 0)).2.2 t
            demo_flags.XNREADY
        | none => (ask_classes idle_hooks 0 [1, 0]
            (pick_requeue demo_flags idle_hooks starved_nucleus 0)).2.2) ∧
    (ask_classes idle_hooks 0 [1, 0]
      (pick_requeue demo_flags idle_hooks starved_nucleus 0)).1 = [1, 0] ∧
    (ask_classes idle_hooks 0 [1, 0]
      (pick_requeue demo_flags idle_hooks starved_nucleus 0)).2.1 = some 0 :=
  ⟨(pick_next_returns_first_yielding_class demo_flags idle_hooks 2 starved_nucleus 0 2 [1, 0]
      (by
        intro p s w0
        simp only [idle_hooks]
        split_ifs
        · rfl
        · cases w0.runq <;> rfl)
      (fun _ _ => rfl) (by rfl) (by decide) (by decide) (by decide)).1,
    by rfl, by rfl⟩

theorem ask_classes_idle_yields {RQ : Type} (h : sched_hooks RQ) (sched : SchedPtr)
    (idle : ClassPtr)
    (hidle : ∀ w0 : nucleus RQ, (h.sched_pick idle sched w0).1 = some (w0.scheds sched).rootcb) :
    ∀ (chain : List ClassPtr) (w : nucleus RQ), idle ∈ chain →
      ∃ t, (ask_classes h sched chain w).2.1 = some t := by
  intro chain
  induction chain with
  | nil => intro w hm; exact absurd hm (List.not_mem_nil idle)
  | cons p ps ih =>
    intro w hm
    simp only [ask_classes]
    cases hres : h.sched_pick p sched w with
    | mk r w1 =>
      cases r with
      | some t => exact ⟨t, rfl⟩
      | none =>
        simp only
        rcases List.mem_cons.mp hm with hp | hps
        · subst hp
          have := hidle w
          rw [hres] at this
          cases this
        · exact ih w1 hps

theorem ask_classes_none {RQ : Type} (h : sched_hooks RQ) (sched : SchedPtr) :
    ∀ (chain : List ClassPtr) (w : nucleus RQ),
      (∀ p ∈ chain, ∀ w0 : nucleus RQ, (h.sched_pick p sched w0).1 = none) →
      (ask_classes h sched chain w).2.1 = none ∧ (ask_classes h sched chain w).1 = chain := by
  intro chain
  induction chain with
  | nil => intro w _; exact ⟨rfl, rfl⟩
  | cons p ps ih =>
    intro w hall
    simp only [ask_classes]
    cases hres : h.sched_pick p sched w with
    | mk r w1 =>
      cases r with
      | some t =>
        have := hall p (List.mem_cons_self p ps) w
        rw [hres] at this
        cases this
      | none =>
        simp only
        obtain ⟨h1, h2⟩ := ih w1 (fun q hq => hall q (List.mem_cons_of_mem p hq))
        exact ⟨h1, by rw [h2]⟩

/-- C12: when the idle class is on the class chain and its pick hook always
yields the root thread of the context, `xnsched_pick_next` returns a thread
and never NULL, whatever the other classes yield; in the build without
scheduling classes it always returns a thread too, and that thread is the
root thread of the context whenever the realtime pick yields nothing. -/
theorem pick_next_never_null_with_idle_class {RQ : Type} (f : xn_flags)
    (h : sched_hooks RQ) (fuel : Nat) (w : nucleus RQ) (sched : SchedPtr) (n : Nat)
    (chain : List ClassPtr) (idle : ClassPtr)
    (hpick : ∀ p s (w0 : nucleus RQ), (h.sched_pick p s w0).2.registry = w0.registry)
    (hrq : ∀ t (w0 : nucleus RQ), (h.xnsched_requeue t w0).registry = w0.registry)
    (hchain : for_each_xnsched_class w.registry.classes n w.registry.xnsched_class_highest
      = some chain)
    (hfuel : chain.length ≤ fuel)
    (hmem : idle ∈ chain)
    (hidle : ∀ w0 : nucleus RQ, (h.sched_pick idle sched w0).1 = some (w0.scheds sched).rootcb) :
    (∃ t w2, xnsched_pick_next f h true fuel w sched = some (some t, w2)) ∧
    (∃ t w2, xnsched_pick_next f h false fuel w sched = some (some t, w2)) ∧
    (((!xnthread_test_state w (w.scheds sched).curr
          (f.XNTHREAD_BLOCK_BITS ||| f.XNZOMBIE)) &&
        xnthread_test_state w (w.scheds sched).curr f.XNLOCK) = false →
      (h.__xnsched_rt_pick sched (pick_requeue f h w sched)).1 = none →
      ∃ w2, xnsched_pick_next f h false fuel w sched =
        some (some ((h.__xnsched_rt_pick sched (pick_requeue f h w sched)).2.scheds
          sched).rootcb, w2)) := by
  have hrt : ∀ w1 : nucleus RQ, ∃ t w2, pick_classes f h false fuel w1 sched
      = some (some t, w2) := by
    intro w1
    unfold pick_classes
    simp only [Bool.false_eq_true, if_false]
    cases hres : h.__xnsched_rt_pick sched w1 with
    | mk r w2 =>
      cases r with
      | some t => exact ⟨t, _, rfl⟩
      | none => exact ⟨_, _, rfl⟩
  refine ⟨?_, ?_, ?_⟩
  · cases hb : ((!xnthread_test_state w (w.scheds sched).curr
        (f.XNTHREAD_BLOCK_BITS ||| f.XNZOMBIE)) &&
        xnthread_test_state w (w.scheds sched).curr f.XNLOCK) with
    | true =>
      refine ⟨(w.scheds sched).curr, xnsched_set_self_resched f w sched, ?_⟩
      unfold xnsched_pick_next
      simp only [hb, if_true]
    | false =>
      rw [xnsched_pick_next_scan f h true fuel w sched hb]
      unfold pick_classes
      simp only [if_true]
      rw [pick_scan_eq_ask f h sched hpick chain _ _ n fuel
        (by rw [pick_requeue_registry f h hrq w sched]; exact hchain) hfuel]
      obtain ⟨t, ht⟩ := ask_classes_idle_yields h sched idle hidle chain
        (pick_requeue f h w sched) hmem
      rw [ht]
      exact ⟨t, _, rfl⟩
  · cases hb : ((!xnthread_test_state w (w.scheds sched).curr
        (f.XNTHREAD_BLOCK_BITS ||| f.XNZOMBIE)) &&
        xnthread_test_state w (w.scheds sched).curr f.XNLOCK) with
    | true =>
      refine ⟨(w.scheds sched).curr, xnsched_set_self_resched f w sched, ?_⟩
      unfold xnsched_pick_next
      simp only [hb, if_true]
    | false =>
      rw [xnsched_pick_next_scan f h false fuel w sched hb]
      exact hrt _
  · intro hb hnone
    rw [xnsched_pick_next_scan f h false fuel w sched hb]
    unfold pick_classes
    simp only [Bool.false_eq_true, if_false]
    cases hres : h.__xnsched_rt_pick sched (pick_requeue f h w sched) with
    | mk r w2 =>
      rw [hres] at hnone
      simp only at hnone
      subst hnone
      exact ⟨_, rfl⟩

theorem pick_next_never_null_with_idle_class_witness :
    (∃ t w2, xnsched_pick_next demo_flags idle_hooks true 2 starved_nucleus 0
      = some (some t, w2)) ∧
    (∃ t w2, xnsched_pick_next demo_flags idle_hooks false 2 starved_nucleus 0
      = some (some t, w2)) :=
  ⟨(pick_next_never_null_with_idle_class demo_flags idle_hooks 2 starved_nucleus 0 2 [1, 0] 0
      (by
        intro p s w0
        simp only [idle_hooks]
        split_ifs
        · rfl
        · cases w0.runq <;> rfl)
      (fun _ _ => rfl) (by rfl) (by decide) (by decide) (fun _ => rfl)).1,
    (pick_next_never_null_with_idle_class demo_flags idle_hooks 2 starved_nucleus 0 2 [1, 0] 0
      (by
        intro p s w0
        simp only [idle_hooks]
        split_ifs
        · rfl
        · cases w0.runq <;> rfl)
      (fun _ _ => rfl) (by rfl) (by decide) (by decide) (fun _ => rfl)).2.1⟩

/-- C13 (as amended): when no scheduling class of the chain yields a thread
during the scan, `xnsched_pick_next` (build with scheduling classes) asks
every class of the chain and then returns NULL to the caller; there is no
fatal check on that path. -/
theorem pick_next_returns_null_when_no_class_yields {RQ : Type} (f : xn_flags)
    (h : sched_hooks RQ) (fuel : Nat) (w : nucleus RQ) (sched : SchedPtr) (n : Nat)
    (chain : List ClassPtr)
    (hpick : ∀ p s (w0 : nucleus RQ), (h.sched_pick p s w0).2.registry = w0.registry)
    (hrq : ∀ t (w0 : nucleus RQ), (h.xnsched_requeue t w0).registry = w0.registry)
    (hchain : for_each_xnsched_class w.registry.classes n w.registry.xnsched_class_highest
      = some chain)
    (hfuel : chain.length ≤ fuel)
    (hb : ((!xnthread_test_state w (w.scheds sched).curr
          (f.XNTHREAD_BLOCK_BITS ||| f.XNZOMBIE)) &&
        xnthread_test_state w (w.scheds sched).curr f.XNLOCK) = false)
    (hnone : ∀ p ∈ chain, ∀ w0 : nucleus RQ, (h.sched_pick p sched w0).1 = none) :
    xnsched_pick_next f h true fuel w sched =
      some (none, (ask_classes h sched chain (pick_requeue f h w sched)).2.2) ∧
    (ask_classes h sched chain (pick_requeue f h w sched)).1 = chain := by
  obtain ⟨h1, h2⟩ := ask_classes_none h sched chain (pick_requeue f h w sched) hnone
  refine ⟨?_, h2⟩
  rw [xnsched_pick_next_scan f h true fuel w sched hb]
  unfold pick_classes
  simp only [if_true]
  rw [pick_scan_eq_ask f h sched hpick chain _ _ n fuel
    (by rw [pick_requeue_registry f h hrq w sched]; exact hchain) hfuel, h1]

theorem pick_next_returns_null_when_no_class_yields_witness :
    xnsched_pick_next demo_flags silent_hooks true 2 starved_nucleus 0 =
      some (none, (ask_classes silent_hooks 0 [1, 0]
        (pick_requeue demo_flags silent_hooks starved_nucleus 0)).2.2) ∧
    (ask_classes silent_hooks 0 [1, 0]
      (pick_requeue demo_flags silent_hooks starved_nucleus 0)).1 = [1, 0] :=
  pick_next_returns_null_when_no_class_yields demo_flags silent_hooks 2 starved_nucleus 0 2
    [1, 0]
    (fun _ _ _ => rfl) (fun _ _ => rfl) (by rfl) (by decide) (by rfl) (fun _ _ _ => rfl)

/-- C13, counterexample: context 0 runs a blocked thread, classes 0 and 1 are
registered and no thread is ready, so no class yields a thread; the call runs
to its end and returns NULL instead of aborting. -/
theorem starved_pick_next_returns_null :
    (xnsched_pick_next demo_flags demo_hooks true 2 starved_nucleus 0).map Prod.fst
      = some none ∧
    (demo_hooks.sched_pick 1 0 starved_nucleus).1 = none ∧
    (demo_hooks.sched_pick 0 0 starved_nucleus).1 = none := by
  refine ⟨by rfl, by rfl, by rfl⟩

theorem test_state_true_of_and_ne_zero {RQ : Type} (w : nucleus RQ) (t : ThreadPtr)
    (bits : Nat) (h0 : (w.threads t).state &&& bits ≠ 0) :
    xnthread_test_state w t bits = true := by
  unfold xnthread_test_state
  simp [h0]

theorem and_or_ne_zero {x a b : Nat} (h : x &&& a ≠ 0 ∨ x &&& b ≠ 0) :
    x &&& (a ||| b) ≠ 0 := by
  intro h0
  have hbit : ∀ i, (x &&& (a ||| b)).testBit i = false := by
    intro i; rw [h0]; exact Nat.zero_testBit i
  simp only [Nat.testBit_and, Nat.testBit_or] at hbit
  rcases h with h | h
  · apply h
    apply Nat.eq_of_testBit_eq
    intro i
    have := hbit i
    rw [Nat.testBit_and, Nat.zero_testBit]
    cases hx : x.testBit i <;> cases ha : a.testBit i <;> simp_all
  · apply h
    apply Nat.eq_of_testBit_eq
    intro i
    have := hbit i
    rw [Nat.testBit_and, Nat.zero_testBit]
    cases hx : x.testBit i <;> cases hb : b.testBit i <;> simp_all

/-- C14: in `xnsched_pick_next`, for a current thread that carries no
blocking bit, is not a zombie and does not hold the scheduler lock: if it is
not `XNREADY`, the requeue helper is applied to it once and `XNREADY` is set,
and the classes are scanned from that state; if it is already `XNREADY`, the
classes are scanned from the unchanged state.  When the current thread is
blocked or a zombie, the classes are scanned from the unchanged state too: it
is neither requeued nor marked `XNREADY`.  On a concrete state whose run queue
holds thread 2 and whose current thread 1 is runnable and not linked, the
scan starts with thread 1 linked once. -/
theorem pick_next_requeues_runnable_current {RQ : Type} (f : xn_flags)
    (h : sched_hooks RQ) (classes : Bool) (fuel : Nat) (w : nucleus RQ) (sched : SchedPtr) :
    ((w.threads (w.scheds sched).curr).state &&& f.XNTHREAD_BLOCK_BITS = 0 →
      (w.threads (w.scheds sched).curr).state &&& f.XNZOMBIE = 0 →
      (w.threads (w.scheds sched).curr).state &&& f.XNLOCK = 0 →
      (w.threads (w.scheds sched).curr).state &&& f.XNREADY = 0 →
      xnsched_pick_next f h classes fuel w sched =
        pick_classes f h classes fuel
          (xnthread_set_state (h.xnsched_requeue (w.scheds sched).curr w)
            (w.scheds sched).curr f.XNREADY) sched ∧
      ((xnthread_set_state (h.xnsched_requeue (w.scheds sched).curr w)
        (w.scheds sched).curr f.XNREADY).threads (w.scheds sched).curr).state &&& f.XNREADY
        = f.XNREADY) ∧
    ((w.threads (w.scheds sched).curr).state &&& f.XNTHREAD_BLOCK_BITS = 0 →
      (w.threads (w.scheds sched).curr).state &&& f.XNZOMBIE = 0 →
      (w.threads (w.scheds sched).curr).state &&& f.XNLOCK = 0 →
      (w.threads (w.scheds sched).curr).state &&& f.XNREADY ≠ 0 →
      xnsched_pick_next f h classes fuel w sched = pick_classes f h classes fuel w sched) ∧
    (((w.threads (w.scheds sched).curr).state &&& f.XNTHREAD_BLOCK_BITS ≠ 0 ∨
        (w.threads (w.scheds sched).curr).state &&& f.XNZOMBIE ≠ 0) →
      xnsched_pick_next f h classes fuel w sched = pick_classes f h classes fuel w sched) ∧
    (pick_requeue demo_flags demo_hooks running_nucleus 0).runq = [1, 2] := by
  refine ⟨?_, ?_, ?_, by rfl⟩
  · intro hblock hzombie hlock hready
    have h1 := test_state_false_of_and_eq_zero w _ _ (and_or_eq_zero hblock hzombie)
    have h2 := test_state_false_of_and_eq_zero w _ _ hready
    constructor
    · rw [xnsched_pick_next_scan f h classes fuel w sched (lock_branch_not_taken f w _ hlock)]
      unfold pick_requeue
      simp only [h1, h2, Bool.not_false, Bool.and_self, if_true]
    · simp only [xnthread_set_state, Function.update_same]
      exact or_and_self_right _ _
  · intro hblock hzombie hlock hready
    have h1 := test_state_false_of_and_eq_zero w _ _ (and_or_eq_zero hblock hzombie)
    have h2 := test_state_true_of_and_ne_zero w _ _ hready
    rw [xnsched_pick_next_scan f h classes fuel w sched (lock_branch_not_taken f w _ hlock)]
    unfold pick_requeue
    simp [h1, h2]
  · intro hbz
    have h1 := test_state_true_of_and_ne_zero w _ _ (and_or_ne_zero hbz)
    rw [xnsched_pick_next_scan f h classes fuel w sched (by rw [h1]; rfl)]
    unfold pick_requeue
    simp [h1]

/-! ## Claims on the zombie slot -/

theorem zombie_hooks_error {RQ : Type} (x : ext_env RQ) (w : nucleus RQ) (thread : ThreadPtr)
    (h : (w.scheds (w.threads thread).sched).zombie ≠ none) :
    xnsched_zombie_hooks x w thread = (.error "bug: thread->sched->zombie != NULL", w) := by
  unfold xnsched_zombie_hooks XENO_BUGON
  simp [h]

theorem zombie_hooks_ok {RQ : Type} (x : ext_env RQ) (w : nucleus RQ) (thread : ThreadPtr)
    (h : (w.scheds (w.threads thread).sched).zombie = none) :
    xnsched_zombie_hooks x w thread =
      (.ok [.xnshadow_unmap thread, .xnsched_forget thread],
        x.effect (.xnsched_forget thread) (x.effect (.xnshadow_unmap thread)
          { w with scheds := (Function.update w.scheds (w.threads thread).sched
            { w.scheds (w.threads thread).sched with zombie := some thread }) })) := by
  unfold xnsched_zombie_hooks XENO_BUGON
  simp [h]

theorem zombie_hooks_slot {RQ : Type} (x : ext_env RQ) (hx : ext_keeps_zombie x)
    (w : nucleus RQ) (thread : ThreadPtr)
    (h : (w.scheds (w.threads thread).sched).zombie = none) (s : SchedPtr) :
    ((xnsched_zombie_hooks x w thread).2.scheds s).zombie =
      if s = (w.threads thread).sched then some thread else (w.scheds s).zombie := by
  rw [zombie_hooks_ok x w thread h]
  simp only
  rw [(hx _ _).1 s, (hx _ _).1 s]
  by_cases hs : s = (w.threads thread).sched
  · subst hs
    simp
  · simp [hs, Function.update_noteq hs]

theorem zombie_hooks_owner {RQ : Type} (x : ext_env RQ) (hx : ext_keeps_zombie x)
    (w : nucleus RQ) (thread t : ThreadPtr) :
    ((xnsched_zombie_hooks x w thread).2.threads t).sched = (w.threads t).sched := by
  by_cases h : (w.scheds (w.threads thread).sched).zombie = none
  · rw [zombie_hooks_ok x w thread h]
    simp only
    rw [(hx _ _).2 t, (hx _ _).2 t]
  · rw [zombie_hooks_error x w thread h]

/-- C15: `xnsched_zombie_hooks(thread)` is fatal if and only if the zombie
slot of the context owning the thread is occupied, and then nothing is
changed; otherwise it returns, and that slot holds the thread, the slots of
the other contexts being as before (the outside code called leaves the slots
alone). -/
theorem zombie_hooks_fatal_iff_slot_occupied {RQ : Type} (x : ext_env RQ)
    (hx : ext_keeps_zombie x) (w : nucleus RQ) (thread : ThreadPtr) :
    ((∃ e, (xnsched_zombie_hooks x w thread).1 = .error e) ↔
      (w.scheds (w.threads thread).sched).zombie ≠ none) ∧
    ((w.scheds (w.threads thread).sched).zombie ≠ none →
      (xnsched_zombie_hooks x w thread).2 = w) ∧
    ((w.scheds (w.threads thread).sched).zombie = none →
      (∃ tr, (xnsched_zombie_hooks x w thread).1 = .ok tr) ∧
      ((xnsched_zombie_hooks x w thread).2.scheds (w.threads thread).sched).zombie
        = some thread ∧
      ((xnsched_zombie_hooks x w thread).2.threads thread).sched = (w.threads thread).sched ∧
      ∀ s, s ≠ (w.threads thread).sched →
        ((xnsched_zombie_hooks x w thread).2.scheds s).zombie = (w.scheds s).zombie) := by
  refine ⟨?_, ?_, ?_⟩
  · by_cases h : (w.scheds (w.threads thread).sched).zombie = none
    · rw [zombie_hooks_ok x w thread h]
      simp [h]
    · rw [zombie_hooks_error x w thread h]
      simp [h]
  · intro h
    rw [zombie_hooks_error x w thread h]
  · intro h
    refine ⟨?_, ?_, zombie_hooks_owner x hx w thread thread, ?_⟩
    · rw [zombie_hooks_ok x w thread h]
      exact ⟨_, rfl⟩
    · rw [zombie_hooks_slot x hx w thread h]
      simp
    · intro s hs
      rw [zombie_hooks_slot x hx w thread h]
      simp [hs]

theorem finalize_zombie_slot {RQ : Type} (f : xn_flags) (x : ext_env RQ)
    (hx : ext_keeps_zombie x) (w : nucleus RQ) (sched s : SchedPtr) :
    ((__xnsched_finalize_zombie f x w sched).2.scheds s).zombie =
      if s = sched then none else (w.scheds s).zombie := by
  unfold __xnsched_finalize_zombie
  simp only
  by_cases hs : s = sched
  · subst hs
    simp
  · simp only [hs, if_false, Function.update_noteq hs]
    split_ifs
    · simp only
      rw [(hx _ _).1 s, (hx _ _).1 s]
    · simp only
      rw [(hx _ _).1 s]

theorem finalize_zombie_owner {RQ : Type} (f : xn_flags) (x : ext_env RQ)
    (hx : ext_keeps_zombie x) (w : nucleus RQ) (sched : SchedPtr) (t : ThreadPtr) :
    ((__xnsched_finalize_zombie f x w sched).2.threads t).sched = (w.threads t).sched := by
  unfold __xnsched_finalize_zombie
  simp only
  split_ifs
  · simp only
    rw [(hx _ _).2 t, (hx _ _).2 t]
  · simp only
    rw [(hx _ _).2 t]

theorem finalize_zombie_calls {RQ : Type} (f : xn_flags) (x : ext_env RQ) (w : nucleus RQ)
    (sched : SchedPtr) :
    ∃ rest, (__xnsched_finalize_zombie f x w sched).1 =
        .xnthread_cleanup (w.scheds sched).zombie :: rest ∧
      ∀ c ∈ rest, c = ext_call.xnfreesync := by
  unfold __xnsched_finalize_zombie
  simp only
  split_ifs
  · exact ⟨[.xnfreesync], rfl, fun c hc => List.mem_singleton.mp hc⟩
  · exact ⟨[], rfl, fun c hc => absurd hc (List.not_mem_nil c)⟩

theorem run_calls_keeps {RQ : Type} (x : ext_env RQ) (hx : ext_keeps_zombie x) :
    ∀ (calls : List ext_call) (w : nucleus RQ),
      (∀ s, ((run_calls x calls w).scheds s).zombie = (w.scheds s).zombie) ∧
      (∀ t, ((run_calls x calls w).threads t).sched = (w.threads t).sched) := by
  intro calls
  induction calls with
  | nil => intro w; exact ⟨fun _ => rfl, fun _ => rfl⟩
  | cons c cs ih =>
    intro w
    simp only [run_calls]
    constructor
    · intro s
      rw [(ih _).1 s, (hx c w).1 s]
    · intro t
      rw [(ih _).2 t, (hx c w).2 t]

theorem xnsched_init_slot_empty {RQ : Type} (x : ext_env RQ) (hx : ext_keeps_zombie x)
    (watchdog : Bool) (fuel : Nat) (w : nucleus RQ) (sched : SchedPtr)
    (tr0 : List ext_call) (w0 : nucleus RQ)
    (hinit : xnsched_init x watchdog fuel w sched = some (tr0, w0)) :
    (w0.scheds sched).zombie = none := by
  unfold xnsched_init at hinit
  cases hc : init_classes x sched fuel w.registry.xnsched_class_highest w with
  | none =>
    rw [hc] at hinit
    cases hinit
  | some r =>
    rw [hc] at hinit
    simp only [Option.some.injEq, Prod.mk.injEq] at hinit
    rw [← hinit.2, (run_calls_keeps x hx _ _).1 sched]
    simp

theorem zombie_run_inv {RQ : Type} (f : xn_flags) (x : ext_env RQ)
    (hx : ext_keeps_zombie x) (sched : SchedPtr) :
    ∀ (ops : List zombie_op) (w : nucleus RQ) (trs : List (List ext_call)) (w1 : nucleus RQ),
      (∀ t, zombie_op.hooks t ∈ ops → (w.threads t).sched = sched) →
      zombie_run f x sched ops w = (.ok trs, w1) →
      (∀ t, (w.scheds sched).zombie ≠ none → ops.head? ≠ some (.hooks t)) ∧
      ops.Chain' (fun a b => a = zombie_op.finalize ∨ b = zombie_op.finalize) ∧
      ∀ k, ∃ trsk, (zombie_run f x sched (ops.take k) w).1 = .ok trsk ∧
        ((zombie_run f x sched (ops.take k) w).2.scheds sched).zombie =
          zombie_slot_after (w.scheds sched).zombie (ops.take k) := by
  intro ops
  induction ops with
  | nil =>
    intro w trs w1 _ _
    refine ⟨fun t _ h => (by cases h), List.chain'_nil, ?_⟩
    intro k
    simp only [List.take_nil]
    exact ⟨[], rfl, rfl⟩
  | cons op ops ih =>
    intro w trs w1 howner hrun
    cases op with
    | hooks t =>
      have hown : (w.threads t).sched = sched := howner t (List.mem_cons_self _ _)
      simp only [zombie_run] at hrun
      by_cases hslot : (w.scheds (w.threads t).sched).zombie = none
      · rw [zombie_hooks_ok x w t hslot] at hrun
        simp only at hrun
        have hok := zombie_hooks_ok x w t hslot
        cases hrest : zombie_run f x sched ops (xnsched_zombie_hooks x w t).2 with
        | mk r w2 =>
          rw [hok] at hrest
          rw [hrest] at hrun
          cases r with
          | error e => simp at hrun
          | ok trs2 =>
            have howner2 : ∀ u, zombie_op.hooks u ∈ ops →
                ((xnsched_zombie_hooks x w t).2.threads u).sched = sched := by
              intro u hu
              rw [zombie_hooks_owner x hx w t u]
              exact howner u (List.mem_cons_of_mem _ hu)
            rw [← hok] at hrest
            obtain ⟨ih1, ih2, ih3⟩ := ih _ trs2 w2 howner2 hrest
            have hslot2 : ((xnsched_zombie_hooks x w t).2.scheds sched).zombie = some t := by
              rw [zombie_hooks_slot x hx w t hslot, hown]
              simp
            refine ⟨?_, ?_, ?_⟩
            · intro u hne
              rw [hown] at hslot
              exact absurd hslot hne
            · rw [List.chain'_cons']
              refine ⟨?_, ih2⟩
              intro b hb
              cases b with
              | finalize => exact Or.inr rfl
              | hooks u =>
                exfalso
                exact ih1 u (by rw [hslot2]; simp) (by simpa using hb)
            · intro k
              cases k with
              | zero =>
                simp only [List.take_zero]
                exact ⟨[], rfl, rfl⟩
              | succ k =>
                obtain ⟨trsk, hk1, hk2⟩ := ih3 k
                simp only [List.take_succ_cons, zombie_run, zombie_slot_after]
                cases hrk : zombie_run f x sched (ops.take k) (xnsched_zombie_hooks x w t).2 with
                | mk rk wk =>
                  rw [hrk] at hk1 hk2
                  simp only at hk1 hk2
                  subst hk1
                  rw [hok] at hrk
                  rw [hok]
                  simp only
                  rw [hrk]
                  simp only
                  refine ⟨_, rfl, ?_⟩
                  rw [hk2, hslot2]
      · rw [zombie_hooks_error x w t hslot] at hrun
        simp at hrun
    | finalize =>
      simp only [zombie_run] at hrun
      cases hrest : zombie_run f x sched ops (__xnsched_finalize_zombie f x w sched).2 with
      | mk r w2 =>
        rw [hrest] at hrun
        cases r with
        | error e => simp at hrun
        | ok trs2 =>
          have howner2 : ∀ u, zombie_op.hooks u ∈ ops →
              ((__xnsched_finalize_zombie f x w sched).2.threads u).sched = sched := by
            intro u hu
            rw [finalize_zombie_owner f x hx w sched u]
            exact howner u (List.mem_cons_of_mem _ hu)
          obtain ⟨_, ih2, ih3⟩ := ih _ trs2 w2 howner2 hrest
          have hslot2 : ((__xnsched_finalize_zombie f x w sched).2.scheds sched).zombie
              = none := by
            rw [finalize_zombie_slot f x hx w sched sched]
            simp
          refine ⟨?_, ?_, ?_⟩
          · intro u _ h
            simp at h
          · rw [List.chain'_cons']
            exact ⟨fun b _ => Or.inl rfl, ih2⟩
          · intro k
            cases k with
            | zero =>
              simp only [List.take_zero]
              exact ⟨[], rfl, rfl⟩
            | succ k =>
              obtain ⟨trsk, hk1, hk2⟩ := ih3 k
              simp only [List.take_succ_cons, zombie_run, zombie_slot_after]
              cases hrk : zombie_run f x sched (ops.take k)
                  (__xnsched_finalize_zombie f x w sched).2 with
              | mk rk wk =>
                rw [hrk] at hk1 hk2
                simp only at hk1 hk2
                subst hk1
                simp only
                refine ⟨_, rfl, ?_⟩
                rw [hk2, hslot2]

theorem quiet_env_keeps_zombie (RQ : Type) : ext_keeps_zombie (quiet_env RQ) :=
  fun _ _ => ⟨fun _ => rfl, fun _ => rfl⟩

theorem zombie_hooks_fatal_iff_slot_occupied_witness :
    ((∃ e, (xnsched_zombie_hooks (quiet_env (List ThreadPtr)) running_nucleus 1).1
        = .error e) ↔
      (running_nucleus.scheds (running_nucleus.threads 1).sched).zombie ≠ none) ∧
    ((xnsched_zombie_hooks (quiet_env (List ThreadPtr)) running_nucleus 1).2.scheds 0).zombie
      = some 1 :=
  ⟨(zombie_hooks_fatal_iff_slot_occupied (quiet_env (List ThreadPtr))
      (quiet_env_keeps_zombie _) running_nucleus 1).1,
    ((zombie_hooks_fatal_iff_slot_occupied (quiet_env (List ThreadPtr))
      (quiet_env_keeps_zombie _) running_nucleus 1).2.2 (by rfl)).2.1⟩

/-- C16: starting from the state `xnsched_init` leaves (slot empty), for
every sequence of `xnsched_zombie_hooks` and `__xnsched_finalize_zombie` calls
on one context which does not abort (the threads being owned by that context,
the outside code leaving slots and owners alone): any two
`xnsched_zombie_hooks` calls are separated by a finalization; after every
call of the sequence the slot holds the thread of the call when it is
`xnsched_zombie_hooks` and is empty when it is a finalization; and
`__xnsched_finalize_zombie` passes exactly the content of the slot to
`xnthread_cleanup`, cleans up nothing else and leaves the slot empty. -/
theorem zombie_slot_used_once_between_finalizations {RQ : Type} (f : xn_flags)
    (x : ext_env RQ) (hx : ext_keeps_zombie x) (watchdog : Bool) (fuel : Nat)
    (w : nucleus RQ) (sched : SchedPtr) (tr0 : List ext_call) (w0 : nucleus RQ)
    (hinit : xnsched_init x watchdog fuel w sched = some (tr0, w0))
    (ops : List zombie_op)
    (howner : ∀ t, zombie_op.hooks t ∈ ops → (w0.threads t).sched = sched)
    (trs : List (List ext_call)) (w1 : nucleus RQ)
    (hrun : zombie_run f x sched ops w0 = (.ok trs, w1)) :
    (w0.scheds sched).zombie = none ∧
    ops.Chain' (fun a b => a = zombie_op.finalize ∨ b = zombie_op.finalize) ∧
    (∀ k, ∃ trsk, (zombie_run f x sched (ops.take k) w0).1 = .ok trsk ∧
      ((zombie_run f x sched (ops.take k) w0).2.scheds sched).zombie =
        zombie_slot_after none (ops.take k)) ∧
    (∀ w2 : nucleus RQ,
      (∃ rest, (__xnsched_finalize_zombie f x w2 sched).1 =
          .xnthread_cleanup (w2.scheds sched).zombie :: rest ∧
        ∀ c ∈ rest, c = ext_call.xnfreesync) ∧
      ((__xnsched_finalize_zombie f x w2 sched).2.scheds sched).zombie = none) := by
  have h0 := xnsched_init_slot_empty x hx watchdog fuel w sched tr0 w0 hinit
  obtain ⟨_, h2, h3⟩ := zombie_run_inv f x hx sched ops w0 trs w1 howner hrun
  rw [h0] at h3
  refine ⟨h0, h2, h3, ?_⟩
  intro w2
  refine ⟨finalize_zombie_calls f x w2 sched, ?_⟩
  rw [finalize_zombie_slot f x hx w2 sched sched]
  simp

theorem zombie_slot_used_once_between_finalizations_witness :
    (booted_nucleus.scheds 0).zombie = none ∧
    [zombie_op.hooks 1, zombie_op.finalize, zombie_op.hooks 2, zombie_op.finalize].Chain'
      (fun a b => a = zombie_op.finalize ∨ b = zombie_op.finalize) :=
  ⟨(zombie_slot_used_once_between_finalizations demo_flags (quiet_env (List ThreadPtr))
      (quiet_env_keeps_zombie _) true 2 running_nucleus 0
      (htimer_setup 0 ++ root_setup true 0) booted_nucleus (by rfl)
      [zombie_op.hooks 1, zombie_op.finalize, zombie_op.hooks 2, zombie_op.finalize]
      (fun _ _ => rfl)
      [[.xnshadow_unmap 1, .xnsched_forget 1], [.xnthread_cleanup (some 1), .xnfreesync],
        [.xnshadow_unmap 2, .xnsched_forget 2], [.xnthread_cleanup (some 2), .xnfreesync]]
      (zombie_run demo_flags (quiet_env (List ThreadPtr)) 0
        [zombie_op.hooks 1, zombie_op.finalize, zombie_op.hooks 2, zombie_op.finalize]
        booted_nucleus).2
      (by rfl)).1,
    (zombie_slot_used_once_between_finalizations demo_flags (quiet_env (List ThreadPtr))
      (quiet_env_keeps_zombie _) true 2 running_nucleus 0
      (htimer_setup 0 ++ root_setup true 0) booted_nucleus (by rfl)
      [zombie_op.hooks 1, zombie_op.finalize, zombie_op.hooks 2, zombie_op.finalize]
      (fun _ _ => rfl)
      [[.xnshadow_unmap 1, .xnsched_forget 1], [.xnthread_cleanup (some 1), .xnfreesync],
        [.xnshadow_unmap 2, .xnsched_forget 2], [.xnthread_cleanup (some 2), .xnfreesync]]
      (zombie_run demo_flags (quiet_env (List ThreadPtr)) 0
        [zombie_op.hooks 1, zombie_op.finalize, zombie_op.hooks 2, zombie_op.finalize]
        booted_nucleus).2
      (by rfl)).2.1⟩

/-! ## Claims on the watchdog -/

theorem watchdog_handler_root {RQ : Type} (f : xn_flags) (x : ext_env RQ) (w : nucleus RQ)
    (sched : SchedPtr)
    (hroot : (w.threads (w.scheds sched).curr).state &&& f.XNROOT ≠ 0) :
    xnsched_watchdog_handler f x w sched = ([], xnsched_reset_watchdog w sched) := by
  unfold xnsched_watchdog_handler
  simp only [test_state_true_of_and_ne_zero w _ _ hroot, if_true]

theorem watchdog_handler_below {RQ : Type} (f : xn_flags) (x : ext_env RQ) (w : nucleus RQ)
    (sched : SchedPtr)
    (hroot : (w.threads (w.scheds sched).curr).state &&& f.XNROOT = 0)
    (hlt : (w.scheds sched).wdcount + 1 < x.wd_timeout_arg) :
    xnsched_watchdog_handler f x w sched =
      ([], { w with scheds := (Function.update w.scheds sched
          { w.scheds sched with wdcount := (w.scheds sched).wdcount + 1 }) }) := by
  unfold xnsched_watchdog_handler
  simp only [test_state_false_of_and_eq_zero w _ _ hroot, Function.update_same]
  simp [hlt]

theorem watchdog_handler_trigger {RQ : Type} (f : xn_flags) (x : ext_env RQ) (w : nucleus RQ)
    (sched : SchedPtr)
    (hroot : (w.threads (w.scheds sched).curr).state &&& f.XNROOT = 0)
    (hthr : x.wd_timeout_arg ≤ (w.scheds sched).wdcount + 1) :
    xnsched_watchdog_handler f x w sched =
      if (w.threads (w.scheds sched).curr).state &&& f.XNUSER ≠ 0 then
        ([.xnshadow_call_mayday (w.scheds sched).curr x.SIGDEBUG_WATCHDOG],
          xnsched_reset_watchdog
            (x.effect (.xnshadow_call_mayday (w.scheds sched).curr x.SIGDEBUG_WATCHDOG)
              { w with scheds := (Function.update w.scheds sched
                { w.scheds sched with wdcount := (w.scheds sched).wdcount + 1 }) }) sched)
      else
        ([.xnpod_cancel_thread (w.scheds sched).curr],
          xnsched_reset_watchdog
            (x.effect (.xnpod_cancel_thread (w.scheds sched).curr)
              { w with scheds := (Function.update w.scheds sched
                { w.scheds sched with wdcount := (w.scheds sched).wdcount + 1 }) }) sched) := by
  unfold xnsched_watchdog_handler
  simp only [test_state_false_of_and_eq_zero w _ _ hroot, Function.update_same]
  have hnlt : ¬ ((w.scheds sched).wdcount + 1 < x.wd_timeout_arg) := Nat.not_lt.mpr hthr
  simp only [Bool.false_eq_true, if_false, hnlt]
  by_cases hu : (w.threads (w.scheds sched).curr).state &&& f.XNUSER = 0
  · simp [xnthread_test_state, hu]
  · simp [xnthread_test_state, hu]

theorem reset_watchdog_count {RQ : Type} (w : nucleus RQ) (sched : SchedPtr) :
    ((xnsched_reset_watchdog w sched).scheds sched).wdcount = 0 := by
  simp [xnsched_reset_watchdog]

theorem watchdog_handler_count_le {RQ : Type} (f : xn_flags) (x : ext_env RQ)
    (w : nucleus RQ) (sched : SchedPtr)
    (hlt : (w.scheds sched).wdcount + 1 < x.wd_timeout_arg) :
    (xnsched_watchdog_handler f x w sched).1 = [] ∧
    ((xnsched_watchdog_handler f x w sched).2.scheds sched).wdcount
      ≤ (w.scheds sched).wdcount + 1 := by
  by_cases hroot : (w.threads (w.scheds sched).curr).state &&& f.XNROOT = 0
  · rw [watchdog_handler_below f x w sched hroot hlt]
    simp
  · rw [watchdog_handler_root f x w sched hroot]
    simp [reset_watchdog_count]

theorem watchdog_run_quiet {RQ : Type} (f : xn_flags) (x : ext_env RQ) (sched : SchedPtr) :
    ∀ (envs : List (nucleus RQ → nucleus RQ)) (w : nucleus RQ),
      (∀ env ∈ envs, keeps_wdcount sched env) →
      (w.scheds sched).wdcount + envs.length < x.wd_timeout_arg →
      (watchdog_run f x sched envs w).1 = List.replicate envs.length [] := by
  intro envs
  induction envs with
  | nil => intro w _ _; rfl
  | cons env envs ih =>
    intro w hk hlt
    have hc := hk env (List.mem_cons_self _ _) w
    simp only [List.length_cons] at hlt
    obtain ⟨h1, h2⟩ := watchdog_handler_count_le f x (env w) sched (by rw [hc]; omega)
    simp only [watchdog_run, List.length_cons, List.replicate_succ]
    rw [h1, ih _ (fun e he => hk e (List.mem_cons_of_mem _ he)) (by rw [hc] at h2; omega)]

theorem watchdog_run_counts {RQ : Type} (f : xn_flags) (x : ext_env RQ) (sched : SchedPtr) :
    ∀ (envs : List (nucleus RQ → nucleus RQ)) (w : nucleus RQ),
      (∀ env ∈ envs, keeps_wdcount sched env) →
      (∀ env ∈ envs, keeps_current f sched env) →
      (w.threads (w.scheds sched).curr).state &&& f.XNROOT = 0 →
      (w.scheds sched).wdcount + envs.length < x.wd_timeout_arg →
      (watchdog_run f x sched envs w).1 = List.replicate envs.length [] ∧
      ((watchdog_run f x sched envs w).2.scheds sched).wdcount
        = (w.scheds sched).wdcount + envs.length ∧
      ((watchdog_run f x sched envs w).2.scheds sched).curr = (w.scheds sched).curr ∧
      ((watchdog_run f x sched envs w).2.threads (w.scheds sched).curr).state &&& f.XNROOT
        = 0 := by
  intro envs
  induction envs with
  | nil => intro w _ _ hroot _; exact ⟨rfl, rfl, rfl, hroot⟩
  | cons env envs ih =>
    intro w hk hcur hroot hlt
    have hc := hk env (List.mem_cons_self _ _) w
    obtain ⟨hcu, hnr⟩ := hcur env (List.mem_cons_self _ _) w
    have hnr2 := hnr hroot
    simp only [List.length_cons] at hlt
    have hroot2 : ((env w).threads ((env w).scheds sched).curr).state &&& f.XNROOT = 0 := by
      rw [hcu]; exact hnr2
    have hb := watchdog_handler_below f x (env w) sched hroot2 (by rw [hc]; omega)
    simp only [watchdog_run, List.length_cons, List.replicate_succ]
    rw [hb]
    simp only
    obtain ⟨i1, i2, i3, i4⟩ := ih
      ({ env w with scheds := (Function.update (env w).scheds sched
          { (env w).scheds sched with wdcount := ((env w).scheds sched).wdcount + 1 }) })
      (fun e he => hk e (List.mem_cons_of_mem _ he))
      (fun e he => hcur e (List.mem_cons_of_mem _ he))
      (by simp only [Function.update_same]; rw [hcu]; exact hnr2)
      (by simp only [Function.update_same]; rw [hc]; omega)
    simp only [Function.update_same] at i2 i3 i4
    refine ⟨by rw [i1], ?_, ?_, ?_⟩
    · rw [i2, hc]; omega
    · rw [i3, hcu]
    · rw [← hcu]; exact i4

theorem watchdog_run_append {RQ : Type} (f : xn_flags) (x : ext_env RQ) (sched : SchedPtr) :
    ∀ (l1 l2 : List (nucleus RQ → nucleus RQ)) (w : nucleus RQ),
      watchdog_run f x sched (l1 ++ l2) w =
        ((watchdog_run f x sched l1 w).1 ++
            (watchdog_run f x sched l2 (watchdog_run f x sched l1 w).2).1,
          (watchdog_run f x sched l2 (watchdog_run f x sched l1 w).2).2) := by
  intro l1
  induction l1 with
  | nil => intro l2 w; rfl
  | cons env l1 ih =>
    intro l2 w
    rw [List.cons_append]
    simp only [watchdog_run]
    rw [ih]
    rfl

/-- C17: for a threshold `N ≥ 1`, a watchdog counter at 0 and a non-root
thread which stays current over consecutive watchdog ticks:
`xnsched_watchdog_handler` makes no outside call on ticks 1 to `N-1` and the
counter equals the number of ticks seen; the `N`-th tick signals or cancels
that thread and resets the counter to 0.  With `N = 3` and a kernel thread,
the third tick cancels the thread. -/
theorem watchdog_triggers_on_nth_tick {RQ : Type} (f : xn_flags) (x : ext_env RQ)
    (w : nucleus RQ) (sched : SchedPtr)
    (hN : 1 ≤ x.wd_timeout_arg)
    (hcount : (w.scheds sched).wdcount = 0)
    (hroot : (w.threads (w.scheds sched).curr).state &&& f.XNROOT = 0)
    (envs : List (nucleus RQ → nucleus RQ))
    (hk : ∀ env ∈ envs, keeps_wdcount sched env)
    (hcur : ∀ env ∈ envs, keeps_current f sched env) :
    (envs.length < x.wd_timeout_arg →
      (watchdog_run f x sched envs w).1 = List.replicate envs.length [] ∧
      ((watchdog_run f x sched envs w).2.scheds sched).wdcount = envs.length) ∧
    (envs.length = x.wd_timeout_arg →
      ((watchdog_run f x sched envs w).1 =
          List.replicate (x.wd_timeout_arg - 1) [] ++
            [[.xnshadow_call_mayday (w.scheds sched).curr x.SIGDEBUG_WATCHDOG]] ∨
        (watchdog_run f x sched envs w).1 =
          List.replicate (x.wd_timeout_arg - 1) [] ++
            [[.xnpod_cancel_thread (w.scheds sched).curr]]) ∧
      ((watchdog_run f x sched envs w).2.scheds sched).wdcount = 0) ∧
    ((watchdog_run demo_flags (quiet_env (List ThreadPtr)) 0
        [fun w0 => w0, fun w0 => w0, fun w0 => w0] running_nucleus).1
        = [[], [], [.xnpod_cancel_thread 1]] ∧
      ((watchdog_run demo_flags (quiet_env (List ThreadPtr)) 0
        [fun w0 => w0, fun w0 => w0, fun w0 => w0] running_nucleus).2.scheds 0).wdcount = 0) := by
  refine ⟨?_, ?_, by rfl, by rfl⟩
  · intro hlt
    obtain ⟨h1, h2, _, _⟩ := watchdog_run_counts f x sched envs w hk hcur hroot
      (by rw [hcount]; omega)
    exact ⟨h1, by rw [h2, hcount]; omega⟩
  · intro hlen
    have hne : envs ≠ [] := by
      intro h0
      rw [h0] at hlen
      simp at hlen
      omega
    have hsplit := List.dropLast_append_getLast hne
    have hlen1 : envs.dropLast.length = x.wd_timeout_arg - 1 := by
      rw [List.length_dropLast, hlen]
    have hkd : ∀ env ∈ envs.dropLast, keeps_wdcount sched env :=
      fun e he => hk e (List.mem_of_mem_dropLast he)
    have hcd : ∀ env ∈ envs.dropLast, keeps_current f sched env :=
      fun e he => hcur e (List.mem_of_mem_dropLast he)
    obtain ⟨h1, h2, h3, h4⟩ := watchdog_run_counts f x sched envs.dropLast w hkd hcd hroot
      (by rw [hcount, hlen1]; omega)
    have hlast_k := hk (envs.getLast hne) (List.getLast_mem hne)
      (watchdog_run f x sched envs.dropLast w).2
    obtain ⟨hlast_c, hlast_r⟩ := hcur (envs.getLast hne) (List.getLast_mem hne)
      (watchdog_run f x sched envs.dropLast w).2
    rw [h3] at hlast_c hlast_r
    have hroot2 := hlast_r h4
    have htrig := watchdog_handler_trigger f x
      (envs.getLast hne (watchdog_run f x sched envs.dropLast w).2) sched
      (by rw [hlast_c]; exact hroot2)
      (by rw [hlast_k, h2, hcount, hlen1]; omega)
    rw [← hsplit, watchdog_run_append]
    simp only [watchdog_run, List.append_nil]
    rw [h1, hlen1, htrig, hlast_c]
    split_ifs
    · exact ⟨Or.inl rfl, reset_watchdog_count _ _⟩
    · exact ⟨Or.inr rfl, reset_watchdog_count _ _⟩

theorem watchdog_triggers_on_nth_tick_witness :
    (watchdog_run demo_flags (quiet_env (List ThreadPtr)) 0 [fun w0 => w0, fun w0 => w0]
      running_nucleus).1 = List.replicate 2 [] ∧
    ((watchdog_run demo_flags (quiet_env (List ThreadPtr)) 0 [fun w0 => w0, fun w0 => w0]
      running_nucleus).2.scheds 0).wdcount = 2 :=
  (watchdog_triggers_on_nth_tick demo_flags (quiet_env (List ThreadPtr)) running_nucleus 0
    (by decide) (by rfl) (by decide) [fun w0 => w0, fun w0 => w0]
    (by
      intro env he
      simp only [List.mem_cons, List.mem_singleton, List.not_mem_nil, or_false, or_self] at he
      subst he
      intro w0
      rfl)
    (by
      intro env he
      simp only [List.mem_cons, List.mem_singleton, List.not_mem_nil, or_false, or_self] at he
      subst he
      intro w0
      exact ⟨rfl, fun h => h⟩)).1 (by decide)

/-- C18: when the watchdog threshold is reached on a tick (the current thread
is not the root thread and the incremented counter is not below the
threshold), `xnsched_watchdog_handler` makes exactly one outside call: the
mayday signal `SIGDEBUG_WATCHDOG` to the current thread if it has `XNUSER`
set, the cancellation of the current thread if it has not; the counter is 0
afterwards. -/
theorem watchdog_signals_user_cancels_kernel {RQ : Type} (f : xn_flags) (x : ext_env RQ)
    (w : nucleus RQ) (sched : SchedPtr)
    (hroot : (w.threads (w.scheds sched).curr).state &&& f.XNROOT = 0)
    (hthr : x.wd_timeout_arg ≤ (w.scheds sched).wdcount + 1) :
    ((w.threads (w.scheds sched).curr).state &&& f.XNUSER ≠ 0 →
      (xnsched_watchdog_handler f x w sched).1 =
        [.xnshadow_call_mayday (w.scheds sched).curr x.SIGDEBUG_WATCHDOG]) ∧
    ((w.threads (w.scheds sched).curr).state &&& f.XNUSER = 0 →
      (xnsched_watchdog_handler f x w sched).1 =
        [.xnpod_cancel_thread (w.scheds sched).curr]) ∧
    (xnsched_watchdog_handler f x w sched).1.length = 1 ∧
    ((xnsched_watchdog_handler f x w sched).2.scheds sched).wdcount = 0 := by
  rw [watchdog_handler_trigger f x w sched hroot hthr]
  by_cases hu : (w.threads (w.scheds sched).curr).state &&& f.XNUSER = 0
  · rw [if_neg (fun h => h hu)]
    exact ⟨fun h => absurd hu h, fun _ => rfl, rfl, reset_watchdog_count _ _⟩
  · rw [if_pos hu]
    exact ⟨fun _ => rfl, fun h => absurd h hu, rfl, reset_watchdog_count _ _⟩

theorem watchdog_signals_user_cancels_kernel_witness :
    (xnsched_watchdog_handler demo_flags (quiet_env (List ThreadPtr))
      (watchdog_run demo_flags (quiet_env (List ThreadPtr)) 0 [fun w0 => w0, fun w0 => w0]
        running_nucleus).2 0).1 = [.xnpod_cancel_thread 1] :=
  (watchdog_signals_user_cancels_kernel demo_flags (quiet_env (List ThreadPtr))
    (watchdog_run demo_flags (quiet_env (List ThreadPtr)) 0 [fun w0 => w0, fun w0 => w0]
      running_nucleus).2 0 (by decide) (by decide)).2.1 (by decide)

/-- C19: when `xnsched_watchdog_handler` runs while the current thread is
the root thread, the counter is reset to 0 and no outside call is made (no
thread is signalled or cancelled), whatever the counter was; and whatever
runs between the ticks that follow, as long as it leaves the counter alone,
fewer ticks than the threshold after that reset trigger nothing. -/
theorem watchdog_idle_tick_resets {RQ : Type} (f : xn_flags) (x : ext_env RQ)
    (w : nucleus RQ) (sched : SchedPtr)
    (hroot : (w.threads (w.scheds sched).curr).state &&& f.XNROOT ≠ 0) :
    xnsched_watchdog_handler f x w sched = ([], xnsched_reset_watchdog w sched) ∧
    ((xnsched_watchdog_handler f x w sched).2.scheds sched).wdcount = 0 ∧
    ∀ envs : List (nucleus RQ → nucleus RQ),
      (∀ env ∈ envs, keeps_wdcount sched env) →
      envs.length < x.wd_timeout_arg →
      (watchdog_run f x sched envs (xnsched_watchdog_handler f x w sched).2).1
        = List.replicate envs.length [] := by
  have h0 := watchdog_handler_root f x w sched hroot
  refine ⟨h0, by rw [h0]; exact reset_watchdog_count _ _, ?_⟩
  intro envs hk hlt
  apply watchdog_run_quiet f x sched envs _ hk
  rw [h0]
  simp only [reset_watchdog_count]
  omega

theorem watchdog_idle_tick_resets_witness :
    xnsched_watchdog_handler demo_flags (quiet_env (List ThreadPtr)) booted_nucleus 0 =
      ([], xnsched_reset_watchdog booted_nucleus 0) ∧
    ((xnsched_watchdog_handler demo_flags (quiet_env (List ThreadPtr)) booted_nucleus 0).2.scheds
      0).wdcount = 0 :=
  ⟨(watchdog_idle_tick_resets demo_flags (quiet_env (List ThreadPtr)) booted_nucleus 0
      (by decide)).1,
    (watchdog_idle_tick_resets demo_flags (quiet_env (List ThreadPtr)) booted_nucleus 0
      (by decide)).2.1⟩

/-! ## Claims on migration -/

theorem or_and_disjoint {s m r : Nat} (h : r &&& m = 0) : (s ||| m) &&& r = s &&& r := by
  apply Nat.eq_of_testBit_eq
  intro i
  have hi := congrArg (fun n => n.testBit i) h
  simp only [Nat.testBit_and, Nat.zero_testBit] at hi
  simp only [Nat.testBit_and, Nat.testBit_or]
  cases hs : s.testBit i <;> cases hm : m.testBit i <;> cases hr : r.testBit i <;> simp_all

theorem clear_and_disjoint {s m r : Nat} (h : r &&& m = 0) :
    (s ^^^ (s &&& m)) &&& r = s &&& r := by
  apply Nat.eq_of_testBit_eq
  intro i
  have hi := congrArg (fun n => n.testBit i) h
  simp only [Nat.testBit_and, Nat.zero_testBit] at hi
  simp only [Nat.testBit_and, Nat.testBit_xor]
  cases hs : s.testBit i <;> cases hm : m.testBit i <;> cases hr : r.testBit i <;> simp_all

theorem clear_and_self (s m : Nat) : (s ^^^ (s &&& m)) &&& m = 0 := by
  apply Nat.eq_of_testBit_eq
  intro i
  simp only [Nat.testBit_and, Nat.testBit_xor, Nat.zero_testBit]
  cases s.testBit i <;> cases m.testBit i <;> rfl

theorem and_comm_zero {a b : Nat} (h : a &&& b = 0) : b &&& a = 0 := by
  rw [Nat.and_comm]; exact h

theorem not_mem_erase_of_count_one {l : List ThreadPtr} {t : ThreadPtr}
    (h : l.count t = 1) : t ∉ l.erase t := by
  rw [← List.count_eq_zero, List.count_erase_self, h]

theorem enqueue_runq (w : nucleus run_queues) (t : ThreadPtr) (s : SchedPtr) (c : ClassPtr) :
    (xnsched_enqueue w t).runq s c =
      if s = (w.threads t).sched ∧ c = (w.threads t).sched_class then w.runq s c ++ [t]
      else w.runq s c := by
  unfold xnsched_enqueue
  simp only
  by_cases hs : s = (w.threads t).sched
  · subst hs
    rw [Function.update_same]
    by_cases hc : c = (w.threads t).sched_class
    · subst hc
      simp
    · rw [Function.update_noteq hc]
      simp [hc]
  · rw [Function.update_noteq hs]
    simp [hs]

theorem dequeue_runq (w : nucleus run_queues) (t : ThreadPtr) (s : SchedPtr) (c : ClassPtr) :
    (xnsched_dequeue w t).runq s c =
      if s = (w.threads t).sched ∧ c = (w.threads t).sched_class then (w.runq s c).erase t
      else w.runq s c := by
  unfold xnsched_dequeue
  simp only
  by_cases hs : s = (w.threads t).sched
  · subst hs
    rw [Function.update_same]
    by_cases hc : c = (w.threads t).sched_class
    · subst hc
      simp
    · rw [Function.update_noteq hc]
      simp [hc]
  · rw [Function.update_noteq hs]
    simp [hs]

theorem dequeue_unlinks (f : xn_flags) (w : nucleus run_queues) (t : ThreadPtr)
    (hcons : rq_consistent f w t) (hready : (w.threads t).state &&& f.XNREADY ≠ 0)
    (s : SchedPtr) (c : ClassPtr) : t ∉ (xnsched_dequeue w t).runq s c := by
  obtain ⟨hcount, honly⟩ := hcons.1 hready
  rw [dequeue_runq]
  split_ifs with h
  · rw [h.1, h.2]
    exact not_mem_erase_of_count_one hcount
  · intro hm
    exact h (honly s c hm)

theorem migrate_unlocked_post (f : xn_flags) (x : ext_env run_queues)
    (hf : migrate_flags_disjoint f) (hx : ext_keeps_queues x)
    (w : nucleus run_queues) (thread : ThreadPtr) (dst : SchedPtr)
    (hcons : rq_consistent f w thread) :
    ((xnsched_migrate f x true w thread dst).2.threads thread).sched = dst ∧
    ((xnsched_migrate f x true w thread dst).2.threads thread).state &&& f.XNMIGRATE
      = f.XNMIGRATE ∧
    ((xnsched_migrate f x true w thread dst).2.threads thread).state &&& f.XNREADY = 0 ∧
    ((xnsched_migrate f x true w thread dst).2.threads thread).state &&& f.XNZOMBIE
      = (w.threads thread).state &&& f.XNZOMBIE ∧
    ¬ rq_linked (xnsched_migrate f x true w thread dst).2 thread := by
  obtain ⟨hrm, hrz, hmz⟩ := hf
  have hstage : ∀ w1 : nucleus run_queues,
      w1 = (if xnthread_test_state w thread f.XNREADY then
          xnthread_clear_state (xnsched_dequeue w thread) thread f.XNREADY else w) →
      (w1.threads thread).state &&& f.XNREADY = 0 ∧
      (w1.threads thread).state &&& f.XNZOMBIE = (w.threads thread).state &&& f.XNZOMBIE ∧
      ∀ s c, thread ∉ w1.runq s c := by
    intro w1 hw1
    by_cases hready : (w.threads thread).state &&& f.XNREADY = 0
    · rw [test_state_false_of_and_eq_zero w thread _ hready] at hw1
      simp only [Bool.false_eq_true, if_false] at hw1
      subst hw1
      exact ⟨hready, rfl, fun s c hm => hcons.2 hready ⟨s, c, hm⟩⟩
    · rw [test_state_true_of_and_ne_zero w thread _ hready] at hw1
      simp only [if_true] at hw1
      subst hw1
      refine ⟨clear_state_bits_zero _ thread f.XNREADY, ?_, ?_⟩
      · simp only [xnthread_clear_state, Function.update_same]
        exact clear_and_disjoint (and_comm_zero hrz)
      · intro s c
        exact dequeue_unlinks f w thread hcons hready s c
  unfold xnsched_migrate
  simp only [if_true]
  generalize hw1 : (if xnthread_test_state w thread f.XNREADY then
      xnthread_clear_state (xnsched_dequeue w thread) thread f.XNREADY else w) = w1
  obtain ⟨h1, h2, h3⟩ := hstage w1 hw1.symm
  by_cases hm : x.has_sched_migrate (w.threads thread).sched_class = true
  · simp only [hm, if_true, xnthread_set_state, Function.update_same, xnsched_set_resched]
    refine ⟨trivial, or_and_self_right _ _, ?_, ?_, ?_⟩
    · rw [or_and_disjoint hrm, (hx _ _).2 thread]
      exact h1
    · rw [or_and_disjoint (and_comm_zero hmz), (hx _ _).2 thread]
      exact h2
    · rintro ⟨s, c, hmem⟩
      simp only at hmem
      rw [(hx _ _).1] at hmem
      exact h3 s c hmem
  · simp only [hm, if_false, xnthread_set_state, Function.update_same, xnsched_set_resched]
    refine ⟨trivial, or_and_self_right _ _, ?_, ?_, ?_⟩
    · rw [or_and_disjoint hrm]
      exact h1
    · rw [or_and_disjoint (and_comm_zero hmz)]
      exact h2
    · rintro ⟨s, c, hmem⟩
      exact h3 s c hmem

theorem putback_not_ready (f : xn_flags) (w : nucleus run_queues) (t : ThreadPtr)
    (hready : (w.threads t).state &&& f.XNREADY = 0) :
    xnsched_putback f w t =
      xnsched_set_resched f (xnsched_enqueue (xnthread_set_state w t f.XNREADY) t)
        (w.threads t).sched := by
  unfold xnsched_putback
  simp only [test_state_false_of_and_eq_zero w t _ hready, Bool.false_eq_true, if_false]
  simp [xnsched_enqueue, xnthread_set_state]

theorem finish_unfold (f : xn_flags) (x : ext_env run_queues) (w : nucleus run_queues)
    (cur : SchedPtr) (w1 : nucleus run_queues)
    (hw1 : w1 = { w with scheds := (Function.update w.scheds cur
      { w.scheds cur with
        status := (w.scheds cur).status ^^^ ((w.scheds cur).status &&& f.XNINSW) }) }) :
    xnsched_finish_unlocked_switch f x w cur =
      if xnthread_test_state
          (if (w1.threads (w.scheds cur).last).sched != cur then
            xnthread_clear_state (xnsched_putback f w1 (w.scheds cur).last)
              (w.scheds cur).last f.XNMIGRATE
           else w1) (w.scheds cur).last f.XNZOMBIE then
        if ((if (w1.threads (w.scheds cur).last).sched != cur then
              xnthread_clear_state (xnsched_putback f w1 (w.scheds cur).last)
                (w.scheds cur).last f.XNMIGRATE
             else w1).scheds cur).zombie != some (w.scheds cur).last then
          xnsched_zombie_hooks x
            (if (w1.threads (w.scheds cur).last).sched != cur then
              xnthread_clear_state (xnsched_putback f w1 (w.scheds cur).last)
                (w.scheds cur).last f.XNMIGRATE
             else w1) (w.scheds cur).last
        else (.ok [],
          if (w1.threads (w.scheds cur).last).sched != cur then
            xnthread_clear_state (xnsched_putback f w1 (w.scheds cur).last)
              (w.scheds cur).last f.XNMIGRATE
          else w1)
      else (.ok [],
        if (w1.threads (w.scheds cur).last).sched != cur then
          xnthread_clear_state (xnsched_putback f w1 (w.scheds cur).last)
            (w.scheds cur).last f.XNMIGRATE
        else w1) := by
  subst hw1
  rfl

theorem finish_enqueues_migrated (f : xn_flags) (x : ext_env run_queues)
    (hf : migrate_flags_disjoint f) (w : nucleus run_queues) (cur : SchedPtr)
    (thread : ThreadPtr)
    (hlast : (w.scheds cur).last = thread)
    (hdst : (w.threads thread).sched ≠ cur)
    (hready : (w.threads thread).state &&& f.XNREADY = 0)
    (hz : (w.threads thread).state &&& f.XNZOMBIE = 0)
    (hnl : ¬ rq_linked w thread) :
    (xnsched_finish_unlocked_switch f x w cur).1 = .ok [] ∧
    ((xnsched_finish_unlocked_switch f x w cur).2.runq (w.threads thread).sched
      (w.threads thread).sched_class).count thread = 1 ∧
    (∀ s c, thread ∈ (xnsched_finish_unlocked_switch f x w cur).2.runq s c →
      s = (w.threads thread).sched ∧ c = (w.threads thread).sched_class) ∧
    ((xnsched_finish_unlocked_switch f x w cur).2.threads thread).state &&& f.XNREADY
      = f.XNREADY ∧
    ((xnsched_finish_unlocked_switch f x w cur).2.threads thread).state &&& f.XNMIGRATE = 0 ∧
    ((xnsched_finish_unlocked_switch f x w cur).2.threads thread).sched
      = (w.threads thread).sched ∧
    ((xnsched_finish_unlocked_switch f x w cur).2.scheds (w.threads thread).sched).status
      &&& f.XNRESCHED = f.XNRESCHED := by
  obtain ⟨hrm, hrz, hmz⟩ := hf
  have hcount0 : ∀ s c, (w.runq s c).count thread = 0 := by
    intro s c
    rw [List.count_eq_zero]
    exact fun hm => hnl ⟨s, c, hm⟩
  subst hlast
  obtain ⟨w1, hw1⟩ : ∃ w1 : nucleus run_queues,
      w1 = { w with scheds := (Function.update w.scheds cur
        { w.scheds cur with
          status := (w.scheds cur).status ^^^ ((w.scheds cur).status &&& f.XNINSW) }) } :=
    ⟨_, rfl⟩
  have ht : w1.threads = w.threads := by rw [hw1]
  have hq : w1.runq = w.runq := by rw [hw1]
  rw [finish_unfold f x w cur w1 hw1]
  have hne : ((w1.threads (w.scheds cur).last).sched != cur) = true := by
    rw [ht]
    simpa using hdst
  have hready1 : (w1.threads (w.scheds cur).last).state &&& f.XNREADY = 0 := by
    rw [ht]; exact hready
  simp only [hne, if_true]
  rw [putback_not_ready f w1 _ hready1]
  have hzt : xnthread_test_state
      (xnthread_clear_state
        (xnsched_set_resched f
          (xnsched_enqueue (xnthread_set_state w1 (w.scheds cur).last f.XNREADY)
            (w.scheds cur).last)
          (w1.threads (w.scheds cur).last).sched) (w.scheds cur).last f.XNMIGRATE)
        (w.scheds cur).last f.XNZOMBIE = false := by
    apply test_state_false_of_and_eq_zero
    simp only [xnthread_clear_state, xnsched_set_resched, xnsched_enqueue, xnthread_set_state,
      Function.update_same]
    rw [clear_and_disjoint (and_comm_zero hmz), or_and_disjoint (and_comm_zero hrz), ht]
    exact hz
  simp only [hzt, Bool.false_eq_true, if_false]
  refine ⟨trivial, ?_, ?_, ?_, ?_, ?_, ?_⟩
  · simp only [xnthread_clear_state, xnsched_set_resched]
    rw [enqueue_runq]
    simp only [xnthread_set_state, Function.update_same, ht, hq, and_self, if_true]
    rw [List.count_append, hcount0]
    simp
  · intro s c hm
    simp only [xnthread_clear_state, xnsched_set_resched] at hm
    rw [enqueue_runq] at hm
    simp only [xnthread_set_state, Function.update_same, ht, hq] at hm
    split_ifs at hm with h
    · exact h
    · exact absurd ⟨s, c, hm⟩ hnl
  · simp only [xnthread_clear_state, xnsched_set_resched, xnsched_enqueue, xnthread_set_state,
      Function.update_same]
    rw [clear_and_disjoint hrm]
    exact or_and_self_right _ _
  · exact clear_state_bits_zero _ _ f.XNMIGRATE
  · simp [xnthread_clear_state, xnsched_set_resched, xnsched_enqueue, xnthread_set_state, ht]
  · simp only [xnthread_clear_state, xnsched_set_resched, xnsched_enqueue, xnthread_set_state,
      ht, Function.update_same]
    exact or_and_self_right _ _

theorem putback_frame (f : xn_flags) (w : nucleus run_queues) (u t : ThreadPtr)
    (hne : t ≠ u) :
    (xnsched_putback f w u).threads t = w.threads t ∧
    ∀ s c, t ∈ (xnsched_putback f w u).runq s c ↔ t ∈ w.runq s c := by
  unfold xnsched_putback
  simp only [xnsched_set_resched]
  by_cases hr : xnthread_test_state w u f.XNREADY = true
  · simp only [hr, if_true]
    constructor
    · rfl
    · intro s c
      rw [enqueue_runq]
      have hd := dequeue_runq w u s c
      split_ifs with h
      · rw [List.mem_append, hd]
        have h2 : s = (w.threads u).sched ∧ c = (w.threads u).sched_class := h
        simp only [h2, and_self, if_true, List.mem_singleton, hne, or_false]
        rw [← h2.1, ← h2.2]
        exact List.mem_erase_of_ne hne
      · rw [hd]
        have h2 : ¬ (s = (w.threads u).sched ∧ c = (w.threads u).sched_class) := h
        simp only [h2, if_false]
  · simp only [hr, Bool.false_eq_true, if_false]
    constructor
    · simp only [xnsched_enqueue, xnthread_set_state]
      exact Function.update_noteq hne _ _
    · intro s c
      rw [enqueue_runq]
      split_ifs with h
      · rw [List.mem_append]
        simp only [List.mem_singleton, hne, or_false]
        rfl
      · rfl

theorem zombie_hooks_frame (x : ext_env run_queues) (hx : ext_keeps_queues x)
    (w : nucleus run_queues) (u t : ThreadPtr) :
    ((xnsched_zombie_hooks x w u).2.threads t).state = (w.threads t).state ∧
    (xnsched_zombie_hooks x w u).2.runq = w.runq := by
  by_cases h : (w.scheds (w.threads u).sched).zombie = none
  · rw [zombie_hooks_ok x w u h]
    simp only
    rw [(hx _ _).2 t, (hx _ _).2 t, (hx _ _).1, (hx _ _).1]
    exact ⟨rfl, rfl⟩
  · rw [zombie_hooks_error x w u h]
    exact ⟨rfl, rfl⟩

theorem finish_frame (f : xn_flags) (x : ext_env run_queues) (hx : ext_keeps_queues x)
    (w : nucleus run_queues) (cur : SchedPtr) (thread : ThreadPtr)
    (hlast : (w.scheds cur).last ≠ thread) :
    ((xnsched_finish_unlocked_switch f x w cur).2.threads thread).state
      = (w.threads thread).state ∧
    ∀ s c, thread ∈ (xnsched_finish_unlocked_switch f x w cur).2.runq s c ↔
      thread ∈ w.runq s c := by
  obtain ⟨w1, hw1⟩ : ∃ w1 : nucleus run_queues,
      w1 = { w with scheds := (Function.update w.scheds cur
        { w.scheds cur with
          status := (w.scheds cur).status ^^^ ((w.scheds cur).status &&& f.XNINSW) }) } :=
    ⟨_, rfl⟩
  have ht : w1.threads = w.threads := by rw [hw1]
  have hq : w1.runq = w.runq := by rw [hw1]
  rw [finish_unfold f x w cur w1 hw1]
  have hne : thread ≠ (w.scheds cur).last := fun h => hlast h.symm
  obtain ⟨w2, hw2⟩ : ∃ w2 : nucleus run_queues,
      w2 = (if (w1.threads (w.scheds cur).last).sched != cur then
          xnthread_clear_state (xnsched_putback f w1 (w.scheds cur).last)
            (w.scheds cur).last f.XNMIGRATE
        else w1) := ⟨_, rfl⟩
  have hframe2 : (w2.threads thread).state = (w.threads thread).state ∧
      ∀ s c, thread ∈ w2.runq s c ↔ thread ∈ w.runq s c := by
    rw [hw2]
    split_ifs
    · obtain ⟨p1, p2⟩ := putback_frame f w1 (w.scheds cur).last thread hne
      constructor
      · simp only [xnthread_clear_state]
        rw [Function.update_noteq hne, p1, ht]
      · intro s c
        simp only [xnthread_clear_state]
        rw [p2 s c, hq]
    · rw [ht, hq]
      exact ⟨rfl, fun _ _ => Iff.rfl⟩
  rw [← hw2]
  obtain ⟨z1, z2⟩ := zombie_hooks_frame x hx w2 (w.scheds cur).last thread
  split_ifs
  · rw [z1, z2]
    exact hframe2
  · exact hframe2
  · exact hframe2

/-- C20: with the unlocked context switch enabled, `xnsched_migrate(thread,
dst)` leaves the thread owned by `dst`, marked `XNMIGRATE`, with `XNREADY`
cleared and linked on no run queue.  When `xnsched_finish_unlocked_switch`
then runs on another context whose last thread is that thread, the thread is
linked once on the run queue of its class on `dst` and nowhere else, marked
`XNREADY`, with `XNMIGRATE` cleared, and a reschedule is requested on `dst`.
A call of `xnsched_finish_unlocked_switch` on a context whose last thread is
another thread changes neither the flags of the thread nor the queues it is
linked on.  (The thread is linked as its `XNREADY` flag tells and is not a
zombie before the migration; the flag masks do not overlap; the outside code
leaves run queues and state words alone.) -/
theorem migrate_unlocked_defers_enqueue (f : xn_flags) (x : ext_env run_queues)
    (hf : migrate_flags_disjoint f) (hx : ext_keeps_queues x)
    (w : nucleus run_queues) (thread : ThreadPtr) (dst : SchedPtr)
    (hcons : rq_consistent f w thread)
    (hz : (w.threads thread).state &&& f.XNZOMBIE = 0) :
    (((xnsched_migrate f x true w thread dst).2.threads thread).sched = dst ∧
      ((xnsched_migrate f x true w thread dst).2.threads thread).state &&& f.XNMIGRATE
        = f.XNMIGRATE ∧
      ((xnsched_migrate f x true w thread dst).2.threads thread).state &&& f.XNREADY = 0 ∧
      ¬ rq_linked (xnsched_migrate f x true w thread dst).2 thread) ∧
    (∀ cur, ((xnsched_migrate f x true w thread dst).2.scheds cur).last = thread →
      cur ≠ dst →
      (xnsched_finish_unlocked_switch f x (xnsched_migrate f x true w thread dst).2 cur).1
        = .ok [] ∧
      ((xnsched_finish_unlocked_switch f x (xnsched_migrate f x true w thread dst).2 cur).2.runq
        dst ((xnsched_migrate f x true w thread dst).2.threads thread).sched_class).count thread
        = 1 ∧
      (∀ s c, thread ∈
          (xnsched_finish_unlocked_switch f x (xnsched_migrate f x true w thread dst).2 cur).2.runq
            s c →
        s = dst ∧ c = ((xnsched_migrate f x true w thread dst).2.threads thread).sched_class) ∧
      ((xnsched_finish_unlocked_switch f x (xnsched_migrate f x true w thread dst).2
        cur).2.threads thread).state &&& f.XNREADY = f.XNREADY ∧
      ((xnsched_finish_unlocked_switch f x (xnsched_migrate f x true w thread dst).2
        cur).2.threads thread).state &&& f.XNMIGRATE = 0 ∧
      ((xnsched_finish_unlocked_switch f x (xnsched_migrate f x true w thread dst).2
        cur).2.threads thread).sched = dst ∧
      ((xnsched_finish_unlocked_switch f x (xnsched_migrate f x true w thread dst).2
        cur).2.scheds dst).status &&& f.XNRESCHED = f.XNRESCHED) ∧
    (∀ (w0 : nucleus run_queues) (cur : SchedPtr), (w0.scheds cur).last ≠ thread →
      ((xnsched_finish_unlocked_switch f x w0 cur).2.threads thread).state
        = (w0.threads thread).state ∧
      ∀ s c, thread ∈ (xnsched_finish_unlocked_switch f x w0 cur).2.runq s c ↔
        thread ∈ w0.runq s c) := by
  obtain ⟨p1, p2, p3, p4, p5⟩ := migrate_unlocked_post f x hf hx w thread dst hcons
  refine ⟨⟨p1, p2, p3, p5⟩, ?_, ?_⟩
  · intro cur hlast hcur
    have := finish_enqueues_migrated f x hf (xnsched_migrate f x true w thread dst).2 cur thread
      hlast (by rw [p1]; exact fun h => hcur h.symm) p3 (by rw [p4]; exact hz) p5
    rw [p1] at this
    exact this
  · intro w0 cur hlast
    exact finish_frame f x hx w0 cur thread hlast

theorem migrate_unlocked_defers_enqueue_witness :
    (((xnsched_migrate demo_flags (quiet_env run_queues) true migrating_nucleus 5 1).2.threads
        5).sched = 1 ∧
      ((xnsched_migrate demo_flags (quiet_env run_queues) true migrating_nucleus 5 1).2.threads
        5).state &&& demo_flags.XNMIGRATE = demo_flags.XNMIGRATE ∧
      ((xnsched_migrate demo_flags (quiet_env run_queues) true migrating_nucleus 5 1).2.threads
        5).state &&& demo_flags.XNREADY = 0 ∧
      ¬ rq_linked (xnsched_migrate demo_flags (quiet_env run_queues) true migrating_nucleus 5
        1).2 5) ∧
    ((xnsched_finish_unlocked_switch demo_flags (quiet_env run_queues)
      (xnsched_migrate demo_flags (quiet_env run_queues) true migrating_nucleus 5 1).2 0).2.runq
      1 ((xnsched_migrate demo_flags (quiet_env run_queues) true migrating_nucleus 5
        1).2.threads 5).sched_class).count 5 = 1 :=
  ⟨(migrate_unlocked_defers_enqueue demo_flags (quiet_env run_queues)
      ⟨by decide, by decide, by decide⟩ (fun _ _ => ⟨rfl, fun _ => rfl⟩) migrating_nucleus 5 1
      ⟨fun _ => ⟨by decide, fun s c hm => by
          have hq : migrating_nucleus.runq s c = if s = 0 ∧ c = 1 then [5] else [] := rfl
          rw [hq] at hm
          split_ifs at hm with h
          · exact h
          · exact absurd hm (List.not_mem_nil 5)⟩,
        fun h => absurd h (by decide)⟩
      (by decide)).1,
    ((migrate_unlocked_defers_enqueue demo_flags (quiet_env run_queues)
      ⟨by decide, by decide, by decide⟩ (fun _ _ => ⟨rfl, fun _ => rfl⟩) migrating_nucleus 5 1
      ⟨fun _ => ⟨by decide, fun s c hm => by
          have hq : migrating_nucleus.runq s c = if s = 0 ∧ c = 1 then [5] else [] := rfl
          rw [hq] at hm
          split_ifs at hm with h
          · exact h
          · exact absurd hm (List.not_mem_nil 5)⟩,
        fun h => absurd h (by decide)⟩
      (by decide)).2.1 0 (by rfl) (by decide)).2.1⟩

/-! ## Claims on migration: the locked and the passive paths -/

theorem migrate_locked_eq (f : xn_flags) (x : ext_env run_queues) (w : nucleus run_queues)
    (thread : ThreadPtr) (sched : SchedPtr) :
    xnsched_migrate f x false w thread sched =
      ((migrate_common f x w thread sched).1,
        xnsched_putback f (migrate_common f x w thread sched).2 thread) := rfl

theorem migrate_unlocked_eq (f : xn_flags) (x : ext_env run_queues) (w : nucleus run_queues)
    (thread : ThreadPtr) (sched : SchedPtr) :
    xnsched_migrate f x true w thread sched =
      ((migrate_common f x w thread sched).1,
        xnthread_set_state (migrate_common f x w thread sched).2 thread f.XNMIGRATE) := rfl

theorem migrate_passive_eq (f : xn_flags) (x : ext_env run_queues) (w : nucleus run_queues)
    (thread : ThreadPtr) (sched : SchedPtr) :
    xnsched_migrate_passive f x w thread sched =
      if !xnthread_test_state (migrate_common f x w thread sched).2 thread
          f.XNTHREAD_BLOCK_BITS then
        ((migrate_common f x w thread sched).1,
          xnthread_set_state (xnsched_requeue (migrate_common f x w thread sched).2 thread)
            thread f.XNREADY)
      else migrate_common f x w thread sched := rfl

theorem migrate_common_post (f : xn_flags) (x : ext_env run_queues)
    (hx : ext_keeps_queues x)
    (w : nucleus run_queues) (thread : ThreadPtr) (dst : SchedPtr)
    (hcons : rq_consistent f w thread) :
    ((migrate_common f x w thread dst).2.threads thread).sched = dst ∧
    ((migrate_common f x w thread dst).2.threads thread).state &&& f.XNREADY = 0 ∧
    (∀ m, m &&& f.XNREADY = 0 →
      ((migrate_common f x w thread dst).2.threads thread).state &&& m
        = (w.threads thread).state &&& m) ∧
    (∀ s c, thread ∉ (migrate_common f x w thread dst).2.runq s c) ∧
    (ext_keeps_owner x →
      ((migrate_common f x w thread dst).2.scheds (w.threads thread).sched).status
        &&& f.XNRESCHED = f.XNRESCHED) := by
  have hstage : ∀ w1 : nucleus run_queues,
      w1 = (if xnthread_test_state w thread f.XNREADY then
          xnthread_clear_state (xnsched_dequeue w thread) thread f.XNREADY else w) →
      (w1.threads thread).state &&& f.XNREADY = 0 ∧
      (∀ m, m &&& f.XNREADY = 0 →
        (w1.threads thread).state &&& m = (w.threads thread).state &&& m) ∧
      (∀ s c, thread ∉ w1.runq s c) ∧
      (w1.threads thread).sched = (w.threads thread).sched := by
    intro w1 hw1
    by_cases hready : (w.threads thread).state &&& f.XNREADY = 0
    · rw [test_state_false_of_and_eq_zero w thread _ hready] at hw1
      simp only [Bool.false_eq_true, if_false] at hw1
      subst hw1
      exact ⟨hready, fun _ _ => rfl, fun s c hm => hcons.2 hready ⟨s, c, hm⟩, rfl⟩
    · rw [test_state_true_of_and_ne_zero w thread _ hready] at hw1
      simp only [if_true] at hw1
      subst hw1
      refine ⟨clear_state_bits_zero _ thread f.XNREADY, ?_, ?_, ?_⟩
      · intro m hm
        simp only [xnthread_clear_state, Function.update_same]
        exact clear_and_disjoint hm
      · intro s c
        exact dequeue_unlinks f w thread hcons hready s c
      · simp [xnthread_clear_state, xnsched_dequeue]
  unfold migrate_common
  simp only
  generalize hw1 : (if xnthread_test_state w thread f.XNREADY then
      xnthread_clear_state (xnsched_dequeue w thread) thread f.XNREADY else w) = w1
  obtain ⟨h1, h2, h3, h4⟩ := hstage w1 hw1.symm
  by_cases hm : x.has_sched_migrate (w.threads thread).sched_class = true
  · simp only [hm, if_true, Function.update_same, xnsched_set_resched]
    refine ⟨trivial, ?_, ?_, ?_, ?_⟩
    · rw [(hx _ _).2 thread]
      exact h1
    · intro m hm0
      rw [(hx _ _).2 thread]
      exact h2 m hm0
    · intro s c hmem
      rw [(hx _ _).1] at hmem
      exact h3 s c hmem
    · intro ho
      rw [ho, h4, Function.update_same]
      exact or_and_self_right _ _
  · simp only [hm, Bool.false_eq_true, if_false, Function.update_same, xnsched_set_resched]
    refine ⟨trivial, h1, h2, h3, ?_⟩
    intro _
    rw [h4, Function.update_same]
    exact or_and_self_right _ _
theorem set_resched_keeps_bit {RQ : Type} (f : xn_flags) (w : nucleus RQ) (s0 s : SchedPtr)
    (h : (w.scheds s).status &&& f.XNRESCHED = f.XNRESCHED) :
    ((xnsched_set_resched f w s0).scheds s).status &&& f.XNRESCHED = f.XNRESCHED := by
  unfold xnsched_set_resched
  simp only
  by_cases hs : s = s0
  · subst hs
    rw [Function.update_same]
    exact or_and_self_right _ _
  · rw [Function.update_noteq hs]
    exact h

theorem putback_fresh (f : xn_flags) (w : nucleus run_queues) (t : ThreadPtr)
    (hready : (w.threads t).state &&& f.XNREADY = 0)
    (hnl : ∀ s c, t ∉ w.runq s c) :
    (xnsched_putback f w t).threads t
      = { w.threads t with state := (w.threads t).state ||| f.XNREADY } ∧
    ((xnsched_putback f w t).runq (w.threads t).sched (w.threads t).sched_class).count t = 1 ∧
    (∀ s c, t ∈ (xnsched_putback f w t).runq s c →
      s = (w.threads t).sched ∧ c = (w.threads t).sched_class) ∧
    ((xnsched_putback f w t).scheds (w.threads t).sched).status &&& f.XNRESCHED
      = f.XNRESCHED ∧
    (∀ s, (w.scheds s).status &&& f.XNRESCHED = f.XNRESCHED →
      ((xnsched_putback f w t).scheds s).status &&& f.XNRESCHED = f.XNRESCHED) := by
  have hcount0 : ∀ s c, (w.runq s c).count t = 0 := by
    intro s c
    rw [List.count_eq_zero]
    exact hnl s c
  rw [putback_not_ready f w t hready]
  refine ⟨?_, ?_, ?_, ?_, ?_⟩
  · simp [xnsched_set_resched, xnsched_enqueue, xnthread_set_state]
  · simp only [xnsched_set_resched]
    rw [enqueue_runq]
    simp only [xnthread_set_state, Function.update_same, and_self, if_true]
    rw [List.count_append, hcount0]
    simp
  · intro s c hm
    simp only [xnsched_set_resched] at hm
    rw [enqueue_runq] at hm
    simp only [xnthread_set_state, Function.update_same] at hm
    split_ifs at hm with h
    · exact h
    · exact absurd hm (hnl s c)
  · simp only [xnsched_set_resched, Function.update_same]
    exact or_and_self_right _ _
  · intro s hs
    apply set_resched_keeps_bit
    simpa [xnsched_enqueue, xnthread_set_state] using hs

theorem requeue_runq (w : nucleus run_queues) (t : ThreadPtr) (s : SchedPtr) (c : ClassPtr) :
    (xnsched_requeue w t).runq s c =
      if s = (w.threads t).sched ∧ c = (w.threads t).sched_class then t :: w.runq s c
      else w.runq s c := by
  unfold xnsched_requeue
  simp only
  by_cases hs : s = (w.threads t).sched
  · subst hs
    rw [Function.update_same]
    by_cases hc : c = (w.threads t).sched_class
    · subst hc
      simp
    · rw [Function.update_noteq hc]
      simp [hc]
  · rw [Function.update_noteq hs]
    simp [hs]

theorem requeue_fresh (f : xn_flags) (w : nucleus run_queues) (t : ThreadPtr)
    (hnl : ∀ s c, t ∉ w.runq s c) :
    (xnthread_set_state (xnsched_requeue w t) t f.XNREADY).threads t
      = { w.threads t with state := (w.threads t).state ||| f.XNREADY } ∧
    ((xnthread_set_state (xnsched_requeue w t) t f.XNREADY).runq (w.threads t).sched
      (w.threads t).sched_class).count t = 1 ∧
    (∀ s c, t ∈ (xnthread_set_state (xnsched_requeue w t) t f.XNREADY).runq s c →
      s = (w.threads t).sched ∧ c = (w.threads t).sched_class) ∧
    (xnthread_set_state (xnsched_requeue w t) t f.XNREADY).scheds = w.scheds := by
  have hcount0 : ∀ s c, (w.runq s c).count t = 0 := by
    intro s c
    rw [List.count_eq_zero]
    exact hnl s c
  refine ⟨?_, ?_, ?_, ?_⟩
  · simp [xnsched_requeue, xnthread_set_state]
  · simp only [xnthread_set_state]
    rw [requeue_runq]
    simp only [and_self, if_true]
    rw [List.count_cons_self, hcount0]
  · intro s c hm
    simp only [xnthread_set_state] at hm
    rw [requeue_runq] at hm
    split_ifs at hm with h
    · exact h
    · exact absurd hm (hnl s c)
  · simp [xnsched_requeue, xnthread_set_state]
theorem demo_flags_disjoint : migrate_flags_disjoint demo_flags :=
  ⟨by decide, by decide, by decide⟩

theorem quiet_env_keeps_queues : ext_keeps_queues (quiet_env run_queues) :=
  fun _ _ => ⟨rfl, fun _ => rfl⟩

theorem quiet_env_keeps_owner : ext_keeps_owner (quiet_env run_queues) :=
  fun _ _ _ => rfl

theorem migrating_nucleus_consistent : rq_consistent demo_flags migrating_nucleus 5 :=
  ⟨fun _ => ⟨by decide, fun s c hm => by
      have hq : migrating_nucleus.runq s c = if s = 0 ∧ c = 1 then [5] else [] := rfl
      rw [hq] at hm
      split_ifs at hm with h
      · exact h
      · exact absurd hm (List.not_mem_nil 5)⟩,
    fun h => absurd h (by decide)⟩

theorem blocked_nucleus_consistent : rq_consistent demo_flags blocked_nucleus 6 :=
  ⟨fun h => absurd rfl h, fun _ => by
    rintro ⟨s, c, hm⟩
    have hq : blocked_nucleus.runq s c = if s = 0 ∧ c = 1 then [5] else [] := rfl
    rw [hq] at hm
    split_ifs at hm with h
    · exact absurd hm (by decide)
    · exact absurd hm (List.not_mem_nil 6)⟩

/-- Why the unlinking from the source needs a destination which is another
context.  Thread 5 is ready and linked on context 0, which owns it;
`xnsched_migrate` to context 0 itself, in a build without the unlocked switch,
returns with the thread linked on a run queue of context 0, which is the source
context of the call. -/
theorem migrate_to_own_context_stays_linked :
    rq_consistent demo_flags migrating_nucleus 5 ∧
    (migrating_nucleus.threads 5).sched = 0 ∧
    5 ∈ (xnsched_migrate demo_flags (quiet_env run_queues) false migrating_nucleus 5 0).2.runq
      0 1 :=
  ⟨migrating_nucleus_consistent, rfl, by decide⟩

/-- C21: in a build without the unlocked switch,
`xnsched_migrate(thread, dst)` returns with the thread owned by `dst`, marked
`XNREADY`, linked exactly once on the run queue of its class on `dst` and on
no other run queue (so on no queue of the source context, `dst` being another
context than the source), not marked `XNMIGRATE`, and with a reschedule
requested on `dst`.
(Before the call the thread is linked as its `XNREADY` flag tells and is not
marked `XNMIGRATE`; the flag masks do not overlap; the class hook leaves run
queues and state words alone.) -/
theorem migrate_locked_enqueues_on_destination (f : xn_flags) (x : ext_env run_queues)
    (hf : migrate_flags_disjoint f) (hx : ext_keeps_queues x)
    (w : nucleus run_queues) (thread : ThreadPtr) (dst : SchedPtr)
    (hcons : rq_consistent f w thread)
    (hm : (w.threads thread).state &&& f.XNMIGRATE = 0) :
    ((xnsched_migrate f x false w thread dst).2.threads thread).sched = dst ∧
    ((xnsched_migrate f x false w thread dst).2.threads thread).state &&& f.XNREADY
      = f.XNREADY ∧
    ((xnsched_migrate f x false w thread dst).2.runq dst
      ((xnsched_migrate f x false w thread dst).2.threads thread).sched_class).count thread
      = 1 ∧
    (∀ s c, thread ∈ (xnsched_migrate f x false w thread dst).2.runq s c →
      s = dst ∧ c = ((xnsched_migrate f x false w thread dst).2.threads thread).sched_class) ∧
    ((w.threads thread).sched ≠ dst →
      ∀ c, thread ∉ (xnsched_migrate f x false w thread dst).2.runq (w.threads thread).sched c) ∧
    ((xnsched_migrate f x false w thread dst).2.threads thread).state &&& f.XNMIGRATE = 0 ∧
    ((xnsched_migrate f x false w thread dst).2.scheds dst).status &&& f.XNRESCHED
      = f.XNRESCHED := by
  obtain ⟨p1, p2, p3, p4, _⟩ := migrate_common_post f x hx w thread dst hcons
  obtain ⟨q1, q2, q3, q4, _⟩ :=
    putback_fresh f (migrate_common f x w thread dst).2 thread p2 p4
  rw [migrate_locked_eq]
  simp only
  rw [p1] at q2 q3 q4
  have hcls : ((xnsched_putback f (migrate_common f x w thread dst).2 thread).threads
      thread).sched_class = ((migrate_common f x w thread dst).2.threads thread).sched_class := by
    rw [q1]
  rw [hcls]
  refine ⟨?_, ?_, q2, q3, ?_, ?_, q4⟩
  · rw [q1]; exact p1
  · rw [q1]; exact or_and_self_right _ _
  · intro hne c hmem
    exact hne (q3 _ c hmem).1
  · rw [q1]
    simp only
    rw [or_and_disjoint (and_comm_zero hf.1), p3 _ (and_comm_zero hf.1)]
    exact hm

theorem migrate_locked_enqueues_on_destination_witness :
    ((xnsched_migrate demo_flags (quiet_env run_queues) false migrating_nucleus 5 1).2.threads
      5).sched = 1 ∧
    ((xnsched_migrate demo_flags (quiet_env run_queues) false migrating_nucleus 5 1).2.threads
      5).state &&& demo_flags.XNREADY = demo_flags.XNREADY ∧
    ((xnsched_migrate demo_flags (quiet_env run_queues) false migrating_nucleus 5 1).2.runq 1
      ((xnsched_migrate demo_flags (quiet_env run_queues) false migrating_nucleus 5
        1).2.threads 5).sched_class).count 5 = 1 ∧
    (∀ c, 5 ∉ (xnsched_migrate demo_flags (quiet_env run_queues) false migrating_nucleus 5
      1).2.runq 0 c) :=
  ⟨(migrate_locked_enqueues_on_destination demo_flags (quiet_env run_queues)
      demo_flags_disjoint quiet_env_keeps_queues migrating_nucleus 5 1
      migrating_nucleus_consistent (by decide)).1,
    (migrate_locked_enqueues_on_destination demo_flags (quiet_env run_queues)
      demo_flags_disjoint quiet_env_keeps_queues migrating_nucleus 5 1
      migrating_nucleus_consistent (by decide)).2.1,
    (migrate_locked_enqueues_on_destination demo_flags (quiet_env run_queues)
      demo_flags_disjoint quiet_env_keeps_queues migrating_nucleus 5 1
      migrating_nucleus_consistent (by decide)).2.2.1,
    (migrate_locked_enqueues_on_destination demo_flags (quiet_env run_queues)
      demo_flags_disjoint quiet_env_keeps_queues migrating_nucleus 5 1
      migrating_nucleus_consistent (by decide)).2.2.2.2.1 (by decide)⟩
theorem migrate_passive_unblocked (f : xn_flags) (x : ext_env run_queues)
    (w : nucleus run_queues) (thread : ThreadPtr) (dst : SchedPtr)
    (h : ((migrate_common f x w thread dst).2.threads thread).state
      &&& f.XNTHREAD_BLOCK_BITS = 0) :
    (xnsched_migrate_passive f x w thread dst).2 =
      xnthread_set_state (xnsched_requeue (migrate_common f x w thread dst).2 thread)
        thread f.XNREADY := by
  rw [migrate_passive_eq, test_state_false_of_and_eq_zero _ thread _ h]
  rfl

theorem migrate_passive_blocked (f : xn_flags) (x : ext_env run_queues)
    (w : nucleus run_queues) (thread : ThreadPtr) (dst : SchedPtr)
    (h : ((migrate_common f x w thread dst).2.threads thread).state
      &&& f.XNTHREAD_BLOCK_BITS ≠ 0) :
    (xnsched_migrate_passive f x w thread dst).2 = (migrate_common f x w thread dst).2 := by
  rw [migrate_passive_eq, test_state_true_of_and_ne_zero _ thread _ h]
  rfl

/-- C22: `xnsched_migrate_passive(thread, dst)` returns with the thread owned
by `dst` and its `XNMIGRATE` flag as it was before the call.  When the thread
carries no blocking bit it is marked `XNREADY` and linked once, on the run
queue of its class on `dst`, and nowhere else; when it carries a blocking bit
it is linked on no run queue and `XNREADY` is clear; so it is linked on a run
queue on return exactly when it carries no blocking bit.  (Before the call the
thread is linked as its `XNREADY` flag tells; `XNREADY` overlaps neither
`XNMIGRATE` nor the blocking bits; the class hook leaves run queues and state
words alone.) -/
theorem migrate_passive_enqueues_iff_unblocked (f : xn_flags) (x : ext_env run_queues)
    (hrm : f.XNREADY &&& f.XNMIGRATE = 0) (hrb : f.XNREADY &&& f.XNTHREAD_BLOCK_BITS = 0)
    (hx : ext_keeps_queues x)
    (w : nucleus run_queues) (thread : ThreadPtr) (dst : SchedPtr)
    (hcons : rq_consistent f w thread) :
    ((xnsched_migrate_passive f x w thread dst).2.threads thread).sched = dst ∧
    ((xnsched_migrate_passive f x w thread dst).2.threads thread).state &&& f.XNMIGRATE
      = (w.threads thread).state &&& f.XNMIGRATE ∧
    ((w.threads thread).state &&& f.XNTHREAD_BLOCK_BITS = 0 →
      ((xnsched_migrate_passive f x w thread dst).2.threads thread).state &&& f.XNREADY
        = f.XNREADY ∧
      ((xnsched_migrate_passive f x w thread dst).2.runq dst
        ((xnsched_migrate_passive f x w thread dst).2.threads thread).sched_class).count thread
        = 1 ∧
      ∀ s c, thread ∈ (xnsched_migrate_passive f x w thread dst).2.runq s c →
        s = dst ∧
        c = ((xnsched_migrate_passive f x w thread dst).2.threads thread).sched_class) ∧
    ((w.threads thread).state &&& f.XNTHREAD_BLOCK_BITS ≠ 0 →
      ((xnsched_migrate_passive f x w thread dst).2.threads thread).state &&& f.XNREADY = 0 ∧
      ¬ rq_linked (xnsched_migrate_passive f x w thread dst).2 thread) ∧
    (rq_linked (xnsched_migrate_passive f x w thread dst).2 thread ↔
      (w.threads thread).state &&& f.XNTHREAD_BLOCK_BITS = 0) := by
  obtain ⟨p1, p2, p3, p4, _⟩ := migrate_common_post f x hx w thread dst hcons
  have hb := p3 _ (and_comm_zero hrb)
  have hmig := p3 _ (and_comm_zero hrm)
  by_cases hblk : (w.threads thread).state &&& f.XNTHREAD_BLOCK_BITS = 0
  · obtain ⟨q1, q2, q3, _⟩ := requeue_fresh f (migrate_common f x w thread dst).2 thread p4
    rw [migrate_passive_unblocked f x w thread dst (by rw [hb]; exact hblk)]
    rw [p1] at q2 q3
    have hcls : ((xnthread_set_state (xnsched_requeue (migrate_common f x w thread dst).2
        thread) thread f.XNREADY).threads thread).sched_class
        = ((migrate_common f x w thread dst).2.threads thread).sched_class := by
      rw [q1]
    rw [hcls]
    refine ⟨?_, ?_, fun _ => ⟨?_, q2, q3⟩, fun h => absurd hblk h, ?_⟩
    · rw [q1]; exact p1
    · rw [q1]
      simp only
      rw [or_and_disjoint (and_comm_zero hrm)]
      exact hmig
    · rw [q1]; exact or_and_self_right _ _
    · refine ⟨fun _ => hblk, fun _ =>
        ⟨dst, ((migrate_common f x w thread dst).2.threads thread).sched_class, ?_⟩⟩
      rw [← List.count_pos_iff, q2]
      exact Nat.one_pos
  · rw [migrate_passive_blocked f x w thread dst (by rw [hb]; exact hblk)]
    have hnl : ¬ rq_linked (migrate_common f x w thread dst).2 thread := by
      rintro ⟨s, c, hmem⟩
      exact p4 s c hmem
    exact ⟨p1, hmig, fun h => absurd h hblk, fun _ => ⟨p2, hnl⟩,
      fun h => absurd h hnl, fun h => absurd h hblk⟩

theorem migrate_passive_enqueues_iff_unblocked_witness :
    (((xnsched_migrate_passive demo_flags (quiet_env run_queues) blocked_nucleus 6 1).2.threads
        6).sched = 1 ∧
      ((xnsched_migrate_passive demo_flags (quiet_env run_queues) blocked_nucleus 6
        1).2.threads 6).state &&& demo_flags.XNREADY = 0 ∧
      ¬ rq_linked (xnsched_migrate_passive demo_flags (quiet_env run_queues) blocked_nucleus 6
        1).2 6) ∧
    ((xnsched_migrate_passive demo_flags (quiet_env run_queues) migrating_nucleus 5 1).2.runq 1
      ((xnsched_migrate_passive demo_flags (quiet_env run_queues) migrating_nucleus 5
        1).2.threads 5).sched_class).count 5 = 1 :=
  ⟨⟨(migrate_passive_enqueues_iff_unblocked demo_flags (quiet_env run_queues) (by decide)
        (by decide) quiet_env_keeps_queues blocked_nucleus 6 1 blocked_nucleus_consistent).1,
      ((migrate_passive_enqueues_iff_unblocked demo_flags (quiet_env run_queues) (by decide)
        (by decide) quiet_env_keeps_queues blocked_nucleus 6 1
        blocked_nucleus_consistent).2.2.2.1 (by decide)).1,
      ((migrate_passive_enqueues_iff_unblocked demo_flags (quiet_env run_queues) (by decide)
        (by decide) quiet_env_keeps_queues blocked_nucleus 6 1
        blocked_nucleus_consistent).2.2.2.1 (by decide)).2⟩,
    ((migrate_passive_enqueues_iff_unblocked demo_flags (quiet_env run_queues) (by decide)
      (by decide) quiet_env_keeps_queues migrating_nucleus 5 1
      migrating_nucleus_consistent).2.2.1 (by decide)).2.1⟩

/-- Why the unlinking from the source needs a destination which is another
context.  Thread 5 carries no blocking bit and is owned by context 0;
`xnsched_migrate_passive` to context 0 itself returns with the thread linked on
a run queue of context 0, which is the source context of the call. -/
theorem migrate_passive_to_own_context_stays_linked :
    rq_consistent demo_flags migrating_nucleus 5 ∧
    (migrating_nucleus.threads 5).sched = 0 ∧
    5 ∈ (xnsched_migrate_passive demo_flags (quiet_env run_queues) migrating_nucleus 5
      0).2.runq 0 1 :=
  ⟨migrating_nucleus_consistent, rfl, by decide⟩

/-- C23: for every thread and every destination, `xnsched_migrate` (in both
builds) and `xnsched_migrate_passive` return with a reschedule requested on the
source context, the context which owned the thread when the call was made; in
the build with the unlocked switch `xnsched_migrate` leaves the thread on no
run queue at all, and for a destination which is another context than the
source (a migration) the thread is linked on no run queue of the source when
`xnsched_migrate` without the unlocked switch and `xnsched_migrate_passive`
return.  (Before the call the thread is linked as its `XNREADY` flag tells; the
class hook leaves run queues, state words and owners alone.) -/
theorem migrate_requests_resched_on_source (f : xn_flags) (x : ext_env run_queues)
    (hx : ext_keeps_queues x) (ho : ext_keeps_owner x)
    (w : nucleus run_queues) (thread : ThreadPtr) (dst : SchedPtr)
    (hcons : rq_consistent f w thread) :
    (∀ unlocked_switch : Bool,
      ((xnsched_migrate f x unlocked_switch w thread dst).2.scheds
        (w.threads thread).sched).status &&& f.XNRESCHED = f.XNRESCHED) ∧
    ((xnsched_migrate_passive f x w thread dst).2.scheds
        (w.threads thread).sched).status &&& f.XNRESCHED = f.XNRESCHED ∧
    (∀ c, thread ∉ (xnsched_migrate f x true w thread dst).2.runq (w.threads thread).sched c) ∧
    (dst ≠ (w.threads thread).sched →
      (∀ c, thread ∉
        (xnsched_migrate f x false w thread dst).2.runq (w.threads thread).sched c) ∧
      ∀ c, thread ∉
        (xnsched_migrate_passive f x w thread dst).2.runq (w.threads thread).sched c) := by
  obtain ⟨p1, p2, p3, p4, p5⟩ := migrate_common_post f x hx w thread dst hcons
  have hres := p5 ho
  refine ⟨?_, ?_, ?_, fun hne => ⟨?_, ?_⟩⟩
  · intro b
    cases b
    · obtain ⟨_, _, _, _, q5⟩ :=
        putback_fresh f (migrate_common f x w thread dst).2 thread p2 p4
      rw [migrate_locked_eq]
      exact q5 _ hres
    · rw [migrate_unlocked_eq]
      exact hres
  · by_cases hblk : ((migrate_common f x w thread dst).2.threads thread).state
        &&& f.XNTHREAD_BLOCK_BITS = 0
    · rw [migrate_passive_unblocked f x w thread dst hblk,
        (requeue_fresh f (migrate_common f x w thread dst).2 thread p4).2.2.2]
      exact hres
    · rw [migrate_passive_blocked f x w thread dst hblk]
      exact hres
  · intro c hmem
    rw [migrate_unlocked_eq] at hmem
    exact p4 _ c hmem
  · intro c hmem
    obtain ⟨_, _, q3, _, _⟩ :=
      putback_fresh f (migrate_common f x w thread dst).2 thread p2 p4
    rw [migrate_locked_eq] at hmem
    rw [p1] at q3
    exact hne (q3 _ c hmem).1.symm
  · intro c hmem
    by_cases hblk : ((migrate_common f x w thread dst).2.threads thread).state
        &&& f.XNTHREAD_BLOCK_BITS = 0
    · rw [migrate_passive_unblocked f x w thread dst hblk] at hmem
      have q3 := (requeue_fresh f (migrate_common f x w thread dst).2 thread p4).2.2.1
      rw [p1] at q3
      exact hne (q3 _ c hmem).1.symm
    · rw [migrate_passive_blocked f x w thread dst hblk] at hmem
      exact p4 _ c hmem

theorem migrate_requests_resched_on_source_witness :
    ((xnsched_migrate demo_flags (quiet_env run_queues) false migrating_nucleus 5 1).2.scheds
      0).status &&& demo_flags.XNRESCHED = demo_flags.XNRESCHED ∧
    ((xnsched_migrate_passive demo_flags (quiet_env run_queues) migrating_nucleus 5
      1).2.scheds 0).status &&& demo_flags.XNRESCHED = demo_flags.XNRESCHED ∧
    ∀ c, 5 ∉ (xnsched_migrate_passive demo_flags (quiet_env run_queues) migrating_nucleus 5
      1).2.runq 0 c :=
  ⟨(migrate_requests_resched_on_source demo_flags (quiet_env run_queues)
      quiet_env_keeps_queues quiet_env_keeps_owner migrating_nucleus 5 1
      migrating_nucleus_consistent).1 false,
    (migrate_requests_resched_on_source demo_flags (quiet_env run_queues)
      quiet_env_keeps_queues quiet_env_keeps_owner migrating_nucleus 5 1
      migrating_nucleus_consistent).2.1,
    ((migrate_requests_resched_on_source demo_flags (quiet_env run_queues)
      quiet_env_keeps_queues quiet_env_keeps_owner migrating_nucleus 5 1
      migrating_nucleus_consistent).2.2.2 (by decide)).2⟩

/-! ## Claims on the scheduling policy of a thread -/

theorem set_policy_declare_code {P : Type} (e : policy_env P) (w : nucleus run_queues)
    (thread : ThreadPtr) (sched_class : ClassPtr) (p : P) (ret : Int)
    (h : (set_policy_declare e w thread sched_class p).1 = some ret) : ret ≠ 0 := by
  unfold set_policy_declare at h
  by_cases h1 : (some sched_class != (w.threads thread).base_class) = true
  · by_cases h2 : e.has_sched_declare sched_class = true
    · by_cases h3 : ((e.sched_declare sched_class thread p w).1 != 0) = true
      · simp only [h1, h2, h3, if_true, Option.some.injEq] at h
        rw [← h]
        simpa using h3
      · simp [h1, h2, h3] at h
    · simp [h1, h2] at h
  · simp [h1] at h

theorem set_policy_code {P : Type} (f : xn_flags) (x : ext_env run_queues) (e : policy_env P)
    (w : nucleus run_queues) (thread : ThreadPtr) (sched_class : ClassPtr) (p : P) :
    (∀ ret, (set_policy_declare e w thread sched_class p).1 = some ret →
      xnsched_set_policy f x e w thread sched_class p =
        (ret, (set_policy_declare e w thread sched_class p).2.1,
          (set_policy_declare e w thread sched_class p).2.2)) ∧
    ((set_policy_declare e w thread sched_class p).1 = none →
      xnsched_set_policy f x e w thread sched_class p =
        (0, (set_policy_declare e w thread sched_class p).2.1 ++
            (set_policy_apply f x e (set_policy_declare e w thread sched_class p).2.2 thread
              sched_class p).1,
          (set_policy_apply f x e (set_policy_declare e w thread sched_class p).2.2 thread
            sched_class p).2)) := by
  unfold xnsched_set_policy
  rcases hd : set_policy_declare e w thread sched_class p with ⟨c, calls, w1⟩
  cases c with
  | none => exact ⟨fun ret h => absurd h (by simp), fun _ => rfl⟩
  | some r =>
    refine ⟨fun ret h => ?_, fun h => absurd h (by simp)⟩
    simp only [Option.some.injEq] at h
    rw [h]

theorem set_policy_apply_fields {P : Type} (f : xn_flags) (x : ext_env run_queues)
    (e : policy_env P) (hs : setparam_keeps_class e)
    (w : nucleus run_queues) (thread : ThreadPtr) (sched_class : ClassPtr) (p : P) :
    ((set_policy_apply f x e w thread sched_class p).2.threads thread).sched_class
      = sched_class ∧
    ((set_policy_apply f x e w thread sched_class p).2.threads thread).base_class
      = some sched_class ∧
    ((set_policy_apply f x e w thread sched_class p).2.threads thread).bprio
      = ((set_policy_apply f x e w thread sched_class p).2.threads thread).cprio ∧
    ((set_policy_apply f x e w thread sched_class p).2.threads thread).wprio
      = ((set_policy_apply f x e w thread sched_class p).2.threads thread).cprio
        + ((set_policy_apply f x e w thread sched_class p).2.registry.classes
            sched_class).weight := by
  unfold set_policy_apply
  simp only
  generalize (if (w.threads thread).base_class != none then
      if (some sched_class !=
          ((if xnthread_test_state w thread f.XNREADY then xnsched_dequeue w thread
            else w).threads thread).base_class) then
        ([ext_call.xnsched_forget thread],
          x.effect (.xnsched_forget thread)
            (if xnthread_test_state w thread f.XNREADY then xnsched_dequeue w thread else w))
      else ([], if xnthread_test_state w thread f.XNREADY then xnsched_dequeue w thread else w)
    else ([], w)) = r
  have h1 := (hs thread thread p ({ r.2 with threads := (Function.update r.2.threads thread
    { r.2.threads thread with sched_class := sched_class,
                              base_class := some sched_class }) })).1
  have h2 := (hs thread thread p ({ r.2 with threads := (Function.update r.2.threads thread
    { r.2.threads thread with sched_class := sched_class,
                              base_class := some sched_class }) })).2
  simp only [Function.update_same] at h1 h2
  generalize e.xnsched_setparam thread p ({ r.2 with threads := (Function.update r.2.threads
    thread { r.2.threads thread with sched_class := sched_class,
                                     base_class := some sched_class }) }) = w3 at h1 h2 ⊢
  refine ⟨?_, ?_, ?_, ?_⟩ <;> split_ifs <;>
    simp [xnsched_set_resched, xnsched_enqueue, h1, h2]

/-- C24: if the requested class differs from the base class of the thread and
its `sched_declare` hook returns a non-zero code, `xnsched_set_policy` returns
exactly that code, calls no other outside code, and returns the state the hook
left, having written nothing itself.  With a hook which changes nothing when
it declines, the whole scheduler state is the state before the call: the
class, base class, priorities and state flags of the thread, the run queues,
the counters `nthreads` of the classes and the status words of the contexts. -/
theorem set_policy_declined_applies_nothing {P : Type} (f : xn_flags)
    (x : ext_env run_queues) (e : policy_env P) (w : nucleus run_queues)
    (thread : ThreadPtr) (sched_class : ClassPtr) (p : P)
    (hd : some sched_class ≠ (w.threads thread).base_class)
    (hh : e.has_sched_declare sched_class = true)
    (hr : (e.sched_declare sched_class thread p w).1 ≠ 0) :
    (xnsched_set_policy f x e w thread sched_class p).1
      = (e.sched_declare sched_class thread p w).1 ∧
    (xnsched_set_policy f x e w thread sched_class p).2.1
      = [.sched_declare sched_class thread] ∧
    (xnsched_set_policy f x e w thread sched_class p).2.2
      = (e.sched_declare sched_class thread p w).2 ∧
    ((e.sched_declare sched_class thread p w).2 = w →
      (xnsched_set_policy f x e w thread sched_class p).2.2 = w) := by
  have hdecl : set_policy_declare e w thread sched_class p =
      (some (e.sched_declare sched_class thread p w).1, [.sched_declare sched_class thread],
        (e.sched_declare sched_class thread p w).2) := by
    unfold set_policy_declare
    have h1 : (some sched_class != (w.threads thread).base_class) = true := by
      simpa using hd
    have h3 : ((e.sched_declare sched_class thread p w).1 != 0) = true := by
      simpa using hr
    simp only [h1, hh, h3, if_true]
  have hres := (set_policy_code f x e w thread sched_class p).1 _
    (by rw [hdecl])
  rw [hres, hdecl]
  exact ⟨rfl, rfl, rfl, fun h => h⟩

/-- C25: whenever `xnsched_set_policy(thread, sched_class, p)` returns 0, the
class and the base class of the thread are both `sched_class`, its base
priority equals its current priority, and its weighted priority equals its
current priority plus the weight of `sched_class`.  (The helper
`xnsched_setparam` leaves the class and base class of the thread alone.) -/
theorem set_policy_success_fields {P : Type} (f : xn_flags) (x : ext_env run_queues)
    (e : policy_env P) (hs : setparam_keeps_class e) (w : nucleus run_queues)
    (thread : ThreadPtr) (sched_class : ClassPtr) (p : P)
    (h0 : (xnsched_set_policy f x e w thread sched_class p).1 = 0) :
    ((xnsched_set_policy f x e w thread sched_class p).2.2.threads thread).sched_class
      = sched_class ∧
    ((xnsched_set_policy f x e w thread sched_class p).2.2.threads thread).base_class
      = some sched_class ∧
    ((xnsched_set_policy f x e w thread sched_class p).2.2.threads thread).bprio
      = ((xnsched_set_policy f x e w thread sched_class p).2.2.threads thread).cprio ∧
    ((xnsched_set_policy f x e w thread sched_class p).2.2.threads thread).wprio
      = ((xnsched_set_policy f x e w thread sched_class p).2.2.threads thread).cprio
        + ((xnsched_set_policy f x e w thread sched_class p).2.2.registry.classes
            sched_class).weight := by
  cases hc : (set_policy_declare e w thread sched_class p).1 with
  | some ret =>
    have hne := set_policy_declare_code e w thread sched_class p ret hc
    rw [(set_policy_code f x e w thread sched_class p).1 ret hc] at h0
    exact absurd h0 hne
  | none =>
    rw [(set_policy_code f x e w thread sched_class p).2 hc]
    exact set_policy_apply_fields f x e hs _ thread sched_class p
theorem demo_policy_setparam_keeps : setparam_keeps_class demo_policy := by
  intro t u p w
  by_cases h : u = t
  · subst h
    simp [demo_policy]
  · simp [demo_policy, Function.update_noteq h]

theorem demo_policy_trackprio_keeps : trackprio_keeps_class demo_policy := by
  intro t u p w
  by_cases h : u = t
  · subst h
    simp [demo_policy]
  · simp [demo_policy, Function.update_noteq h]

theorem set_policy_declined_applies_nothing_witness :
    (xnsched_set_policy demo_flags (quiet_env run_queues) demo_policy migrating_nucleus
      5 2 120).1 = -22 ∧
    (xnsched_set_policy demo_flags (quiet_env run_queues) demo_policy migrating_nucleus
      5 2 120).2.2 = migrating_nucleus :=
  ⟨(set_policy_declined_applies_nothing demo_flags (quiet_env run_queues) demo_policy
      migrating_nucleus 5 2 120 (by decide) rfl (by decide)).1,
    (set_policy_declined_applies_nothing demo_flags (quiet_env run_queues) demo_policy
      migrating_nucleus 5 2 120 (by decide) rfl (by decide)).2.2.2 rfl⟩

theorem set_policy_success_fields_witness :
    ((xnsched_set_policy demo_flags (quiet_env run_queues) demo_policy migrating_nucleus
      5 2 50).2.2.threads 5).sched_class = 2 ∧
    ((xnsched_set_policy demo_flags (quiet_env run_queues) demo_policy migrating_nucleus
      5 2 50).2.2.threads 5).base_class = some 2 ∧
    ((xnsched_set_policy demo_flags (quiet_env run_queues) demo_policy migrating_nucleus
      5 2 50).2.2.threads 5).bprio
      = ((xnsched_set_policy demo_flags (quiet_env run_queues) demo_policy migrating_nucleus
        5 2 50).2.2.threads 5).cprio ∧
    ((xnsched_set_policy demo_flags (quiet_env run_queues) demo_policy migrating_nucleus
      5 2 50).2.2.threads 5).wprio
      = ((xnsched_set_policy demo_flags (quiet_env run_queues) demo_policy migrating_nucleus
        5 2 50).2.2.threads 5).cprio
        + ((xnsched_set_policy demo_flags (quiet_env run_queues) demo_policy migrating_nucleus
          5 2 50).2.2.registry.classes 2).weight :=
  set_policy_success_fields demo_flags (quiet_env run_queues) demo_policy
    demo_policy_setparam_keeps migrating_nucleus 5 2 50 (by decide)

theorem track_policy_unfold_self {P : Type} (f : xn_flags) (e : policy_env P)
    (w : nucleus run_queues) (thread : ThreadPtr)
    (w1 w2 w3 w4 : nucleus run_queues)
    (hw1 : w1 = if xnthread_test_state w thread f.XNREADY then xnsched_dequeue w thread else w)
    (hw2 : w2 = { w1 with threads := (Function.update w1.threads thread
      { w1.threads thread with
        sched_class := ((w1.threads thread).base_class).getD NULL }) })
    (hw3 : w3 = e.xnsched_trackprio thread none w2)
    (hw4 : w4 = if xnthread_test_state w3 thread f.XNREADY then xnsched_enqueue w3 thread
      else w3) :
    xnsched_track_policy f e w thread thread =
      (.ok [.xnsched_trackprio thread none],
        xnsched_set_resched f w4 (w4.threads thread).sched) := by
  subst hw4 hw3 hw2
  unfold xnsched_track_policy
  simp only [if_true]
  rw [← hw1]

theorem track_policy_unfold_other {P : Type} (f : xn_flags) (e : policy_env P)
    (w : nucleus run_queues) (thread target : ThreadPtr) (hne : target ≠ thread)
    (w1 w2 w3 w4 : nucleus run_queues)
    (hw1 : w1 = if xnthread_test_state w thread f.XNREADY then xnsched_dequeue w thread else w)
    (hw2 : w2 = { w1 with threads := (Function.update w1.threads thread
      { w1.threads thread with sched_class := (w1.threads target).sched_class }) })
    (hw3 : w3 = e.xnsched_trackprio thread (some (e.xnsched_getparam target w1)) w2)
    (hw4 : w4 = if xnthread_test_state w3 thread f.XNREADY then xnsched_enqueue w3 thread
      else w3) :
    xnsched_track_policy f e w thread target =
      (.ok [.xnsched_getparam target, .xnsched_trackprio thread (some target)],
        xnsched_set_resched f w4 (w4.threads thread).sched) := by
  subst hw4 hw3 hw2
  unfold xnsched_track_policy
  simp only [hne, if_false]
  rw [← hw1]

/-- C26: `xnsched_track_policy(thread, target)` makes the base class of the
thread its current class when `target` is the thread itself, and the current
class of `target` otherwise; in both cases the base class and the state word
of the thread (its `XNREADY` flag with it) are unchanged, and a reschedule is
requested on the context which owns the thread.  (A self-targeted call needs a
thread which has a base class; the helper `xnsched_trackprio` leaves classes,
state words and owners alone.) -/
theorem track_policy_sets_class {P : Type} (f : xn_flags) (e : policy_env P)
    (ht : trackprio_keeps_class e) (w : nucleus run_queues) (thread target : ThreadPtr)
    (hb : target = thread → (w.threads thread).base_class ≠ none) :
    (∃ calls, (xnsched_track_policy f e w thread target).1 = .ok calls) ∧
    (target = thread →
      some ((xnsched_track_policy f e w thread target).2.threads thread).sched_class
        = (w.threads thread).base_class) ∧
    (target ≠ thread →
      ((xnsched_track_policy f e w thread target).2.threads thread).sched_class
        = (w.threads target).sched_class) ∧
    ((xnsched_track_policy f e w thread target).2.threads thread).base_class
      = (w.threads thread).base_class ∧
    ((xnsched_track_policy f e w thread target).2.threads thread).state
      = (w.threads thread).state ∧
    ((xnsched_track_policy f e w thread target).2.scheds (w.threads thread).sched).status
      &&& f.XNRESCHED = f.XNRESCHED := by
  obtain ⟨w1, hw1⟩ : ∃ w1 : nucleus run_queues,
      w1 = (if xnthread_test_state w thread f.XNREADY then xnsched_dequeue w thread else w) :=
    ⟨_, rfl⟩
  have hth : w1.threads = w.threads := by
    rw [hw1]; split_ifs <;> simp [xnsched_dequeue]
  have fin : ∀ (c : ClassPtr) (w2 w3 w4 : nucleus run_queues),
      w2 = { w1 with threads := (Function.update w1.threads thread
        { w1.threads thread with sched_class := c }) } →
      (∃ p, w3 = e.xnsched_trackprio thread p w2) →
      w4 = (if xnthread_test_state w3 thread f.XNREADY then xnsched_enqueue w3 thread
        else w3) →
      ((xnsched_set_resched f w4 (w4.threads thread).sched).threads thread).sched_class = c ∧
      ((xnsched_set_resched f w4 (w4.threads thread).sched).threads thread).base_class
        = (w.threads thread).base_class ∧
      ((xnsched_set_resched f w4 (w4.threads thread).sched).threads thread).state
        = (w.threads thread).state ∧
      ((xnsched_set_resched f w4 (w4.threads thread).sched).scheds
        (w.threads thread).sched).status &&& f.XNRESCHED = f.XNRESCHED := by
    intro c w2 w3 w4 hw2 hw3 hw4
    obtain ⟨p, hw3⟩ := hw3
    have h2 : w2.threads thread = { w1.threads thread with sched_class := c } := by
      rw [hw2]; simp
    obtain ⟨k1, k2, k3, k4⟩ := ht thread thread p w2
    rw [← hw3, h2] at k1 k2 k3 k4
    simp only at k1 k2 k3 k4
    have h4 : w4.threads = w3.threads := by
      rw [hw4]; split_ifs <;> simp [xnsched_enqueue]
    have h5 : (xnsched_set_resched f w4 (w4.threads thread).sched).threads = w3.threads := by
      rw [← h4]; rfl
    rw [h5, k1, k2, k3, hth]
    refine ⟨rfl, rfl, rfl, ?_⟩
    rw [h4, k4, hth]
    simp only [xnsched_set_resched, Function.update_same]
    exact or_and_self_right _ _
  by_cases hself : target = thread
  · subst hself
    have hbase := hb rfl
    rw [← hth] at hbase
    obtain ⟨b, hbc⟩ := Option.ne_none_iff_exists'.mp hbase
    rw [track_policy_unfold_self f e w target w1 _ _ _ hw1 rfl rfl rfl]
    obtain ⟨r1, r2, r3, r4⟩ := fin (((w1.threads target).base_class).getD NULL) _ _ _ rfl
      ⟨none, rfl⟩ rfl
    refine ⟨⟨_, rfl⟩, fun _ => ?_, fun h => absurd rfl h, r2, r3, r4⟩
    rw [r1, ← hth, hbc]
    rfl
  · rw [track_policy_unfold_other f e w thread target hself w1 _ _ _ hw1 rfl rfl rfl]
    obtain ⟨r1, r2, r3, r4⟩ := fin (w1.threads target).sched_class _ _ _ rfl
      ⟨some (e.xnsched_getparam target w1), rfl⟩ rfl
    refine ⟨⟨_, rfl⟩, fun h => absurd h hself, fun _ => ?_, r2, r3, r4⟩
    rw [r1, hth]

theorem track_policy_sets_class_witness :
    ((xnsched_track_policy demo_flags demo_policy blocked_nucleus 5 6).2.threads 5).sched_class
      = (blocked_nucleus.threads 6).sched_class ∧
    ((xnsched_track_policy demo_flags demo_policy blocked_nucleus 5 5).2.scheds
      (blocked_nucleus.threads 5).sched).status &&& demo_flags.XNRESCHED
      = demo_flags.XNRESCHED :=
  ⟨(track_policy_sets_class demo_flags demo_policy demo_policy_trackprio_keeps
      blocked_nucleus 5 6 (fun h => absurd h (by decide))).2.2.1 (by decide),
    (track_policy_sets_class demo_flags demo_policy demo_policy_trackprio_keeps
      blocked_nucleus 5 5 (fun _ => by decide)).2.2.2.2.2⟩

/-! ## Claims on the introspection steps -/

/-- C27, as the claim is worded: a counterexample.  Thread 5 has
`stat.account.total` 700 and `stat.lastperiod.total` 0, and its context has
`last_account_switch` 900; the call of `vfile_schedstat_next` which visits it
returns 1 and leaves `stat.lastperiod.total` 700 and `stat.lastperiod.start`
900 in the thread: two fields of the thread are modified. -/
theorem schedstat_next_writes_lastperiod :
    (demo_pod.stat 5).lastperiod_total = 0 ∧ (demo_pod.stat 5).lastperiod_start = 0 ∧
    (vfile_schedstat_next (demo_vfile_env run_queues) demo_pod
      { irq := 0, curr := some 5, intr_it := ⟨0, 0, 0, 0, 0⟩ }
      ⟨0, 0, 0, "", 0, 0, 0, 0, 0, 0, 0, 0, 0, 0⟩).ret = 1 ∧
    ((vfile_schedstat_next (demo_vfile_env run_queues) demo_pod
      { irq := 0, curr := some 5, intr_it := ⟨0, 0, 0, 0, 0⟩ }
      ⟨0, 0, 0, "", 0, 0, 0, 0, 0, 0, 0, 0, 0, 0⟩).pod.stat 5).lastperiod_total = 700 ∧
    ((vfile_schedstat_next (demo_vfile_env run_queues) demo_pod
      { irq := 0, curr := some 5, intr_it := ⟨0, 0, 0, 0, 0⟩ }
      ⟨0, 0, 0, "", 0, 0, 0, 0, 0, 0, 0, 0, 0, 0⟩).pod.stat 5).lastperiod_start = 900 := by
  refine ⟨rfl, rfl, rfl, rfl, rfl⟩

/-- C27, amended: `vfile_schedlist_next` is read-only over the scheduler
state: it returns the state it was given.  `vfile_schedstat_next` modifies no
field of a scheduler context and, of the thread it visits, only
`stat.lastperiod`: it stores `stat.account.total` into `stat.lastperiod.total`
and the `last_account_switch` of the owning context into
`stat.lastperiod.start`; the other fields of that thread, all the other
threads, and the thread list are as they were.  (The accessors called are
taken to read the state only.) -/
theorem vfile_next_frame {RQ : Type} (v : vfile_env RQ) (w : pod_state RQ) :
    (∀ (priv : vfile_schedlist_priv) (p : vfile_schedlist_data),
      (vfile_schedlist_next v w priv p).2.2.2 = w) ∧
    (∀ (priv : vfile_schedstat_priv) (p : vfile_schedstat_data),
      (vfile_schedstat_next v w priv p).pod.core = w.core ∧
      (vfile_schedstat_next v w priv p).pod.last_account_switch = w.last_account_switch ∧
      (vfile_schedstat_next v w priv p).pod.threadq = w.threadq ∧
      (∀ t, priv.curr ≠ some t → (vfile_schedstat_next v w priv p).pod.stat t = w.stat t) ∧
      (∀ t, priv.curr = some t →
        (vfile_schedstat_next v w priv p).ret = 1 ∧
        (vfile_schedstat_next v w priv p).pod.stat t =
          { w.stat t with
            lastperiod_total := (w.stat t).account_total
            lastperiod_start := w.last_account_switch (w.core.threads t).sched })) := by
  constructor
  · intro priv p
    unfold vfile_schedlist_next
    cases priv.curr <;> rfl
  · intro priv p
    unfold vfile_schedstat_next
    cases hc : priv.curr with
    | none =>
      simp only
      split_ifs <;> exact ⟨rfl, rfl, rfl, fun _ _ => rfl, fun t h => absurd h (by simp)⟩
    | some thread =>
      simp only
      refine ⟨trivial, trivial, trivial, ?_, ?_⟩
      · intro t ht
        have hne : t ≠ thread := fun h => ht (by rw [h])
        rw [Function.update_noteq hne, Function.update_noteq hne]
      · intro t ht
        simp only [Option.some.injEq] at ht
        subst ht
        simp [Function.update_same]
/-! ## Claims on the POSIX clock services -/

theorem ns2ts_one : ns2ts 1 = { tv_sec := 0, tv_nsec := 1 } := by decide

theorem ns2ts_nonneg (nsecs : Nat) :
    0 ≤ (ns2ts nsecs).tv_sec ∧ 0 ≤ (ns2ts nsecs).tv_nsec ∧
      (ns2ts nsecs).tv_nsec < 1000000000 := by
  unfold ns2ts ONE_BILLION
  simp only
  omega

theorem ulong_cast_neg (k : clock_consts) (hbits : 32 ≤ k.BITS_PER_LONG) (v : Int)
    (hlo : -(2 ^ (k.BITS_PER_LONG - 1)) ≤ v) (hneg : v < 0) :
    ulong_cast k v ≥ 1000000000 := by
  unfold ulong_cast
  obtain ⟨b, hb⟩ : ∃ b, k.BITS_PER_LONG = b + 32 := ⟨k.BITS_PER_LONG - 32, by omega⟩
  rw [hb] at hlo ⊢
  have e1 : b + 32 - 1 = b + 31 := by omega
  rw [e1] at hlo
  have hp : (1 : Int) ≤ 2 ^ b := by
    have : (0 : Int) < 2 ^ b := by positivity
    omega
  have h31 : (2 : Int) ^ (b + 31) = 2 ^ b * 2147483648 := by
    rw [pow_add]; norm_num
  have h32 : (2 : Int) ^ (b + 32) = 2 ^ b * 4294967296 := by
    rw [pow_add]; norm_num
  have hmod : v % 2 ^ (b + 32) = v + 2 ^ (b + 32) := by
    rw [← Int.add_emod_self]
    apply Int.emod_eq_of_lt
    · rw [h32]; rw [h31] at hlo; nlinarith
    · omega
  rw [hmod, h32]
  rw [h31] at hlo
  have : (1000000000 : Int) ≤ v + 2 ^ b * 4294967296 := by nlinarith
  omega

theorem xnsticks_cast_sub (tp : timespec) (now : Nat) (hnow : now < 2 ^ 64)
    (hlo : -(2 ^ 63) ≤ tp.tv_sec * 1000000000 + tp.tv_nsec - (now : Int))
    (hhi : tp.tv_sec * 1000000000 + tp.tv_nsec - (now : Int) < 2 ^ 63) :
    xnsticks_cast (xnticks_sub (ts2ns tp) now)
      = tp.tv_sec * 1000000000 + tp.tv_nsec - (now : Int) := by
  unfold xnsticks_cast xnticks_sub ts2ns ONE_BILLION
  simp only [Nat.cast_ofNat]
  generalize tp.tv_sec * 1000000000 + tp.tv_nsec = d at *
  omega
/-- C28: `clock_getres` returns 0 exactly for `CLOCK_REALTIME`,
`CLOCK_MONOTONIC` and `CLOCK_MONOTONIC_RAW`; it then stores the resolution of
one nanosecond (0 s, 1 ns) at `res` when `res` is not NULL and leaves the error
number alone.  For every other clock identifier it returns -1, sets the error
number to `EINVAL` and stores nothing. -/
theorem clock_getres_result (k : clock_consts) (clock_id : Int) (res : Option timespec)
    (errno : Int) :
    ((clock_getres k clock_id res errno).1 = 0 ↔
      (clock_id = k.CLOCK_REALTIME ∨ clock_id = k.CLOCK_MONOTONIC ∨
        clock_id = k.CLOCK_MONOTONIC_RAW)) ∧
    ((clock_id = k.CLOCK_REALTIME ∨ clock_id = k.CLOCK_MONOTONIC ∨
        clock_id = k.CLOCK_MONOTONIC_RAW) →
      clock_getres k clock_id res errno =
        (0, res.map (fun _ => { tv_sec := 0, tv_nsec := 1 }), errno)) ∧
    (¬ (clock_id = k.CLOCK_REALTIME ∨ clock_id = k.CLOCK_MONOTONIC ∨
        clock_id = k.CLOCK_MONOTONIC_RAW) →
      clock_getres k clock_id res errno = (-1, res, k.EINVAL)) := by
  unfold clock_getres
  by_cases h : clock_id = k.CLOCK_REALTIME ∨ clock_id = k.CLOCK_MONOTONIC ∨
      clock_id = k.CLOCK_MONOTONIC_RAW
  · rw [if_pos h]
    refine ⟨⟨fun _ => h, fun _ => rfl⟩, fun _ => ?_, fun hn => absurd h hn⟩
    cases res <;> simp [ns2ts_one]
  · rw [if_neg h]
    exact ⟨⟨fun h1 => absurd h1 (by simp), fun h1 => absurd h1 h⟩,
      fun h1 => absurd h1 h, fun _ => rfl⟩

/-- C29: `clock_settime` returns -1 exactly when `clock_id` is not
`CLOCK_REALTIME` or `tp->tv_nsec` read as an `unsigned long` is at least
1,000,000,000, which every negative `tv_nsec` is; it then sets the error number
to `EINVAL` and does not call `xnclock_adjust`.  Otherwise it returns 0, leaves
the error number alone and calls `xnclock_adjust` once, with the difference of
the new date in nanoseconds and the clock reading, computed on 64 bits and
read as signed: this is exactly (seconds * 1,000,000,000 + nanoseconds) -
(clock reading) whenever that number fits the signed 64-bit type.  (The
`unsigned long` has at least 32 bits and `tv_nsec` is a `long`.) -/
theorem clock_settime_result (k : clock_consts) (hbits : 32 ≤ k.BITS_PER_LONG)
    (clock_id : Int) (tp : timespec) (now : Nat) (errno : Int)
    (hlong : -(2 ^ (k.BITS_PER_LONG - 1)) ≤ tp.tv_nsec) :
    ((clock_settime k clock_id tp now errno).1 = -1 ↔
      (clock_id ≠ k.CLOCK_REALTIME ∨ ulong_cast k tp.tv_nsec ≥ 1000000000)) ∧
    ((clock_id ≠ k.CLOCK_REALTIME ∨ ulong_cast k tp.tv_nsec ≥ 1000000000) →
      clock_settime k clock_id tp now errno = (-1, none, k.EINVAL)) ∧
    (tp.tv_nsec < 0 → clock_settime k clock_id tp now errno = (-1, none, k.EINVAL)) ∧
    (¬ (clock_id ≠ k.CLOCK_REALTIME ∨ ulong_cast k tp.tv_nsec ≥ 1000000000) →
      clock_settime k clock_id tp now errno =
        (0, some (xnsticks_cast (xnticks_sub (ts2ns tp) now)), errno) ∧
      (now < 2 ^ 64 →
        -(2 ^ 63) ≤ tp.tv_sec * 1000000000 + tp.tv_nsec - (now : Int) →
        tp.tv_sec * 1000000000 + tp.tv_nsec - (now : Int) < 2 ^ 63 →
        (clock_settime k clock_id tp now errno).2.1
          = some (tp.tv_sec * 1000000000 + tp.tv_nsec - (now : Int)))) := by
  have hrej : (clock_id ≠ k.CLOCK_REALTIME ∨ ulong_cast k tp.tv_nsec ≥ 1000000000) →
      clock_settime k clock_id tp now errno = (-1, none, k.EINVAL) := by
    intro h
    unfold clock_settime
    exact if_pos h
  have hacc : ¬ (clock_id ≠ k.CLOCK_REALTIME ∨ ulong_cast k tp.tv_nsec ≥ 1000000000) →
      clock_settime k clock_id tp now errno =
        (0, some (xnsticks_cast (xnticks_sub (ts2ns tp) now)), errno) := by
    intro h
    unfold clock_settime
    exact if_neg h
  refine ⟨⟨fun h => ?_, fun h => by rw [hrej h]⟩, hrej, fun hneg => ?_, fun h => ⟨hacc h, ?_⟩⟩
  · by_contra hn
    rw [hacc hn] at h
    exact absurd h (by simp)
  · exact hrej (Or.inr (ulong_cast_neg k hbits _ hlong hneg))
  · intro hnow hlo hhi
    rw [hacc h]
    simp only
    rw [xnsticks_cast_sub tp now hnow hlo hhi]

theorem clock_settime_result_witness :
    clock_settime linux_clock 0 { tv_sec := 5, tv_nsec := -1 } 7 0 = (-1, none, 22) ∧
    (clock_settime linux_clock 0 { tv_sec := 5, tv_nsec := 30 } 7000000000 0).2.1
      = some (-1999999970) :=
  ⟨(clock_settime_result linux_clock (by decide) 0 { tv_sec := 5, tv_nsec := -1 } 7 0
      (by decide)).2.2.1 (by decide),
    ((clock_settime_result linux_clock (by decide) 0 { tv_sec := 5, tv_nsec := 30 }
      7000000000 0 (by decide)).2.2.2 (by decide)).2 (by decide) (by decide) (by decide)⟩

theorem xnsticks_cast_sub_ge {a b : Nat} (ha : a < 2 ^ 64) (hb : b ≤ a)
    (hd : a - b < 2 ^ 63) : xnsticks_cast (xnticks_sub a b) = ((a - b : Nat) : Int) := by
  unfold xnsticks_cast xnticks_sub
  omega

theorem xnsticks_cast_sub_le {a b : Nat} (hb : b < 2 ^ 64) (ha : a ≤ b)
    (hd : b - a ≤ 2 ^ 63) : xnsticks_cast (xnticks_sub a b) ≤ 0 := by
  unfold xnsticks_cast xnticks_sub
  omega

theorem ns2ts_total (nsecs : Nat) :
    (ns2ts nsecs).tv_sec * 1000000000 + (ns2ts nsecs).tv_nsec = (nsecs : Int) := by
  unfold ns2ts ONE_BILLION
  simp only
  omega

/-- C30: `clock_nanosleep` checks its arguments in a fixed order and makes no
call on the calling thread (it does not suspend it) when it rejects them: it
returns `EPERM` if the calling context cannot block; else `ENOTSUP` if
`clock_id` is none of `CLOCK_MONOTONIC`, `CLOCK_MONOTONIC_RAW`,
`CLOCK_REALTIME`; else `EINVAL` if `rqtp->tv_nsec` read as an `unsigned long`
is at least 1,000,000,000 or `flags` has a bit which `TIMER_ABSTIME` has not.
Otherwise it suspends the caller once; when the sleep was interrupted it
returns `EINTR`, and it stores a remaining time at `rmtp` only if `flags` is 0
and `rmtp` is not NULL.  The time stored is `ns2ts` of `rem` when `rem` is
positive and of 0 otherwise, `rem` being the signed 64-bit difference of the
timer date and the clock date: its seconds and nanoseconds are not negative
and add up to `max rem 0`; it is the time left up to the timer date when that
date is ahead of the clock, and zero when it is not.  When the sleep was not
interrupted it returns 0 and stores nothing. -/
theorem clock_nanosleep_checks (k : clock_consts) (n : nanosleep_env) (clock_id : Int)
    (flags : Nat) (rqtp : timespec) (rmtp : Option timespec) :
    (n.unblockable = true →
      clock_nanosleep k n clock_id flags rqtp rmtp = (k.EPERM, [], rmtp)) ∧
    (n.unblockable = false →
      (clock_id ≠ k.CLOCK_MONOTONIC ∧ clock_id ≠ k.CLOCK_MONOTONIC_RAW ∧
        clock_id ≠ k.CLOCK_REALTIME) →
      clock_nanosleep k n clock_id flags rqtp rmtp = (k.ENOTSUP, [], rmtp)) ∧
    (n.unblockable = false →
      ¬ (clock_id ≠ k.CLOCK_MONOTONIC ∧ clock_id ≠ k.CLOCK_MONOTONIC_RAW ∧
        clock_id ≠ k.CLOCK_REALTIME) →
      (ulong_cast k rqtp.tv_nsec ≥ 1000000000 ∨
        ∃ i, flags.testBit i = true ∧ k.TIMER_ABSTIME.testBit i = false) →
      clock_nanosleep k n clock_id flags rqtp rmtp = (k.EINVAL, [], rmtp)) ∧
    (n.unblockable = false →
      ¬ (clock_id ≠ k.CLOCK_MONOTONIC ∧ clock_id ≠ k.CLOCK_MONOTONIC_RAW ∧
        clock_id ≠ k.CLOCK_REALTIME) →
      ulong_cast k rqtp.tv_nsec < 1000000000 →
      (∀ i, flags.testBit i = true → k.TIMER_ABSTIME.testBit i = true) →
      (clock_nanosleep k n clock_id flags rqtp rmtp).2.1 =
        [.thread_cancellation_point,
          .xnpod_suspend_thread ((ts2ns rqtp + 1) % 2 ^ 64) flags clock_id,
          .thread_cancellation_point] ∧
      (n.interrupted = false →
        (clock_nanosleep k n clock_id flags rqtp rmtp).1 = 0 ∧
        (clock_nanosleep k n clock_id flags rqtp rmtp).2.2 = rmtp) ∧
      (n.interrupted = true →
        (clock_nanosleep k n clock_id flags rqtp rmtp).1 = k.EINTR ∧
        (¬ (flags = 0 ∧ rmtp ≠ none) →
          (clock_nanosleep k n clock_id flags rqtp rmtp).2.2 = rmtp) ∧
        (flags = 0 ∧ rmtp ≠ none →
          ∃ ts, (clock_nanosleep k n clock_id flags rqtp rmtp).2.2 = some ts ∧
            ts = ns2ts (max (xnsticks_cast (xnticks_sub n.expiry n.now)) 0).toNat ∧
            0 ≤ ts.tv_sec ∧ 0 ≤ ts.tv_nsec ∧ ts.tv_nsec < 1000000000 ∧
            ts.tv_sec * 1000000000 + ts.tv_nsec
              = max (xnsticks_cast (xnticks_sub n.expiry n.now)) 0 ∧
            (n.expiry < 2 ^ 64 → n.now ≤ n.expiry → n.expiry - n.now < 2 ^ 63 →
              ts = ns2ts (n.expiry - n.now)) ∧
            (n.now < 2 ^ 64 → n.expiry ≤ n.now → n.now - n.expiry ≤ 2 ^ 63 →
              ts = { tv_sec := 0, tv_nsec := 0 })))) := by
  have hbits : (flags ^^^ (flags &&& k.TIMER_ABSTIME) ≠ 0) ↔
      ∃ i, flags.testBit i = true ∧ k.TIMER_ABSTIME.testBit i = false := by
    constructor
    · intro h
      by_contra hn
      apply h
      apply Nat.eq_of_testBit_eq
      intro i
      simp only [Nat.testBit_xor, Nat.testBit_and, Nat.zero_testBit]
      cases hf : flags.testBit i
      · rfl
      · cases ha : k.TIMER_ABSTIME.testBit i
        · exact absurd ⟨i, hf, ha⟩ hn
        · rfl
    · rintro ⟨i, hf, ha⟩ h
      have := congrArg (fun v => v.testBit i) h
      simp [Nat.testBit_xor, Nat.testBit_and, hf, ha] at this
  unfold clock_nanosleep
  refine ⟨fun hu => by rw [if_pos hu], fun hu hc => ?_, fun hu hc hbad => ?_,
    fun hu hc hns hfl => ?_⟩
  · rw [if_neg (by rw [hu]; decide), if_pos hc]
  · rw [if_neg (by rw [hu]; decide), if_neg hc]
    by_cases hns : ulong_cast k rqtp.tv_nsec ≥ ONE_BILLION
    · rw [if_pos hns]
    · rw [if_neg hns]
      rcases hbad with hbad | hbad
      · exact absurd hbad hns
      · rw [if_pos (hbits.mpr hbad)]
  · have hok : ¬ (flags ^^^ (flags &&& k.TIMER_ABSTIME) ≠ 0) := by
      rw [hbits]
      rintro ⟨i, hf, ha⟩
      rw [hfl i hf] at ha
      exact absurd ha (by decide)
    rw [if_neg (by rw [hu]; decide), if_neg hc,
      if_neg (show ¬ ulong_cast k rqtp.tv_nsec ≥ ONE_BILLION from by
        unfold ONE_BILLION; omega), if_neg hok]
    simp only
    refine ⟨?_, fun hi => ?_, fun hi => ?_⟩
    · split_ifs <;> rfl
    · rw [if_neg (by rw [hi]; decide)]
      exact ⟨rfl, rfl⟩
    · rw [if_pos hi]
      refine ⟨by split_ifs <;> rfl, fun hno => by rw [if_neg hno], fun hyes => ?_⟩
      rw [if_pos hyes]
      have hmax : (if xnsticks_cast (xnticks_sub n.expiry n.now) > 0 then
          xnsticks_cast (xnticks_sub n.expiry n.now) else 0)
          = max (xnsticks_cast (xnticks_sub n.expiry n.now)) 0 := by
        split_ifs with h
        · exact (max_eq_left (le_of_lt h)).symm
        · exact (max_eq_right (not_lt.mp h)).symm
      simp only [hmax]
      obtain ⟨n1, n2, n3⟩ :=
        ns2ts_nonneg (max (xnsticks_cast (xnticks_sub n.expiry n.now)) 0).toNat
      refine ⟨_, rfl, rfl, n1, n2, n3, ?_, ?_, ?_⟩
      · rw [ns2ts_total, Int.toNat_of_nonneg (le_max_right _ _)]
      · intro h1 h2 h3
        rw [xnsticks_cast_sub_ge h1 h2 h3]
        congr 1
        omega
      · intro h1 h2 h3
        rw [max_eq_right (xnsticks_cast_sub_le h1 h2 h3)]
        rfl

theorem clock_nanosleep_checks_witness :
    clock_nanosleep linux_clock ⟨true, false, 0, 0⟩ 7 2 ⟨0, -1⟩ none = (1, [], none) ∧
    clock_nanosleep linux_clock ⟨false, false, 0, 0⟩ 7 2 ⟨0, -1⟩ none = (95, [], none) ∧
    clock_nanosleep linux_clock ⟨false, false, 0, 0⟩ 1 2 ⟨0, 5⟩ none = (22, [], none) ∧
    ((clock_nanosleep linux_clock ⟨false, true, 100, 2000000350⟩ 1 0 ⟨5, 0⟩
        (some ⟨0, 0⟩)).1 = 4 ∧
      ∃ ts, (clock_nanosleep linux_clock ⟨false, true, 100, 2000000350⟩ 1 0 ⟨5, 0⟩
          (some ⟨0, 0⟩)).2.2 = some ts ∧
        ts = ns2ts (2000000350 - 100)) ∧
    (∃ ts, (clock_nanosleep linux_clock ⟨false, true, 2000000350, 100⟩ 1 0 ⟨5, 0⟩
        (some ⟨7, 7⟩)).2.2 = some ts ∧ ts = { tv_sec := 0, tv_nsec := 0 }) ∧
    (clock_nanosleep linux_clock ⟨false, true, 100, 2000000350⟩ 1 0 ⟨5, 0⟩ none).2.2
      = none :=
  ⟨(clock_nanosleep_checks linux_clock ⟨true, false, 0, 0⟩ 7 2 ⟨0, -1⟩ none).1 rfl,
    (clock_nanosleep_checks linux_clock ⟨false, false, 0, 0⟩ 7 2 ⟨0, -1⟩ none).2.1 rfl
      (by decide),
    (clock_nanosleep_checks linux_clock ⟨false, false, 0, 0⟩ 1 2 ⟨0, 5⟩ none).2.2.1 rfl
      (by decide) (Or.inr ⟨1, by decide, by decide⟩),
    ⟨((clock_nanosleep_checks linux_clock ⟨false, true, 100, 2000000350⟩ 1 0 ⟨5, 0⟩
        (some ⟨0, 0⟩)).2.2.2 rfl (by decide) (by decide) (by simp)).2.2 rfl |>.1,
      (((clock_nanosleep_checks linux_clock ⟨false, true, 100, 2000000350⟩ 1 0 ⟨5, 0⟩
        (some ⟨0, 0⟩)).2.2.2 rfl (by decide) (by decide) (by simp)).2.2 rfl |>.2.2
          ⟨rfl, by simp⟩).imp
        (fun _ h => ⟨h.1, h.2.2.2.2.2.2.1 (by norm_num) (by norm_num) (by norm_num)⟩)⟩,
    (((clock_nanosleep_checks linux_clock ⟨false, true, 2000000350, 100⟩ 1 0 ⟨5, 0⟩
        (some ⟨7, 7⟩)).2.2.2 rfl (by decide) (by decide) (by simp)).2.2 rfl |>.2.2
          ⟨rfl, by simp⟩).imp
        (fun _ h => ⟨h.1, h.2.2.2.2.2.2.2 (by norm_num) (by norm_num) (by norm_num)⟩),
    ((clock_nanosleep_checks linux_clock ⟨false, true, 100, 2000000350⟩ 1 0 ⟨5, 0⟩
        none).2.2.2 rfl (by decide) (by decide) (by simp)).2.2 rfl |>.2.1 (by simp)⟩

/-! ## Claims on the multi-level queue: lookup, element count, round trips -/

theorem xnsched_mlq_eq {a b : xnsched_mlq} (h1 : a.loprio = b.loprio)
    (h2 : a.hiprio = b.hiprio) (h3 : a.elems = b.elems) (h4 : a.himap = b.himap)
    (h5 : a.lomap = b.lomap) (h6 : a.heads = b.heads) : a = b := by
  cases a
  cases b
  simp only at h1 h2 h3 h4 h5 h6
  subst h1 h2 h3 h4 h5 h6
  rfl

theorem or_ulong_bit_and_not (c : mlq_config) (w : Nat) {n : Nat}
    (h : n < c.BITS_PER_LONG) (hw : w < 2 ^ c.BITS_PER_LONG) (hbit : w.testBit n = false) :
    (w ||| ulong_bit c n) &&& ulong_not c (ulong_bit c n) = w := by
  apply Nat.eq_of_testBit_eq
  intro j
  rw [testBit_and_not_ulong_bit c _ h (Nat.or_lt_two_pow hw (ulong_bit_lt c n)),
    testBit_or_ulong_bit c _ h]
  by_cases hj : n = j
  · subst hj
    simp [hbit]
  · simp [hj]

theorem or_ulong_bit_self (c : mlq_config) (w : Nat) {n : Nat}
    (h : n < c.BITS_PER_LONG) (hbit : w.testBit n = true) : w ||| ulong_bit c n = w := by
  apply Nat.eq_of_testBit_eq
  intro j
  rw [testBit_or_ulong_bit c _ h]
  by_cases hj : n = j
  · subst hj
    simp [hbit]
  · simp [hj]

theorem removemlq_link {c : mlq_config} {mem : ThreadMem} {q : xnsched_mlq}
    (hc : c.sane) (hwf : mlq_wf c mem q) {t : ThreadPtr}
    (hlo : q.loprio ≤ (mem t).cprio) (hhi : (mem t).cprio ≤ q.hiprio)
    (hnl : ¬ mlq_linked q t) {l : List ThreadPtr}
    (hl : l.erase t = q.heads (mlq_index mem q t)) :
    removemlq c (mlq_link c q (mlq_index mem q t) l) t (mlq_index mem q t) = q := by
  have hidx := mlq_index_lt hwf hlo hhi
  obtain ⟨hhiw, hlow⟩ := mlq_word_lt hc hidx
  obtain ⟨hbl, hbh⟩ := hwf.bitmaps
  have hheads : (mlq_link c q (mlq_index mem q t) l).heads (mlq_index mem q t) = l := by
    simp [mlq_link]
  apply xnsched_mlq_eq
  · exact (removemlq_prio c _ t _).1
  · exact (removemlq_prio c _ t _).2
  · rw [removemlq_elems]
    simp only [mlq_link]
    omega
  · rw [removemlq_himap, hheads, hl]
    by_cases he : q.heads (mlq_index mem q t) = []
    · have hbit : (q.lomap (mlq_index mem q t / c.BITS_PER_LONG)).testBit
          (mlq_index mem q t % c.BITS_PER_LONG) = false := by
        cases hb : (q.lomap (mlq_index mem q t / c.BITS_PER_LONG)).testBit
            (mlq_index mem q t % c.BITS_PER_LONG) with
        | false => rfl
        | true => exact absurd he ((hbl _).mp hb)
      simp only [mlq_link, he, if_true, true_and, Function.update_same]
      rw [or_ulong_bit_and_not c _ hlow (hwf.lomap_lt _) hbit]
      by_cases hz : q.lomap (mlq_index mem q t / c.BITS_PER_LONG) = 0
      · rw [if_pos hz]
        apply or_ulong_bit_and_not c _ hhiw hwf.himap_lt
        cases hb : q.himap.testBit (mlq_index mem q t / c.BITS_PER_LONG) with
        | false => rfl
        | true => exact absurd hz ((hbh _).mp hb)
      · rw [if_neg hz]
        exact or_ulong_bit_self c _ hhiw ((hbh _).mpr hz)
    · simp only [mlq_link, he, if_false, false_and]
  · rw [removemlq_lomap, hheads, hl]
    by_cases he : q.heads (mlq_index mem q t) = []
    · have hbit : (q.lomap (mlq_index mem q t / c.BITS_PER_LONG)).testBit
          (mlq_index mem q t % c.BITS_PER_LONG) = false := by
        cases hb : (q.lomap (mlq_index mem q t / c.BITS_PER_LONG)).testBit
            (mlq_index mem q t % c.BITS_PER_LONG) with
        | false => rfl
        | true => exact absurd he ((hbl _).mp hb)
      simp only [mlq_link, he, if_true, Function.update_same, Function.update_idem]
      rw [or_ulong_bit_and_not c _ hlow (hwf.lomap_lt _) hbit, Function.update_eq_self]
    · simp only [mlq_link, he, if_false]
  · rw [removemlq_heads]
    funext i
    by_cases hi : i = mlq_index mem q t
    · rw [hi, hheads, hl]
    · simp only [mlq_link, Function.update_noteq hi]
      exact List.erase_of_not_mem (fun hm => hnl ⟨i, hm⟩)
theorem erase_append_singleton {l : List ThreadPtr} {t : ThreadPtr} (h : t ∉ l) :
    (l ++ [t]).erase t = l := by
  rw [List.erase_append_right _ h]
  simp

/-- C34: on every well-formed queue (the bitmaps matching the buckets, every
queued thread on the bucket of its `cprio`, `elems` the number of queued
threads) and for every thread `t` which is not queued and whose `cprio` is in
range, `sched_insertqlf` or `sched_insertqff` of `t` followed by
`sched_removeq(q, t)` gives back the queue as it was before the insert
(`elems`, `himap`, every word of `lomap`, the sequence of every bucket, and the
bounds); and when no queued thread has a `cprio` higher than that of `t`,
`sched_insertqlf` of `t` followed by `sched_getq` returns `t` and gives back
the queue as it was. -/
theorem insert_then_remove_restores (c : mlq_config) (hc : c.sane) (mem : ThreadMem)
    (q : xnsched_mlq) (hwf : mlq_wf c mem q) (t : ThreadPtr)
    (hnl : ¬ mlq_linked q t) (hlo : q.loprio ≤ (mem t).cprio)
    (hhi : (mem t).cprio ≤ q.hiprio) :
    (sched_insertqlf c mem q t).1 = .ok () ∧
    (sched_insertqff c mem q t).1 = .ok () ∧
    sched_removeq c mem (sched_insertqlf c mem q t).2 t = (.ok (), q) ∧
    sched_removeq c mem (sched_insertqff c mem q t).2 t = (.ok (), q) ∧
    ((∀ u, mlq_linked q u → (mem u).cprio ≤ (mem t).cprio) →
      sched_getq c (sched_insertqlf c mem q t).2 = (.ok (some t), q)) := by
  have hnb : t ∉ q.heads (mlq_index mem q t) := fun hm => hnl ⟨_, hm⟩
  have hlf : removemlq c (mlq_link c q (mlq_index mem q t) (t :: q.heads (mlq_index mem q t)))
      t (mlq_index mem q t) = q :=
    removemlq_link hc hwf hlo hhi hnl (List.erase_cons_head t _)
  have hff : removemlq c (mlq_link c q (mlq_index mem q t) (q.heads (mlq_index mem q t) ++ [t]))
      t (mlq_index mem q t) = q :=
    removemlq_link hc hwf hlo hhi hnl (erase_append_singleton hnb)
  rw [sched_insertqlf_eq c mem q t hlo hhi hwf.range, sched_insertqff_eq c mem q t hlo hhi hwf.range]
  refine ⟨rfl, rfl, ?_, ?_, ?_⟩
  · rw [sched_removeq_eq c mem
      (mlq_link c q (mlq_index mem q t) (t :: q.heads (mlq_index mem q t))) t hlo hhi hwf.range]
    exact congrArg (Prod.mk (Except.ok ())) hlf
  · rw [sched_removeq_eq c mem
      (mlq_link c q (mlq_index mem q t) (q.heads (mlq_index mem q t) ++ [t])) t hlo hhi hwf.range]
    exact congrArg (Prod.mk (Except.ok ())) hff
  · intro hmax
    have hwf1 : mlq_wf c mem
        (mlq_link c q (mlq_index mem q t) (t :: q.heads (mlq_index mem q t))) :=
      mlq_wf_link hc hwf hlo hhi hnl (List.Perm.refl _)
    have hb : (mlq_link c q (mlq_index mem q t) (t :: q.heads (mlq_index mem q t))).heads
        (mlq_index mem q t) = t :: q.heads (mlq_index mem q t) := by
      simp [mlq_link]
    cases h : mlq_threads c
        (mlq_link c q (mlq_index mem q t) (t :: q.heads (mlq_index mem q t))) with
    | nil =>
      have hm : t ∈ mlq_threads c
          (mlq_link c q (mlq_index mem q t) (t :: q.heads (mlq_index mem q t))) :=
        (mlq_linked_iff_mem_threads hwf1 t).mp ⟨_, by rw [hb]; exact List.mem_cons_self _ _⟩
      rw [h] at hm
      exact absurd hm (List.not_mem_nil t)
    | cons t1 r =>
      obtain ⟨idx, hg, hidxne, hhead, hmin, _, _⟩ := sched_getq_cons hc hwf1 h
      have hle : idx ≤ mlq_index mem q t := by
        by_contra hlt
        have := hmin _ (not_le.mp hlt)
        rw [hb] at this
        exact absurd this (List.cons_ne_nil _ _)
      have hidx : idx = mlq_index mem q t := by
        by_contra hne
        have ht1 : t1 ∈ (mlq_link c q (mlq_index mem q t)
            (t :: q.heads (mlq_index mem q t))).heads idx := List.mem_of_mem_head? hhead
        have ht1q : t1 ∈ q.heads idx := by
          simpa [mlq_link, Function.update_noteq hne] using ht1
        have hp := hwf.place idx t1 ht1q
        have hle1 := hmax t1 ⟨idx, ht1q⟩
        have h2 := hp.2.2
        unfold mlq_index at hle hne
        omega
      rw [hidx, hb] at hhead
      simp only [List.head?_cons, Option.some.injEq] at hhead
      rw [hg, hidx, ← hhead, hlf]

theorem demo_queue_mem {i : Nat} {u : ThreadPtr} (hi : u ∈ demo_queue.heads i) : u = 10 := by
  have h10 : (prio_mem 10).cprio = 10 := rfl
  have hd : demo_queue = (sched_insertqlf cfg32 prio_mem (sched_initq cfg32 0 99).2 10).2 :=
    rfl
  rw [hd, sched_insertqlf_eq _ _ _ _ (by rw [h10]; decide) (by rw [h10]; decide) (by decide)] at hi
  simp only [mlq_link, sched_initq, Function.update_apply] at hi
  split_ifs at hi with h
  · simpa using hi
  · simp at hi

theorem insert_then_remove_restores_witness :
    sched_removeq cfg32 prio_mem (sched_insertqlf cfg32 prio_mem demo_queue 30).2 30
      = (.ok (), demo_queue) ∧
    sched_getq cfg32 (sched_insertqlf cfg32 prio_mem demo_queue 30).2
      = (.ok (some 30), demo_queue) :=
  ⟨(insert_then_remove_restores cfg32 (by decide) prio_mem demo_queue demo_queue_wf
      30 (fun ⟨_, hi⟩ => absurd (demo_queue_mem hi) (by decide)) (by decide)
      (by decide)).2.2.1,
    (insert_then_remove_restores cfg32 (by decide) prio_mem demo_queue demo_queue_wf
      30 (fun ⟨_, hi⟩ => absurd (demo_queue_mem hi) (by decide)) (by decide)
      (by decide)).2.2.2.2 (fun u ⟨_, hi⟩ => by rw [demo_queue_mem hi]; decide)⟩

/-! ## Claims on `xnsched_putback` -/

theorem nucleus_eq {RQ : Type} {a b : nucleus RQ} (h1 : a.threads = b.threads)
    (h2 : a.scheds = b.scheds) (h3 : a.registry = b.registry) (h4 : a.runq = b.runq) :
    a = b := by
  cases a
  cases b
  simp only at h1 h2 h3 h4
  subst h1 h2 h3 h4
  rfl

theorem or_eq_of_and_eq {a b : Nat} (h : a &&& b = b) : a ||| b = a := by
  apply Nat.eq_of_testBit_eq
  intro i
  have hi := congrArg (fun n => n.testBit i) h
  simp only [Nat.testBit_and] at hi
  simp only [Nat.testBit_or]
  cases ha : a.testBit i <;> cases hb : b.testBit i <;> simp_all

theorem putback_ready (f : xn_flags) (w : nucleus run_queues) (t : ThreadPtr)
    (hready : (w.threads t).state &&& f.XNREADY ≠ 0) :
    xnsched_putback f w t =
      xnsched_set_resched f (xnsched_enqueue (xnsched_dequeue w t) t) (w.threads t).sched := by
  unfold xnsched_putback
  simp only [test_state_true_of_and_ne_zero w t _ hready, if_true]
  simp [xnsched_enqueue, xnsched_dequeue]

theorem putback_post (f : xn_flags) (hr : f.XNREADY ≠ 0) (w : nucleus run_queues)
    (t : ThreadPtr) (hcons : rq_consistent f w t) :
    ((xnsched_putback f w t).threads t).state &&& f.XNREADY ≠ 0 ∧
    ((xnsched_putback f w t).threads t).sched = (w.threads t).sched ∧
    ((xnsched_putback f w t).threads t).sched_class = (w.threads t).sched_class ∧
    (∃ l, (xnsched_putback f w t).runq (w.threads t).sched (w.threads t).sched_class
        = l ++ [t] ∧ t ∉ l) ∧
    (∀ s c, t ∈ (xnsched_putback f w t).runq s c →
      s = (w.threads t).sched ∧ c = (w.threads t).sched_class) ∧
    ((xnsched_putback f w t).scheds (w.threads t).sched).status &&& f.XNRESCHED
      = f.XNRESCHED := by
  by_cases hready : (w.threads t).state &&& f.XNREADY = 0
  · have hnl : ∀ s c, t ∉ w.runq s c := fun s c hm => hcons.2 hready ⟨s, c, hm⟩
    rw [putback_not_ready f w t hready]
    refine ⟨?_, ?_, ?_, ⟨w.runq (w.threads t).sched (w.threads t).sched_class, ?_, hnl _ _⟩,
      ?_, ?_⟩
    · simp only [xnsched_set_resched, xnsched_enqueue, xnthread_set_state,
        Function.update_same]
      rw [or_and_self_right]
      exact hr
    · simp [xnsched_set_resched, xnsched_enqueue, xnthread_set_state]
    · simp [xnsched_set_resched, xnsched_enqueue, xnthread_set_state]
    · simp only [xnsched_set_resched]
      rw [enqueue_runq]
      simp [xnthread_set_state]
    · intro s c hm
      simp only [xnsched_set_resched] at hm
      rw [enqueue_runq] at hm
      simp only [xnthread_set_state, Function.update_same] at hm
      split_ifs at hm with h
      · exact h
      · exact absurd hm (hnl s c)
    · simp only [xnsched_set_resched, Function.update_same]
      exact or_and_self_right _ _
  · obtain ⟨hcount, honly⟩ := hcons.1 hready
    rw [putback_ready f w t hready]
    have hth : (xnsched_dequeue w t).threads = w.threads := rfl
    refine ⟨?_, ?_, ?_,
      ⟨(w.runq (w.threads t).sched (w.threads t).sched_class).erase t, ?_,
        not_mem_erase_of_count_one hcount⟩, ?_, ?_⟩
    · simpa [xnsched_set_resched, xnsched_enqueue, xnsched_dequeue] using hready
    · simp [xnsched_set_resched, xnsched_enqueue, xnsched_dequeue]
    · simp [xnsched_set_resched, xnsched_enqueue, xnsched_dequeue]
    · simp only [xnsched_set_resched]
      rw [enqueue_runq, hth, dequeue_runq]
      simp
    · intro s c hm
      simp only [xnsched_set_resched] at hm
      rw [enqueue_runq, hth] at hm
      split_ifs at hm with h
      · exact h
      · exact absurd hm (dequeue_unlinks f w t hcons hready s c)
    · simp only [xnsched_set_resched, Function.update_same]
      exact or_and_self_right _ _

theorem putback_twice (f : xn_flags) (hr : f.XNREADY ≠ 0) (w : nucleus run_queues)
    (t : ThreadPtr) (hcons : rq_consistent f w t) :
    xnsched_putback f (xnsched_putback f w t) t = xnsched_putback f w t := by
  obtain ⟨p1, p2, p3, ⟨l, hl, hnl⟩, _, p6⟩ := putback_post f hr w t hcons
  rw [putback_ready f (xnsched_putback f w t) t p1]
  apply nucleus_eq
  · rfl
  · simp only [xnsched_set_resched, xnsched_enqueue, xnsched_dequeue]
    rw [p2, or_eq_of_and_eq p6]
    exact Function.update_eq_self _ _
  · rfl
  · funext s c
    simp only [xnsched_set_resched]
    rw [enqueue_runq]
    have hth : (xnsched_dequeue (xnsched_putback f w t) t).threads
        = (xnsched_putback f w t).threads := rfl
    rw [hth, dequeue_runq, p2, p3]
    split_ifs with h
    · rw [h.1, h.2, hl, erase_append_singleton hnl]
    · rfl

/-- C35: for every thread which is linked as its `XNREADY` flag tells, ready
or not, `xnsched_putback` returns with the thread marked `XNREADY`, linked
exactly once on the run queue of its class on its owning context and on no
other queue, and with a reschedule requested on that context; and a second
`xnsched_putback` right after the first leaves the scheduler state which the
first one left.  (`XNREADY` is a mask which has a bit.) -/
theorem putback_links_once_idempotent (f : xn_flags) (hr : f.XNREADY ≠ 0)
    (w : nucleus run_queues) (thread : ThreadPtr) (hcons : rq_consistent f w thread) :
    ((xnsched_putback f w thread).threads thread).state &&& f.XNREADY ≠ 0 ∧
    ((w.threads thread).state &&& f.XNREADY = 0 →
      ((xnsched_putback f w thread).threads thread).state &&& f.XNREADY = f.XNREADY) ∧
    ((xnsched_putback f w thread).runq (w.threads thread).sched
      (w.threads thread).sched_class).count thread = 1 ∧
    (∀ s c, thread ∈ (xnsched_putback f w thread).runq s c →
      s = (w.threads thread).sched ∧ c = (w.threads thread).sched_class) ∧
    ((xnsched_putback f w thread).threads thread).sched = (w.threads thread).sched ∧
    ((xnsched_putback f w thread).threads thread).sched_class
      = (w.threads thread).sched_class ∧
    ((xnsched_putback f w thread).scheds (w.threads thread).sched).status &&& f.XNRESCHED
      = f.XNRESCHED ∧
    xnsched_putback f (xnsched_putback f w thread) thread = xnsched_putback f w thread := by
  obtain ⟨p1, p2, p3, ⟨l, hl, hnl⟩, p5, p6⟩ := putback_post f hr w thread hcons
  refine ⟨p1, ?_, ?_, p5, p2, p3, p6, putback_twice f hr w thread hcons⟩
  · intro hready
    rw [putback_not_ready f w thread hready]
    simp only [xnsched_set_resched, xnsched_enqueue, xnthread_set_state, Function.update_same]
    exact or_and_self_right _ _
  · rw [hl, List.count_append, List.count_eq_zero_of_not_mem hnl]
    simp

theorem putback_links_once_idempotent_witness :
    ((xnsched_putback demo_flags migrating_nucleus 5).runq 0 1).count 5 = 1 ∧
    ((xnsched_putback demo_flags blocked_nucleus 6).runq 0 1).count 6 = 1 ∧
    xnsched_putback demo_flags (xnsched_putback demo_flags blocked_nucleus 6) 6
      = xnsched_putback demo_flags blocked_nucleus 6 :=
  ⟨(putback_links_once_idempotent demo_flags (by decide) migrating_nucleus 5
      migrating_nucleus_consistent).2.2.1,
    (putback_links_once_idempotent demo_flags (by decide) blocked_nucleus 6
      blocked_nucleus_consistent).2.2.1,
    (putback_links_once_idempotent demo_flags (by decide) blocked_nucleus 6
      blocked_nucleus_consistent).2.2.2.2.2.2.2⟩
/-! ## Claims on the counters of `xnsched_set_policy` -/

theorem set_policy_declare_same {P : Type} (e : policy_env P) (w : nucleus run_queues)
    (thread : ThreadPtr) (sched_class : ClassPtr) (p : P)
    (h : some sched_class = (w.threads thread).base_class) :
    set_policy_declare e w thread sched_class p = (none, [], w) := by
  unfold set_policy_declare
  have h1 : (some sched_class != (w.threads thread).base_class) = false := by
    simpa using h
  simp only [h1, Bool.false_eq_true, if_false]

theorem set_policy_declare_accept {P : Type} (e : policy_env P) (w : nucleus run_queues)
    (thread : ThreadPtr) (sched_class : ClassPtr) (p : P)
    (h : some sched_class ≠ (w.threads thread).base_class)
    (ha : e.has_sched_declare sched_class = false ∨
      (e.sched_declare sched_class thread p w).1 = 0) :
    set_policy_declare e w thread sched_class p =
      (none,
        if e.has_sched_declare sched_class then [.sched_declare sched_class thread] else [],
        nthreads_incr
          (if e.has_sched_declare sched_class then (e.sched_declare sched_class thread p w).2
            else w) sched_class) := by
  unfold set_policy_declare
  have h1 : (some sched_class != (w.threads thread).base_class) = true := by
    simpa using h
  simp only [h1, if_true]
  by_cases hh : e.has_sched_declare sched_class = true
  · have h0 : (e.sched_declare sched_class thread p w).1 = 0 := by
      rcases ha with ha | ha
      · rw [hh] at ha
        exact absurd ha (by decide)
      · exact ha
    have h3 : ((e.sched_declare sched_class thread p w).1 != 0) = false := by
      simpa using h0
    simp only [hh, h3, if_true, Bool.false_eq_true, if_false]
  · simp only [hh, if_false]
    simp

theorem set_policy_apply_calls {P : Type} (f : xn_flags) (x : ext_env run_queues)
    (e : policy_env P) (w : nucleus run_queues) (thread : ThreadPtr) (sched_class : ClassPtr)
    (p : P) :
    (set_policy_apply f x e w thread sched_class p).1 =
      (if (w.threads thread).base_class ≠ none ∧
          some sched_class ≠ (w.threads thread).base_class then [.xnsched_forget thread]
        else []) ++ [.xnsched_setparam thread] := by
  have hth : (if xnthread_test_state w thread f.XNREADY then xnsched_dequeue w thread
      else w).threads = w.threads := by
    split_ifs <;> rfl
  unfold set_policy_apply
  simp only [hth]
  by_cases hb : (w.threads thread).base_class = none
  · simp [hb]
  · by_cases hc : some sched_class = (w.threads thread).base_class
    · simp [hb, hc]
    · simp [hb, hc]

theorem set_policy_apply_unfold {P : Type} (f : xn_flags) (x : ext_env run_queues)
    (e : policy_env P) (w : nucleus run_queues) (thread : ThreadPtr) (sched_class : ClassPtr)
    (p : P) (w1 : nucleus run_queues) (r : List ext_call × nucleus run_queues)
    (w2 w3 w5 w6 : nucleus run_queues)
    (hw1 : w1 = if xnthread_test_state w thread f.XNREADY then xnsched_dequeue w thread else w)
    (hr : r = if (w.threads thread).base_class ≠ none then
        if some sched_class ≠ (w.threads thread).base_class then
          ([.xnsched_forget thread], x.effect (.xnsched_forget thread) w1)
        else ([], w1)
      else ([], w))
    (hw2 : w2 = { r.2 with threads := (Function.update r.2.threads thread
      { r.2.threads thread with sched_class := sched_class,
                                base_class := some sched_class }) })
    (hw3 : w3 = e.xnsched_setparam thread p w2)
    (hw5 : w5 = { w3 with threads := (Function.update w3.threads thread
      { w3.threads thread with
        bprio := (w3.threads thread).cprio,
        wprio := (w3.threads thread).cprio + (w3.registry.classes sched_class).weight }) })
    (hw6 : w6 = if xnthread_test_state w5 thread f.XNREADY then xnsched_enqueue w5 thread
      else w5) :
    set_policy_apply f x e w thread sched_class p =
      (r.1 ++ [.xnsched_setparam thread],
        if xnthread_test_state w6 thread f.XNSTARTED then
          xnsched_set_resched f w6 (w6.threads thread).sched
        else w6) := by
  have hth : w1.threads = w.threads := by rw [hw1]; split_ifs <;> rfl
  have hr1 : r = if (w.threads thread).base_class != none then
        if some sched_class != (w1.threads thread).base_class then
          ([.xnsched_forget thread], x.effect (.xnsched_forget thread) w1)
        else ([], w1)
      else ([], w) := by
    rw [hr, hth]
    by_cases hb : (w.threads thread).base_class = none
    · simp [hb]
    · by_cases hc : some sched_class = (w.threads thread).base_class
      · simp [hb, hc]
      · simp [hb, hc]
  subst hw6 hw5 hw3 hw2 hr1 hw1
  unfold set_policy_apply
  simp only [Function.update_same, Function.update_idem]

theorem set_policy_apply_nthreads {P : Type} (f : xn_flags) (x : ext_env run_queues)
    (e : policy_env P) (hn : policy_keeps_nthreads e) (hfg : forget_keeps_nthreads x)
    (w : nucleus run_queues) (thread : ThreadPtr) (sched_class : ClassPtr) (p : P)
    (k : ClassPtr)
    (hk : some k ≠ (w.threads thread).base_class ∨
      some sched_class = (w.threads thread).base_class) :
    ((set_policy_apply f x e w thread sched_class p).2.registry.classes k).nthreads
      = (w.registry.classes k).nthreads := by
  obtain ⟨w1, hw1⟩ : ∃ w1 : nucleus run_queues,
      w1 = (if xnthread_test_state w thread f.XNREADY then xnsched_dequeue w thread else w) :=
    ⟨_, rfl⟩
  have hth : w1.threads = w.threads := by rw [hw1]; split_ifs <;> rfl
  have hrg : w1.registry = w.registry := by rw [hw1]; split_ifs <;> rfl
  obtain ⟨r, hr⟩ : ∃ r : List ext_call × nucleus run_queues,
      r = (if (w.threads thread).base_class ≠ none then
        if some sched_class ≠ (w.threads thread).base_class then
          ([.xnsched_forget thread], x.effect (.xnsched_forget thread) w1)
        else ([], w1)
      else ([], w)) := ⟨_, rfl⟩
  have hrn : (r.2.registry.classes k).nthreads = (w.registry.classes k).nthreads := by
    rw [hr]
    split_ifs with hb hc
    · simp only
      rcases hk with hk | hk
      · rw [hfg thread w1 k (by rw [hth]; exact hk), hrg]
      · exact absurd hk hc
    · simp only
      rw [hrg]
    · rfl
  rw [set_policy_apply_unfold f x e w thread sched_class p w1 r _ _ _ _ hw1 hr rfl rfl rfl rfl]
  have hfin : ∀ a b : nucleus run_queues, a.registry = b.registry →
      (if xnthread_test_state a thread f.XNSTARTED then
        xnsched_set_resched f a (a.threads thread).sched else a).registry = b.registry := by
    intro a b hab
    split_ifs
    · exact hab
    · exact hab
  simp only
  rw [hfin _ (e.xnsched_setparam thread p
    ({ r.2 with threads := (Function.update r.2.threads thread
      { r.2.threads thread with sched_class := sched_class,
                                base_class := some sched_class }) }))
    (by split_ifs <;> rfl)]
  rw [hn.2.2]
  exact hrn

/-- C36: when `xnsched_set_policy` is called with the class which is already
the base class of the thread, the `sched_declare` hook is not called, the call
returns 0, and the counter `nthreads` of every class is what it was.  When the
class differs from the base class and `sched_declare` accepts or is absent,
the call returns 0, the counter `nthreads` of the new class is greater by
exactly 1, and `xnsched_forget(thread)` is called, before the base class is
replaced, exactly when the thread had a base class.  (The policy helpers leave
the counters alone and `sched_declare` leaves the base class alone;
`xnsched_forget` leaves the counters of the classes other than the base class
of the thread alone.) -/
theorem set_policy_counts_members {P : Type} (f : xn_flags) (x : ext_env run_queues)
    (e : policy_env P) (hn : policy_keeps_nthreads e) (hfg : forget_keeps_nthreads x)
    (w : nucleus run_queues) (thread : ThreadPtr) (sched_class : ClassPtr) (p : P) :
    (some sched_class = (w.threads thread).base_class →
      (xnsched_set_policy f x e w thread sched_class p).1 = 0 ∧
      (xnsched_set_policy f x e w thread sched_class p).2.1 = [.xnsched_setparam thread] ∧
      ∀ k, ((xnsched_set_policy f x e w thread sched_class p).2.2.registry.classes k).nthreads
        = (w.registry.classes k).nthreads) ∧
    (some sched_class ≠ (w.threads thread).base_class →
      (e.has_sched_declare sched_class = false ∨
        (e.sched_declare sched_class thread p w).1 = 0) →
      (xnsched_set_policy f x e w thread sched_class p).1 = 0 ∧
      ((xnsched_set_policy f x e w thread sched_class p).2.2.registry.classes
        sched_class).nthreads = (w.registry.classes sched_class).nthreads + 1 ∧
      (xnsched_set_policy f x e w thread sched_class p).2.1 =
        (if e.has_sched_declare sched_class then [.sched_declare sched_class thread] else [])
          ++ (if (w.threads thread).base_class ≠ none then [.xnsched_forget thread] else [])
          ++ [.xnsched_setparam thread] ∧
      (.xnsched_forget thread ∈ (xnsched_set_policy f x e w thread sched_class p).2.1 ↔
        (w.threads thread).base_class ≠ none)) := by
  constructor
  · intro hsame
    have hd := set_policy_declare_same e w thread sched_class p hsame
    rw [(set_policy_code f x e w thread sched_class p).2 (by rw [hd]), hd]
    refine ⟨rfl, ?_, fun k => ?_⟩
    · simp only
      rw [set_policy_apply_calls]
      simp [hsame]
    · exact set_policy_apply_nthreads f x e hn hfg w thread sched_class p k (Or.inr hsame)
  · intro hdiff ha
    have hd := set_policy_declare_accept e w thread sched_class p hdiff ha
    obtain ⟨d, hdd⟩ : ∃ d : nucleus run_queues,
        d = (if e.has_sched_declare sched_class then
          (e.sched_declare sched_class thread p w).2 else w) := ⟨_, rfl⟩
    rw [← hdd] at hd
    have hdb : (d.threads thread).base_class = (w.threads thread).base_class := by
      rw [hdd]
      split_ifs
      · exact hn.2.1 _ _ _ _ _
      · rfl
    have hdn : (d.registry.classes sched_class).nthreads
        = (w.registry.classes sched_class).nthreads := by
      rw [hdd]
      split_ifs
      · exact hn.1 _ _ _ _ _
      · rfl
    have hib : ((nthreads_incr d sched_class).threads thread).base_class
        = (w.threads thread).base_class := hdb
    have hcalls : (xnsched_set_policy f x e w thread sched_class p).2.1 =
        (if e.has_sched_declare sched_class then [.sched_declare sched_class thread] else [])
          ++ (if (w.threads thread).base_class ≠ none then [.xnsched_forget thread] else [])
          ++ [.xnsched_setparam thread] := by
      rw [(set_policy_code f x e w thread sched_class p).2 (by rw [hd]), hd]
      simp only
      rw [set_policy_apply_calls, hib]
      by_cases hb : (w.threads thread).base_class = none
      · simp [hb]
      · simp [hb, hdiff]
    refine ⟨?_, ?_, hcalls, ?_⟩
    · rw [(set_policy_code f x e w thread sched_class p).2 (by rw [hd])]
    · rw [(set_policy_code f x e w thread sched_class p).2 (by rw [hd]), hd]
      simp only
      rw [set_policy_apply_nthreads f x e hn hfg _ thread sched_class p sched_class
        (Or.inl (by rw [hib]; exact hdiff))]
      simp only [nthreads_incr, Function.update_same]
      rw [hdn]
    · rw [hcalls]
      by_cases hb : (w.threads thread).base_class = none
      · simp only [hb, ne_eq, not_true_eq_false, if_false, List.append_nil, List.mem_append,
          List.mem_singleton]
        constructor
        · rintro (h | h)
          · split_ifs at h
            · simp at h
            · simp at h
          · cases h
        · intro h
          exact absurd h (by simp)
      · simp [hb]

theorem counting_env_forget_keeps : forget_keeps_nthreads counting_env := by
  intro t w k hk
  simp only [counting_env]
  cases hb : (w.threads t).base_class with
  | none => rfl
  | some b =>
    have hne : k ≠ b := by
      intro h
      rw [hb, h] at hk
      exact hk rfl
    simp [Function.update_noteq hne]

theorem demo_policy_keeps_nthreads : policy_keeps_nthreads demo_policy :=
  ⟨fun _ _ _ _ _ => rfl, fun _ _ _ _ _ => rfl, fun _ _ _ _ => rfl⟩

theorem set_policy_counts_members_witness :
    ((xnsched_set_policy demo_flags counting_env demo_policy migrating_nucleus 5 2
      50).2.2.registry.classes 2).nthreads
      = (migrating_nucleus.registry.classes 2).nthreads + 1 ∧
    (xnsched_set_policy demo_flags counting_env demo_policy migrating_nucleus 5 2 50).2.1
      = [.sched_declare 2 5, .xnsched_forget 5, .xnsched_setparam 5] ∧
    (xnsched_set_policy demo_flags counting_env demo_policy migrating_nucleus 5 1 50).2.1
      = [.xnsched_setparam 5] :=
  ⟨((set_policy_counts_members demo_flags counting_env demo_policy demo_policy_keeps_nthreads
      counting_env_forget_keeps migrating_nucleus 5 2 50).2 (by decide)
      (Or.inr (by decide))).2.1,
    ((set_policy_counts_members demo_flags counting_env demo_policy demo_policy_keeps_nthreads
      counting_env_forget_keeps migrating_nucleus 5 2 50).2 (by decide)
      (Or.inr (by decide))).2.2.1,
    ((set_policy_counts_members demo_flags counting_env demo_policy demo_policy_keeps_nthreads
      counting_env_forget_keeps migrating_nucleus 5 1 50).1 (by decide)).2.1⟩

/-! ## The run-queue invariant is kept -/

theorem rq_consistent_congr {f : xn_flags} {w w1 : nucleus run_queues} {t : ThreadPtr}
    (hq : ∀ s c, (w1.runq s c).count t = (w.runq s c).count t)
    (hs : (w1.threads t).state &&& f.XNREADY = (w.threads t).state &&& f.XNREADY)
    (ho : (w1.threads t).sched = (w.threads t).sched)
    (hc : rq_linked w t → (w1.threads t).sched_class = (w.threads t).sched_class)
    (h : rq_consistent f w t) : rq_consistent f w1 t := by
  have hmem : ∀ s c, t ∈ w1.runq s c ↔ t ∈ w.runq s c := by
    intro s c
    rw [← List.count_pos_iff, ← List.count_pos_iff, hq]
  constructor
  · intro hr
    rw [hs] at hr
    obtain ⟨h1, h2⟩ := h.1 hr
    have hl : rq_linked w t := ⟨_, _, List.count_pos_iff.mp (by rw [h1]; exact Nat.one_pos)⟩
    rw [ho, hc hl, hq]
    exact ⟨h1, fun s c hm => h2 s c ((hmem s c).mp hm)⟩
  · intro hr
    rw [hs] at hr
    rintro ⟨s, c, hm⟩
    exact h.2 hr ⟨s, c, (hmem s c).mp hm⟩

theorem requeue_consistent (f : xn_flags) (w : nucleus run_queues) (t : ThreadPtr)
    (hnl : ∀ s c, t ∉ w.runq s c) (hr : (w.threads t).state &&& f.XNREADY ≠ 0) :
    rq_consistent f (xnsched_requeue w t) t := by
  have hth : (xnsched_requeue w t).threads = w.threads := rfl
  constructor
  · intro _
    rw [hth]
    constructor
    · rw [requeue_runq]
      simp only [and_self, if_true]
      rw [List.count_cons_self, List.count_eq_zero_of_not_mem (hnl _ _)]
    · intro s c hm
      rw [requeue_runq] at hm
      split_ifs at hm with h
      · exact h
      · exact absurd hm (hnl s c)
  · intro h0
    rw [hth] at h0
    exact absurd h0 hr

theorem migrating_nucleus_invariant : rq_invariant demo_flags migrating_nucleus := by
  intro t
  by_cases ht : t = 5
  · rw [ht]
    exact migrating_nucleus_consistent
  · have hs : (migrating_nucleus.threads t).state = 0x10000 := by
      simp [migrating_nucleus, ht]
    refine ⟨fun h => absurd (by rw [hs]; decide) h, fun _ => ?_⟩
    rintro ⟨s, c, hm⟩
    have hq : migrating_nucleus.runq s c = if s = 0 ∧ c = 1 then [5] else [] := rfl
    rw [hq] at hm
    split_ifs at hm with h
    · exact ht (List.mem_singleton.mp hm)
    · exact absurd hm (List.not_mem_nil t)

theorem orphan_nucleus_invariant : rq_invariant demo_flags orphan_nucleus :=
  fun t => rq_consistent_congr (fun _ _ => rfl) rfl rfl (fun _ => rfl)
    (migrating_nucleus_invariant t)

/-- Why `xnsched_set_policy` needs a thread with a base class once the thread
is marked `XNREADY`.  In `orphan_nucleus`
every thread is linked as its `XNREADY` flag tells; thread 5 is ready, linked
once on the queue of class 1 on context 0, and has no base class.
`xnsched_set_policy` of thread 5 to class 1 skips the dequeue (the base class
is NULL), returns 0, and leaves the thread linked twice on that queue. -/
theorem set_policy_without_base_class_links_twice :
    rq_invariant demo_flags orphan_nucleus ∧
    (orphan_nucleus.threads 5).base_class = none ∧
    (orphan_nucleus.runq 0 1).count 5 = 1 ∧
    (xnsched_set_policy demo_flags (quiet_env run_queues) demo_policy orphan_nucleus
      5 1 50).1 = 0 ∧
    ((xnsched_set_policy demo_flags (quiet_env run_queues) demo_policy orphan_nucleus
      5 1 50).2.2.runq 0 1).count 5 = 2 ∧
    ¬ rq_invariant demo_flags (xnsched_set_policy demo_flags (quiet_env run_queues)
      demo_policy orphan_nucleus 5 1 50).2.2 := by
  refine ⟨orphan_nucleus_invariant, rfl, by decide, by decide, by decide, ?_⟩
  intro h
  have h5 := (h 5).1 (by decide)
  exact absurd h5.1 (by decide)

/-- C7, on the 32-bit build at the range `[-1, 2147483647]`: the `int` value of
`hiprio - loprio + 1` is `-2147483647`, so the range check of `sched_initq`
passes; priority 0 is in the range and `indexmlq` returns 2147483647 for it, an
index which is not below the 264 buckets, whose word index 67108863 is neither
below the 9 words of `lomap` nor below the 32 bits of `himap`. -/
theorem wrapped_range_index_beyond_buckets :
    int_wrap cfg32 (2147483647 - (-1) + 1) = -2147483647 ∧
    (sched_initq cfg32 (-1) 2147483647).1 = .ok () ∧
    (sched_initq cfg32 (-1) 2147483647).2.loprio ≤ 0 ∧
    0 ≤ (sched_initq cfg32 (-1) 2147483647).2.hiprio ∧
    indexmlq cfg32 (sched_initq cfg32 (-1) 2147483647).2 0 = .ok 2147483647 ∧
    ¬ ((2147483647 : Int).toNat < cfg32.XNSCHED_MLQ_LEVELS) ∧
    ¬ ((2147483647 : Int).toNat / cfg32.BITS_PER_LONG < cfg32.MLQ_LONGS) ∧
    ¬ ((2147483647 : Int).toNat / cfg32.BITS_PER_LONG < cfg32.BITS_PER_LONG) :=
  ⟨by decide, by rfl, by decide, by decide, by rfl, by decide, by decide, by decide⟩

end Cobalt
